import Mathlib

/-!
AudioTrack: the shared control block and the client track.

Shallow embedding of `media/libmedia/AudioTrack.cpp`.

* `uint32_t` values are natural numbers below `2 ^ 32`; every arithmetic
  operation of the source that can wrap is followed by an explicit reduction
  modulo `2 ^ 32` (`u32`, `sub32`).
* `int` values are integers; a decrement that can leave the 32-bit range is
  reduced by `i32`.
* Mutexes are not modelled: a function that runs under `Mutex::Autolock` is its
  body.  The two `tryLock` attempts of `stepServer` and the condition-variable
  waits of `obtainBuffer` are inputs of the functions that perform them.
-/

namespace AudioTrack

/-! ## Machine integers -/

/-- Largest `uint32_t` value (`UINT_MAX` of `limits.h`). -/
abbrev UINT_MAX : Nat := 4294967295

/-- Reduction of a natural number to the `uint32_t` it denotes. -/
abbrev u32 (x : Nat) : Nat := x % 4294967296

/-- Difference `a - b` of two `uint32_t` values, wrapping modulo `2 ^ 32`. -/
abbrev sub32 (a b : Nat) : Nat := (a + 4294967296 - b % 4294967296) % 4294967296

/-- Reduction of an integer to the two's-complement `int32_t` it denotes. -/
abbrev i32 (x : Int) : Int := (x + 2147483648) % 4294967296 - 2147483648

/-! ## The control block -/

/-- Fields of `audio_track_cblk_t` that the client code reads or writes.
`buffers` is left out: sample addresses are kept as sample indices relative
to it. -/
structure audio_track_cblk_t where
  user : Nat
  server : Nat
  userBase : Nat
  serverBase : Nat
  frameCount : Nat
  loopStart : Nat
  loopEnd : Nat
  loopCount : Int
  volumeLR : Nat
  flowControlFlag : Nat
  forceReady : Nat
  out : Nat
  channels : Nat
  sampleRate : Nat
deriving DecidableEq, Repr

namespace audio_track_cblk_t

/-- All unsigned fields hold 32-bit values and `loopCount` a 32-bit signed one. -/
def WF (c : audio_track_cblk_t) : Prop :=
  c.user < 4294967296 ∧ c.server < 4294967296 ∧ c.userBase < 4294967296 ∧
  c.serverBase < 4294967296 ∧ c.frameCount < 4294967296 ∧
  c.loopStart < 4294967296 ∧ c.loopEnd < 4294967296 ∧
  -2147483648 ≤ c.loopCount ∧ c.loopCount < 2147483648

instance (c : audio_track_cblk_t) : Decidable c.WF := by
  unfold WF; infer_instance

/-- The control block built by the constructor `audio_track_cblk_t()`.  The
constructor leaves `out`, `channels` and `sampleRate` unset; they are 0 here. -/
def constructed : audio_track_cblk_t :=
  { user := 0, server := 0, userBase := 0, serverBase := 0, frameCount := 0,
    loopStart := UINT_MAX, loopEnd := UINT_MAX, loopCount := 0, volumeLR := 0,
    flowControlFlag := 1, forceReady := 0, out := 0, channels := 0, sampleRate := 0 }

/-- A playback control block of `frameCount` stereo frames whose cursors and
wrap bases all stand at `position`. -/
def playbackAt (frameCount position : Nat) : audio_track_cblk_t :=
  { constructed with frameCount := frameCount, out := 1, channels := 2, user := position,
                     server := position, userBase := position, serverBase := position }

/-- `audio_track_cblk_t::stepUser(frameCount)`: the returned value and the
control block after the call. -/
def stepUser (c : audio_track_cblk_t) (frameCount : Nat) : Nat × audio_track_cblk_t :=
  let u := u32 (c.user + frameCount)
  -- Ensure that user is never ahead of server for AudioRecord
  let u := if c.out = 0 ∧ u > c.server then c.server else u
  let userBase :=
    if u ≥ u32 (c.userBase + c.frameCount) then u32 (c.userBase + c.frameCount)
    else c.userBase
  (u, { c with userBase := userBase, user := u, flowControlFlag := 0 })

/-- Outcome of one `lock.tryLock()`. -/
inductive TryLock where
  | acquired
  | busy
  | failed
deriving DecidableEq, Repr

/-- Body of `stepServer` once the lock is held. -/
def stepServerLocked (c : audio_track_cblk_t) (frameCount : Nat) : audio_track_cblk_t :=
  let s := u32 (c.server + frameCount)
  -- a flush() may have reset the cursors while the mixer was processing a block
  let s := if c.out ≠ 0 ∧ s > c.user then c.user else s
  let r : Nat × audio_track_cblk_t :=
    if s ≥ c.loopEnd then
      let loopCount := i32 (c.loopCount - 1)
      if loopCount = 0 then
        (c.loopStart, { c with loopCount := loopCount, loopEnd := UINT_MAX, loopStart := UINT_MAX })
      else
        (c.loopStart, { c with loopCount := loopCount })
    else
      (s, c)
  let s := r.1
  let c := r.2
  let serverBase :=
    if s ≥ u32 (c.serverBase + c.frameCount) then u32 (c.serverBase + c.frameCount)
    else c.serverBase
  { c with serverBase := serverBase, server := s }

/-- `audio_track_cblk_t::stepServer(frameCount)`.  `first` is the result of the
first `tryLock`, `second` the result of the retry made after `usleep(1000)`
when the first one reported `-EBUSY`. -/
def stepServer (c : audio_track_cblk_t) (first second : TryLock) (frameCount : Nat) :
    Bool × audio_track_cblk_t :=
  let err := if first = TryLock.busy then second else first
  if err ≠ TryLock.acquired then (false, c)
  else (true, stepServerLocked c frameCount)

/-- `audio_track_cblk_t::framesAvailable_l()`. -/
def framesAvailable_l (c : audio_track_cblk_t) : Nat :=
  let u := c.user
  let s := c.server
  if c.out ≠ 0 then
    if u < c.loopEnd then
      sub32 (u32 (s + c.frameCount)) u
    else
      let limit := if s < c.loopStart then s else c.loopStart
      sub32 (u32 (limit + c.frameCount)) u
  else
    sub32 (u32 (c.frameCount + u)) s

/-- `audio_track_cblk_t::framesAvailable()`: `framesAvailable_l` under the lock. -/
def framesAvailable (c : audio_track_cblk_t) : Nat := framesAvailable_l c

/-- `audio_track_cblk_t::framesReady()`. -/
def framesReady (c : audio_track_cblk_t) : Nat :=
  let u := c.user
  let s := c.server
  if c.out ≠ 0 then
    if u < c.loopEnd then
      sub32 u s
    else
      if c.loopCount ≥ 0 then
        sub32 (u32 (u32 (sub32 c.loopEnd c.loopStart * (c.loopCount % 4294967296).toNat) + u)) s
      else
        UINT_MAX
  else
    sub32 s u

/-- `audio_track_cblk_t::buffer(offset)` as a sample index relative to `buffers`. -/
def buffer (c : audio_track_cblk_t) (offset : Nat) : Nat :=
  u32 (sub32 offset c.userBase * c.channels)

/-- The control block after `stepUser` has been called with each element of
`ns` in turn. -/
def stepUsers (c : audio_track_cblk_t) : List Nat → audio_track_cblk_t
  | [] => c
  | n :: ns => stepUsers (c.stepUser n).2 ns

/-- For every call of a sequence of `stepUser` calls, the value returned and
the control block left by the call. -/
def stepUserTrace (c : audio_track_cblk_t) : List Nat → List (Nat × audio_track_cblk_t)
  | [] => []
  | n :: ns => c.stepUser n :: stepUserTrace (c.stepUser n).2 ns

/-- One call made on the control block by the client or by the mixer. -/
inductive Op where
  | user (frameCount : Nat)
  | server (frameCount : Nat)
deriving DecidableEq, Repr

/-- The control block after an interleaving of `stepUser` calls and of
`stepServer` calls that acquired the lock. -/
def runOps (c : audio_track_cblk_t) : List Op → audio_track_cblk_t
  | [] => c
  | Op.user n :: ops => runOps (c.stepUser n).2 ops
  | Op.server n :: ops => runOps (c.stepServerLocked n) ops

/-- Every step of the sequence stays inside the ring: `user + n` does not pass
`userBase + frameCount`, the bound `obtainBuffer` puts on the frames it
grants, and `userBase + frameCount` is below `2 ^ 32`. -/
def ClampedSteps (c : audio_track_cblk_t) : List Nat → Prop
  | [] => True
  | n :: ns =>
    c.userBase + c.frameCount < 4294967296 ∧ c.user + n ≤ c.userBase + c.frameCount ∧
    ClampedSteps (c.stepUser n).2 ns

instance ClampedSteps.instDecidable (c : audio_track_cblk_t) (ns : List Nat) :
    Decidable (c.ClampedSteps ns) := by
  induction ns generalizing c with
  | nil => exact isTrue trivial
  | cons n ns ih =>
    unfold ClampedSteps
    have := ih (c.stepUser n).2
    infer_instance

/-- Every `stepUser` of the interleaving advances by at most
`framesAvailable_l()` frames, and no cursor addition wraps at `2 ^ 32`. -/
def GrantedOps (c : audio_track_cblk_t) : List Op → Prop
  | [] => True
  | Op.user n :: ops =>
    n ≤ c.framesAvailable_l ∧ c.user + n < 4294967296 ∧ GrantedOps (c.stepUser n).2 ops
  | Op.server n :: ops =>
    c.server + n < 4294967296 ∧ GrantedOps (c.stepServerLocked n) ops

instance GrantedOps.instDecidable (c : audio_track_cblk_t) (ops : List Op) :
    Decidable (c.GrantedOps ops) := by
  induction ops generalizing c with
  | nil => exact isTrue trivial
  | cons op ops ih =>
    cases op with
    | user n =>
      unfold GrantedOps
      have := ih (c.stepUser n).2
      infer_instance
    | server n =>
      unfold GrantedOps
      have := ih (c.stepServerLocked n)
      infer_instance

/-- The cursor order of a playback block without a loop: 32-bit cursors with
`server ≤ user ≤ server + frameCount`. -/
def CursorOrder (c : audio_track_cblk_t) : Prop :=
  c.out ≠ 0 ∧ c.loopStart = UINT_MAX ∧ c.loopEnd = UINT_MAX ∧ c.frameCount < 4294967296 ∧
  c.user < 4294967296 ∧ c.server ≤ c.user ∧ c.user ≤ c.server + c.frameCount

/-- The ring conditions of a playback block without a loop:
`server ≤ user ≤ server + frameCount`, and the producer offset
`user - userBase` inside the ring. -/
def RingState (c : audio_track_cblk_t) : Prop :=
  c.out ≠ 0 ∧ c.loopStart = UINT_MAX ∧ c.loopEnd = UINT_MAX ∧
  c.server ≤ c.user ∧ c.user ≤ c.server + c.frameCount ∧
  c.userBase ≤ c.user ∧ c.user - c.userBase < c.frameCount

instance (c : audio_track_cblk_t) : Decidable c.RingState := by
  unfold RingState; infer_instance

/-- None of the sums of the ring conditions wraps at `2 ^ 32`. -/
def NoWrap (c : audio_track_cblk_t) : Prop :=
  c.server + c.frameCount < 4294967296 ∧ c.userBase + c.frameCount < 4294967296

instance (c : audio_track_cblk_t) : Decidable c.NoWrap := by
  unfold NoWrap; infer_instance

/-- Ring order with room for `frames` more frames: the ring conditions hold
and neither `server + frameCount` nor `user + frames + frameCount` reaches
`2 ^ 32`, so that no cursor sum wraps while the producer writes `frames`
frames. -/
def RingRoom (c : audio_track_cblk_t) (frames : Nat) : Prop :=
  c.RingState ∧ c.server + c.frameCount < 4294967296 ∧
  c.user + frames + c.frameCount < 4294967296

instance (c : audio_track_cblk_t) (frames : Nat) : Decidable (c.RingRoom frames) := by
  unfold RingRoom; infer_instance

/-- The position `stepServer` computes before it tests the loop end:
`server + frameCount`, limited to `user` on a playback block. -/
def serverTarget (c : audio_track_cblk_t) (frameCount : Nat) : Nat :=
  let s := u32 (c.server + frameCount)
  if c.out ≠ 0 ∧ s > c.user then c.user else s

/-- The control block after an interleaving, together with the number of
`stepServer` calls of the interleaving whose position reached `b`. -/
def runCounting (b : Nat) (c : audio_track_cblk_t) :
    List Op → audio_track_cblk_t × Nat
  | [] => (c, 0)
  | Op.user n :: ops => runCounting b (c.stepUser n).2 ops
  | Op.server n :: ops =>
    let r := runCounting b (c.stepServerLocked n) ops
    (r.1, r.2 + (if c.serverTarget n ≥ b then 1 else 0))

end audio_track_cblk_t

/-! ## The client track -/

/-- Result codes returned by the client code. -/
inductive Status where
  | NO_ERROR
  | NO_INIT
  | INVALID_OPERATION
  | BAD_VALUE
  | NO_MORE_BUFFERS
  | WOULD_BLOCK
  | STOPPED
  | TIMED_OUT
deriving DecidableEq, Repr

/-- Modelled from the spec: the numeric values of the result codes are declared
in `utils/Errors.h` and `media/AudioTrack.h`, which are not among the sources.
This is the test `err < NO_ERROR`: every kind of section 7 is an error except
`STOPPED`, which reports a buffer that was obtained. -/
def Status.isNegative : Status → Bool
  | Status.NO_ERROR => false
  | Status.STOPPED => false
  | _ => true

/-- Modelled from the spec: `AudioSystem::PCM_16_BIT`, declared in
`media/AudioSystem.h`, which is not among the sources. -/
abbrev PCM_16_BIT : Int := 1

/-- Modelled from the spec: `AudioSystem::PCM_8_BIT`, declared in
`media/AudioSystem.h`, which is not among the sources. -/
abbrev PCM_8_BIT : Int := 2

/-- Modelled from the spec: `Buffer::MUTE`, the mute flag of a buffer
descriptor, declared in `media/AudioTrack.h`, which is not among the sources. -/
abbrev MUTE : Nat := 1

/-- The buffer descriptor `AudioTrack::Buffer`.  `raw` is a sample index
relative to the start of the PCM region. -/
structure Buffer where
  flags : Nat
  channelCount : Nat
  format : Int
  frameCount : Nat
  size : Nat
  raw : Nat
deriving DecidableEq, Repr

/-- Calls made on the server-side track (`mAudioTrack`). -/
inductive ServerCall where
  | start
  | stop
  | pause
  | flush
  | mute (e : Bool)
deriving DecidableEq, Repr

/-- State of an `AudioTrack` object after a successful `set()`.
`mSharedBuffer` and `mCbf` record whether a shared buffer and a callback are
present, `mCblk` is the mapped control block, and `serverCalls` lists the calls
issued on `mAudioTrack`, oldest first. -/
structure Track where
  mCblk : audio_track_cblk_t
  mFrameCount : Nat
  mChannelCount : Nat
  mFormat : Int
  mMuted : Bool
  mActive : Int
  mSharedBuffer : Bool
  mCbf : Bool
  mNotificationFrames : Nat
  mRemainingFrames : Nat
  mMarkerPosition : Nat
  mNewPosition : Nat
  mUpdatePeriod : Nat
  mLoopCount : Int
  serverCalls : List ServerCall
deriving DecidableEq, Repr

namespace Track

/-- `AudioTrack::stopped()`. -/
def stopped (t : Track) : Bool := decide (t.mActive = 0)

/-- `AudioTrack::setLoop(loopStart, loopEnd, loopCount)`. -/
def setLoop (t : Track) (loopStart loopEnd : Nat) (loopCount : Int) : Status × Track :=
  let cblk := t.mCblk
  if loopCount = 0 then
    (Status.NO_ERROR,
      { t with mCblk := { cblk with loopStart := UINT_MAX, loopEnd := UINT_MAX, loopCount := 0 },
               mLoopCount := 0 })
  else if loopStart ≥ loopEnd ∨ loopStart < cblk.user ∨
      sub32 loopEnd loopStart > t.mFrameCount then
    (Status.BAD_VALUE, t)
  else
    (Status.NO_ERROR,
      { t with mCblk := { cblk with loopStart := loopStart, loopEnd := loopEnd,
                                    loopCount := loopCount },
               mLoopCount := loopCount })

/-- `AudioTrack::setPosition(position)`. -/
def setPosition (t : Track) (position : Nat) : Status × Track :=
  if !t.stopped then (Status.INVALID_OPERATION, t)
  else if position > t.mCblk.user then (Status.BAD_VALUE, t)
  else
    (Status.NO_ERROR, { t with mCblk := { t.mCblk with server := position, forceReady := 1 } })

/-- `AudioTrack::getPosition(position)`: the status and the value stored through
the pointer; `nonNull` tells whether the pointer argument is non-null. -/
def getPosition (t : Track) (nonNull : Bool) : Status × Option Nat :=
  if !nonNull then (Status.BAD_VALUE, none)
  else (Status.NO_ERROR, some t.mCblk.server)

/-- What `obtainBuffer` finds when one `cv.waitRelative(lock, seconds(1))`
returns: whether the wait timed out, and the control block and `mActive` as
the other threads have left them. -/
structure Wakeup where
  timedOut : Bool
  cblk : audio_track_cblk_t
  active : Int
deriving DecidableEq, Repr

/-- The track as `obtainBuffer` sees it after a wait; a wait that timed out is
followed by `mAudioTrack->start()`. -/
def afterWait (t : Track) (w : Wakeup) : Track :=
  { t with mCblk := w.cblk, mActive := w.active,
           serverCalls := if w.timedOut then t.serverCalls ++ [ServerCall.start]
                          else t.serverCalls }

/-- The wake-ups listed for one `obtainBuffer` call end its wait: the last of
them finds free frames or a stopped track. -/
def EndsWait (ws : List Wakeup) : Prop :=
  match ws.getLast? with
  | some w => w.cblk.framesAvailable_l ≠ 0 ∨ w.active = 0
  | none => False

instance (ws : List Wakeup) : Decidable (EndsWait ws) := by
  unfold EndsWait; split <;> infer_instance

/-- The wait loop of `obtainBuffer`, entered at `start_loop_here`.  It returns
`none` when the listed wake-ups are used up and the thread is still waiting,
an error status when the loop returns from `obtainBuffer`, and otherwise the
number of available frames with which the loop is left. -/
def waitLoop (blocking : Bool) : List Wakeup → Track → Option (Sum Status Nat × Track)
  | ws, t =>
    let framesAvail := t.mCblk.framesAvailable_l
    if framesAvail = 0 then
      if t.mActive = 0 then some (Sum.inl Status.NO_MORE_BUFFERS, t)
      else if !blocking then some (Sum.inl Status.WOULD_BLOCK, t)
      else
        match ws with
        | [] => none
        | w :: ws => waitLoop blocking ws (t.afterWait w)
    else some (Sum.inr framesAvail, t)

/-- The number of frames `obtainBuffer` grants once `framesAvail` is known: the
request, limited to the available frames and then to the frames left before
the end of the ring, `userBase + frameCount`. -/
def grantedFrames (cblk : audio_track_cblk_t) (framesReq framesAvail : Nat) : Nat :=
  let framesReq := if framesReq > framesAvail then framesAvail else framesReq
  let u := cblk.user
  let bufferEnd := u32 (cblk.userBase + cblk.frameCount)
  if u32 (u + framesReq) > bufferEnd then sub32 bufferEnd u else framesReq

/-- `AudioTrack::obtainBuffer(audioBuffer, blocking)`: the status, the
descriptor and the track after the call, or `none` when the call is still
waiting after the listed wake-ups.  `size_t` is 32 bits wide, as the cast of
the shared buffer address to `uint32_t` in `set()` says. -/
def obtainBuffer (t : Track) (audioBuffer : Buffer) (blocking : Bool) (ws : List Wakeup) :
    Option (Status × Buffer × Track) :=
  let framesReq := audioBuffer.frameCount
  let audioBuffer := { audioBuffer with frameCount := 0, size := 0 }
  let framesAvail := t.mCblk.framesAvailable
  let waited : Option (Sum Status Nat × Track) :=
    if framesAvail = 0 then waitLoop blocking ws t else some (Sum.inr framesAvail, t)
  match waited with
  | none => none
  | some (Sum.inl err, t) => some (err, audioBuffer, t)
  | some (Sum.inr framesAvail, t) =>
    let cblk := t.mCblk
    let framesReq := grantedFrames cblk framesReq framesAvail
    let audioBuffer : Buffer :=
      { flags := if t.mMuted then MUTE else 0,
        channelCount := t.mChannelCount,
        format := PCM_16_BIT,
        frameCount := framesReq,
        size := u32 (u32 (framesReq * t.mChannelCount) * 2),
        raw := cblk.buffer cblk.user }
    some (if t.mActive ≠ 0 then Status.NO_ERROR else Status.STOPPED, audioBuffer, t)

/-- `AudioTrack::releaseBuffer(audioBuffer)`. -/
def releaseBuffer (t : Track) (audioBuffer : Buffer) : Track :=
  { t with mCblk := (t.mCblk.stepUser audioBuffer.frameCount).2 }

/-- Events delivered to the callback `mCbf`, each with its payload. -/
inductive Event where
  | EVENT_MORE_DATA (audioBuffer : Buffer)
  | EVENT_UNDERRUN
  | EVENT_LOOP_END (loopCount : Int)
  | EVENT_MARKER (position : Nat)
  | EVENT_NEW_POS (position : Nat)
  | EVENT_BUFFER_END
deriving DecidableEq, Repr

/-- Payloads of the `EVENT_LOOP_END` events of a list of events, in order. -/
def loopEndPayloads : List Event → List Int
  | [] => []
  | Event.EVENT_LOOP_END n :: es => n :: loopEndPayloads es
  | _ :: es => loopEndPayloads es

/-- Outcome of one `processAudioBuffer` call: the events fired in order, the
track after the call, the returned value, and whether the call ended with
`usleep(5000)`. -/
structure Processed where
  events : List Event
  track : Track
  result : Bool
  slept : Bool
deriving DecidableEq, Repr

/-- The underrun test that opens `processAudioBuffer`: the events fired, the
track, and whether the function returns `false` at this point. -/
def underrunPhase (t : Track) : List Event × Track × Bool :=
  if t.mActive ≠ 0 ∧ t.mCblk.framesReady = 0 then
    if t.mCblk.flowControlFlag = 0 then
      let events :=
        [Event.EVENT_UNDERRUN] ++
          (if t.mCblk.server = t.mCblk.frameCount then [Event.EVENT_BUFFER_END] else [])
      (events, { t with mCblk := { t.mCblk with flowControlFlag := 1 } }, t.mSharedBuffer)
    else ([], t, false)
  else ([], t, false)

/-- The loop `while (mLoopCount > mCblk->loopCount)` of `processAudioBuffer`:
the events fired and the final `mLoopCount`.  The decrement cannot leave the
`int` range, because `mLoopCount` is above another `int`. -/
def loopEndLoop (cblkLoopCount : Int) (mLoopCount : Int) : List Event × Int :=
  if mLoopCount > cblkLoopCount then
    let mLoopCount := mLoopCount - 1
    let loopCount : Int := if mLoopCount ≥ 0 then mLoopCount else -1
    let rest := loopEndLoop cblkLoopCount mLoopCount
    (Event.EVENT_LOOP_END loopCount :: rest.1, rest.2)
  else ([], mLoopCount)
termination_by (mLoopCount - cblkLoopCount).toNat
decreasing_by omega

/-- The marker test of `processAudioBuffer`. -/
def markerPhase (t : Track) : List Event × Track :=
  if t.mMarkerPosition > 0 then
    if t.mCblk.server ≥ t.mMarkerPosition then
      ([Event.EVENT_MARKER t.mMarkerPosition], { t with mMarkerPosition := 0 })
    else ([], t)
  else ([], t)

/-- The loop `while (mCblk->server >= mNewPosition)` of `processAudioBuffer`,
run for at most `fuel` iterations: the events fired and the final
`mNewPosition`, or `none` when the loop has not ended by then. -/
def newPosLoop (server updatePeriod : Nat) : Nat → Nat → Option (List Event × Nat)
  | 0, _ => none
  | fuel + 1, mNewPosition =>
    if server ≥ mNewPosition then
      match newPosLoop server updatePeriod fuel (u32 (mNewPosition + updatePeriod)) with
      | none => none
      | some (events, final) => some (Event.EVENT_NEW_POS mNewPosition :: events, final)
    else some ([], mNewPosition)

/-- The new-position test of `processAudioBuffer`. -/
def newPosPhase (fuel : Nat) (t : Track) : Option (List Event × Track) :=
  if t.mUpdatePeriod > 0 then
    match newPosLoop t.mCblk.server t.mUpdatePeriod fuel t.mNewPosition with
    | none => none
    | some (events, final) => some (events, { t with mNewPosition := final })
  else some ([], t)

/-- How the `do ... while (frames)` loop of `processAudioBuffer` is left. -/
structure Filled where
  events : List Event
  track : Track
  frames : Nat
  writtenSize : Nat
  returnsFalse : Bool
deriving DecidableEq, Repr

/-- The `do ... while (frames)` loop of `processAudioBuffer`.  `written` lists
the sizes that the successive `EVENT_MORE_DATA` callbacks leave in
`audioBuffer.size`; the result is `none` when the loop needs more callbacks
than are listed.  The samples themselves are not part of the track state: the
8-bit expansion only appears through `writtenSize <<= 1`. -/
def fillLoop : List Nat → Track → Buffer → Nat → Nat → Option Filled
  | written, t, audioBuffer, frames, writtenSize =>
    let audioBuffer := { audioBuffer with frameCount := frames }
    match t.obtainBuffer audioBuffer false [] with
    | none => none
    | some (err, audioBuffer, t) =>
      if err.isNegative ∧ err ≠ Status.WOULD_BLOCK then
        some ⟨[], t, frames, writtenSize, true⟩
      else if err = Status.STOPPED then
        some ⟨[], t, frames, writtenSize, true⟩
      else if audioBuffer.size = 0 then
        some ⟨[], t, frames, writtenSize, false⟩
      else
        -- the callback must fill only half of the destination buffer
        let audioBuffer :=
          if t.mFormat = PCM_8_BIT then { audioBuffer with size := audioBuffer.size / 2 }
          else audioBuffer
        let reqSize := audioBuffer.size
        match written with
        | [] => none
        | w :: written =>
          let event := Event.EVENT_MORE_DATA audioBuffer
          let writtenSize := u32 w
          -- sanity check on returned size: ssize_t(writtenSize) <= 0
          if writtenSize = 0 ∨ writtenSize ≥ 2147483648 then
            some ⟨[event], t, frames, writtenSize, false⟩
          else
            let writtenSize := if writtenSize > reqSize then reqSize else writtenSize
            let writtenSize :=
              if t.mFormat = PCM_8_BIT then u32 (writtenSize * 2) else writtenSize
            let audioBuffer :=
              { audioBuffer with size := writtenSize,
                                 frameCount := writtenSize / t.mChannelCount / 2 }
            let frames := sub32 frames audioBuffer.frameCount
            let t := t.releaseBuffer audioBuffer
            if frames ≠ 0 then
              match fillLoop written t audioBuffer frames writtenSize with
              | none => none
              | some r => some { r with events := event :: r.events }
            else
              some ⟨[event], t, frames, writtenSize, false⟩

/-- `AudioTrack::processAudioBuffer`.  `fuel` bounds the iterations of the
new-position loop and `written` lists the sizes produced by the
`EVENT_MORE_DATA` callbacks; the result is `none` when either is used up
before the call ends.  The local `audioBuffer` starts uninitialised in the
source; `audioBuffer` is the content it starts with. -/
def processAudioBuffer (fuel : Nat) (written : List Nat) (audioBuffer : Buffer) (t : Track) :
    Option Processed :=
  -- Manage underrun callback
  match underrunPhase t with
  | (events1, t, true) => some ⟨events1, t, false, false⟩
  | (events1, t, false) =>
    -- Manage loop end callback
    let loops := loopEndLoop t.mCblk.loopCount t.mLoopCount
    let t := { t with mLoopCount := loops.2 }
    -- Manage marker callback
    let marker := markerPhase t
    let t := marker.2
    -- Manage new position callback
    match newPosPhase fuel t with
    | none => none
    | some (events4, t) =>
      -- If Shared buffer is used, no data is requested from client.
      let frames := if t.mSharedBuffer then 0 else t.mRemainingFrames
      match fillLoop written t audioBuffer frames 0 with
      | none => none
      | some filled =>
        let events := events1 ++ loops.1 ++ marker.1 ++ events4 ++ filled.events
        if filled.returnsFalse then some ⟨events, filled.track, false, false⟩
        else
          let t := filled.track
          let t :=
            { t with mRemainingFrames :=
                if filled.frames = 0 then t.mNotificationFrames else filled.frames }
          some ⟨events, t, true, decide (filled.writtenSize = 0)⟩

/-- Payloads of the `EVENT_MARKER` events of a list of events, in order. -/
def markerPayloads : List Event → List Nat
  | [] => []
  | Event.EVENT_MARKER p :: es => p :: markerPayloads es
  | _ :: es => markerPayloads es

/-- Payloads of the `EVENT_NEW_POS` events of a list of events, in order. -/
def newPosPayloads : List Event → List Nat
  | [] => []
  | Event.EVENT_NEW_POS p :: es => p :: newPosPayloads es
  | _ :: es => newPosPayloads es

/-- What one `processAudioBuffer` call of a run of the callback thread finds:
the control block as the mixer and the other client threads have left it
since the previous call, the bound on the iterations of the new-position
loop, the sizes produced by the `EVENT_MORE_DATA` callbacks, and the content
with which the local descriptor starts. -/
structure ThreadCall where
  cblk : audio_track_cblk_t
  fuel : Nat
  written : List Nat
  audioBuffer : Buffer
deriving DecidableEq, Repr

/-- Successive `processAudioBuffer` calls on the track `t`, the members of the
track being changed by these calls only: the events of each call, oldest call
first, and the track after the last call, or `none` when one of the calls
needs more fuel or callbacks than it is given.  The value a call returns is
not looked at, so that every prefix of a run is a run. -/
def processCalls : List ThreadCall → Track → Option (List (List Event) × Track)
  | [], t => some ([], t)
  | c :: calls, t =>
    match processAudioBuffer c.fuel c.written c.audioBuffer { t with mCblk := c.cblk } with
    | none => none
    | some r =>
      match processCalls calls r.track with
      | none => none
      | some (events, t) => some (r.events :: events, t)

/-- The marker payloads that the specification expects from successive calls
which find the server at the positions `servers`, for the marker position
`marker`: the marker itself at the first call with
`server ≥ marker > 0`, nothing at any other call. -/
def markerSchedule (marker : Nat) : List Nat → List (List Nat)
  | [] => []
  | server :: servers =>
    if marker > 0 ∧ server ≥ marker then [marker] :: servers.map (fun _ => [])
    else [] :: markerSchedule marker servers

/-! ### Volume and transport -/

/-- The `int` (32-bit two's complement, as a natural number) to which an
`int16_t` value is promoted: the value modulo `2 ^ 32`, sign extension
included. -/
def promote16 (x : Int) : Nat := (x % 4294967296).toNat

/-- `AudioTrack::setVolume(left, right)`.  The arguments `left16` and `right16`
are the values of the conversions `int16_t(left * 0x1000)` and
`int16_t(right * 0x1000)`; the floating-point products and `mVolume` are not
part of the model.  The left value is widened to `int32_t` and shifted, the
right one is promoted to `int` for the bitwise or, and the result is stored
in the 32-bit `volumeLR`. -/
def setVolume (t : Track) (left16 right16 : Int) : Track :=
  { t with mCblk :=
      { t.mCblk with volumeLR := u32 (promote16 left16 * 65536) ||| promote16 right16 } }

/-- The value `android_atomic_or(1, &mActive)` leaves in `mActive`: bit 0 set. -/
def orOne (x : Int) : Int := if x % 2 = 0 then x + 1 else x

/-- The value `android_atomic_and(~1, &mActive)` leaves in `mActive`: bit 0
cleared. -/
def andNotOne (x : Int) : Int := if x % 2 = 0 then x else x - 1

/-- `AudioTrack::flush()`.  What `mAudioTrack->flush()` does to the control
block happens in the mixer and is not modelled; the call is recorded. -/
def flush (t : Track) : Track :=
  if t.mActive = 0 then { t with serverCalls := t.serverCalls ++ [ServerCall.flush] }
  else t

/-- `AudioTrack::start()`.  The callback thread exists when a callback is
registered; `exitPending` is `t->exitPending()` and `fromThread` tells whether
`t->requestExitAndWait()` returns `WOULD_BLOCK`, that is, whether `start()` is
called from the callback thread itself.  Starting the thread and changing
the priority are not modelled. -/
def start (t : Track) (exitPending fromThread : Bool) : Track :=
  if t.mCbf ∧ exitPending ∧ fromThread then t
  else
    let old := t.mActive
    let t := { t with mActive := orOne old }
    if old = 0 then
      let t :=
        if t.mSharedBuffer then
          -- Force buffer full condition as data is already present in shared memory
          { t with mCblk := { t.mCblk with user := t.mFrameCount, flowControlFlag := 0 } }
        else t
      let t := { t with mNewPosition := u32 (t.mCblk.server + t.mUpdatePeriod) }
      { t with serverCalls := t.serverCalls ++ [ServerCall.start] }
    else t

/-- `AudioTrack::stop()`.  Asking the callback thread to exit and changing the
priority are not modelled. -/
def stop (t : Track) : Track :=
  let old := t.mActive
  let t := { t with mActive := andNotOne old }
  if old = 1 then
    let t := { t with serverCalls := t.serverCalls ++ [ServerCall.stop] }
    -- Cancel loops
    let t := (t.setLoop 0 0 0).2
    -- Force flush if a shared buffer is used
    if t.mSharedBuffer then t.flush else t
  else t

/-- `AudioTrack::pause()`. -/
def pause (t : Track) : Track :=
  let old := t.mActive
  let t := { t with mActive := andNotOne old }
  if old = 1 then
    { t with mActive := 0, serverCalls := t.serverCalls ++ [ServerCall.pause] }
  else t

/-- `AudioTrack::reload()`. -/
def reload (t : Track) : Status × Track :=
  if !t.stopped then (Status.INVALID_OPERATION, t)
  else
    let t := t.flush
    (Status.NO_ERROR, { t with mCblk := (t.mCblk.stepUser t.mFrameCount).2 })

/-- `AudioTrack::setMarkerPosition(marker)`. -/
def setMarkerPosition (t : Track) (marker : Nat) : Status × Track :=
  if !t.mCbf then (Status.INVALID_OPERATION, t)
  else (Status.NO_ERROR, { t with mMarkerPosition := marker })

/-- `AudioTrack::setPositionUpdatePeriod(updatePeriod)`. -/
def setPositionUpdatePeriod (t : Track) (updatePeriod : Nat) : Status × Track :=
  if !t.mCbf then (Status.INVALID_OPERATION, t)
  else
    let curPosition := t.mCblk.server
    (Status.NO_ERROR,
      { t with mNewPosition := u32 (curPosition + updatePeriod), mUpdatePeriod := updatePeriod })

/-! ### The write path -/

/-- The PCM region: the byte stored at each address, counted from
`cblk->buffers`.  A 16-bit sample is stored low byte first. -/
abbrev Pcm := Nat → Nat

/-- Store of the 16-bit pattern `v` in the sample of index `i`. -/
def store16 (pcm : Pcm) (i v : Nat) : Pcm :=
  fun a => if a = 2 * i then v % 256 else if a = 2 * i + 1 then v / 256 % 256 else pcm a

/-- The 16-bit pattern held by the sample of index `i`. -/
def load16 (pcm : Pcm) (i : Nat) : Nat := pcm (2 * i) + 256 * pcm (2 * i + 1)

/-- The signed value of a 16-bit pattern. -/
def signed16 (v : Nat) : Int := if v % 65536 < 32768 then v % 65536 else (v % 65536 : Nat) - 65536

/-- The `int` (32-bit two's complement, as a natural number) to which the
`int8_t` read from the byte `b` is promoted. -/
def sext8 (b : Nat) : Nat := if b % 256 < 128 then b % 256 else b % 256 + 4294967040

/-- The `int` to which the `int16_t` made of the low 16 bits of `x` is
promoted. -/
def sext16 (x : Nat) : Nat := if x % 65536 < 32768 then x % 65536 else x % 65536 + 4294901760

/-- The 16-bit pattern stored by `*dst = (int16_t)(*src ^ 0x80) << 8` for the
source byte `b`, `src` pointing to `int8_t`: the byte is promoted to `int`,
xor-ed with `0x80`, cut to `int16_t`, promoted again, shifted, and cut to the
`int16_t` destination. -/
def expand8to16 (b : Nat) : Nat :=
  u32 (sext16 (sext8 b ^^^ 128) * 256) % 65536

/-- The loop `while (count--) *dst++ = (int16_t)(*src++ ^ 0x80) << 8` of
`write`: `srcPos` is the index of `*src` in the source bytes and `dst` the
sample index of `*dst`. -/
def expandLoop (src : List Nat) : Nat → Nat → Nat → Pcm → Pcm
  | 0, _, _, pcm => pcm
  | count + 1, srcPos, dst, pcm =>
    expandLoop src count (srcPos + 1) (dst + 1) (store16 pcm dst (expand8to16 (src.getD srcPos 0)))

/-- The call `memcpy(audioBuffer.i8, src, toWrite)` of `write`: `toWrite` bytes
from index `srcPos` of the source are copied to the byte address `dst`. -/
def memcpy (pcm : Pcm) (dst : Nat) (src : List Nat) (srcPos toWrite : Nat) : Pcm :=
  fun a => if dst ≤ a ∧ a < dst + toWrite then src.getD (srcPos + (a - dst)) 0 % 256 else pcm a

/-- One `obtainBuffer` call made by `write`: the track before the call, the
number of frames requested, the status and the descriptor returned, and the
track after the call. -/
structure ObtainCall where
  before : Track
  requested : Nat
  status : Status
  buffer : Buffer
  after : Track
deriving DecidableEq, Repr

/-- Outcome of `write`: the returned `ssize_t` (an error status or a byte
count), or `none` when the call has not returned within the listed
environment; the track and the PCM region; and the `obtainBuffer` calls made,
oldest first. -/
structure Written where
  result : Option (Sum Status Int)
  track : Track
  pcm : Pcm
  calls : List ObtainCall

/-- The number of source bytes `write` consumes after an `obtainBuffer` call
that returned the descriptor `audioBuffer`. -/
def toWrite (t : Track) (audioBuffer : Buffer) : Nat :=
  if t.mFormat = PCM_8_BIT then audioBuffer.size / 2 else audioBuffer.size

/-- The `do ... while (userSize)` loop of `write`.  The first argument lists,
for each `obtainBuffer` call in turn, the wake-ups of that call; the loop has
not ended (`result = none`) when the list is used up or a call is still
waiting.  `srcPos` is the index of `src` in the source bytes and `written`
the `ssize_t` accumulator. -/
def writeLoop (src : List Nat) :
    List (List Wakeup) → Track → Pcm → Buffer → Nat → Nat → Int → Written
  | [], t, pcm, _, _, _, _ => ⟨none, t, pcm, []⟩
  | ws :: envs, t, pcm, audioBuffer, userSize, srcPos, written =>
    let frameCount := userSize / t.mChannelCount
    let frameCount := if t.mFormat = PCM_16_BIT then frameCount / 2 else frameCount
    let audioBuffer := { audioBuffer with frameCount := frameCount }
    match t.obtainBuffer audioBuffer true ws with
    | none => ⟨none, t, pcm, []⟩
    | some (err, audioBuffer, t1) =>
      let call : ObtainCall := ⟨t, frameCount, err, audioBuffer, t1⟩
      if err.isNegative then
        -- out of buffers, return #bytes written
        if err = Status.NO_MORE_BUFFERS then ⟨some (Sum.inr written), t1, pcm, [call]⟩
        else ⟨some (Sum.inl err), t1, pcm, [call]⟩
      else
        let n := toWrite t1 audioBuffer
        let pcm :=
          if t1.mFormat = PCM_8_BIT then expandLoop src n srcPos audioBuffer.raw pcm
          else memcpy pcm (2 * audioBuffer.raw) src srcPos n
        let userSize := sub32 userSize n
        let written := i32 (written + n)
        let t2 := t1.releaseBuffer audioBuffer
        if userSize ≠ 0 then
          let rest := writeLoop src envs t2 pcm audioBuffer userSize (srcPos + n) written
          { rest with calls := call :: rest.calls }
        else ⟨some (Sum.inr written), t2, pcm, [call]⟩

/-- `AudioTrack::write(buffer, userSize)`: `src` lists the bytes of `buffer`,
`pcm` is the PCM region before the call, and `audioBuffer` is the content
with which the local descriptor starts.  `size_t` is 32 bits wide. -/
def write (t : Track) (src : List Nat) (userSize : Nat) (pcm : Pcm) (audioBuffer : Buffer)
    (envs : List (List Wakeup)) : Written :=
  if t.mSharedBuffer then ⟨some (Sum.inl Status.INVALID_OPERATION), t, pcm, []⟩
  else if userSize ≥ 2147483648 then
    -- sanity-check. user is most-likely passing an error code.
    ⟨some (Sum.inl Status.BAD_VALUE), t, pcm, []⟩
  else writeLoop src envs t pcm audioBuffer userSize 0 0

/-- The frames passed to `releaseBuffer` by `write`: the frames granted by the
`obtainBuffer` calls that did not fail. -/
def framesReleased : List ObtainCall → Nat
  | [] => 0
  | c :: calls =>
    (if c.status.isNegative then 0 else c.buffer.frameCount) + framesReleased calls

/-- The source bytes consumed by `write`: `toWrite` bytes after each
`obtainBuffer` call that did not fail. -/
def bytesConsumed : List ObtainCall → Nat
  | [] => 0
  | c :: calls =>
    (if c.status.isNegative then 0 else toWrite c.after c.buffer) + bytesConsumed calls

/-- The wait of an `obtainBuffer` call left the producer side of the control
block as it was. -/
def ObtainCall.producerUntouched (c : ObtainCall) : Prop :=
  c.after.mCblk.user = c.before.mCblk.user ∧ c.after.mCblk.out = c.before.mCblk.out

instance (c : ObtainCall) : Decidable c.producerUntouched := by
  unfold ObtainCall.producerUntouched; infer_instance

/-- The number of frames `write` asks for when `userSize` bytes are left. -/
def requestedFrames (t : Track) (userSize : Nat) : Nat :=
  if t.mFormat = PCM_16_BIT then userSize / t.mChannelCount / 2 else userSize / t.mChannelCount

/-- `AudioTrack::frameSize()`. -/
def frameSize (t : Track) : Nat :=
  t.mChannelCount * (if t.mFormat = PCM_8_BIT then 1 else 2)

/-- The loop `while (count--) *dst-- = (int16_t)(*src-- ^ 0x80) << 8` of
`processAudioBuffer`: `src` is the byte address of `*src` and `dst` the sample
index of `*dst`, both counted from `cblk->buffers`.  The pointers are not
dereferenced after the last iteration; a decrement below address 0 is kept
at 0. -/
def expandDownLoop : Nat → Nat → Nat → Pcm → Pcm
  | 0, _, _, pcm => pcm
  | count + 1, src, dst, pcm =>
    expandDownLoop count (src - 1) (dst - 1) (store16 pcm dst (expand8to16 (pcm src)))

/-- What `processAudioBuffer` does between the clamp of `writtenSize` and
`releaseBuffer`: with `PCM_8_BIT`, the expansion in place of the `writtenSize`
bytes that the callback left at the start of the region of `audioBuffer`
(`src = audioBuffer.i8 + writtenSize - 1`, `dst = audioBuffer.i16 +
writtenSize - 1`) and `writtenSize <<= 1`; then the size and the frame count
stored in the descriptor.  The result is the PCM region and the descriptor
passed to `releaseBuffer`.  The sanity check before it leaves
`0 < writtenSize < 2 ^ 31`, so that `int count = writtenSize` keeps the
value. -/
def convertWritten (t : Track) (audioBuffer : Buffer) (writtenSize : Nat) (pcm : Pcm) :
    Pcm × Buffer :=
  let r : Pcm × Nat :=
    if t.mFormat = PCM_8_BIT then
      -- 8 to 16 bit conversion
      (expandDownLoop writtenSize (2 * audioBuffer.raw + writtenSize - 1)
          (audioBuffer.raw + writtenSize - 1) pcm,
        u32 (writtenSize * 2))
    else (pcm, writtenSize)
  (r.1, { audioBuffer with size := r.2, frameCount := r.2 / t.mChannelCount / 2 })

/-- The out-of-place conversion with which the specification compares the
expansion: each source byte `b` gives, in turn, the 16-bit sample
`(b XOR 0x80) << 8` cut to 16 bits. -/
def convertOutOfPlace (bytes : List Nat) : List Nat :=
  bytes.map (fun b => ((b ^^^ 128) * 256) % 65536)

/-! ### Construction -/

/-- Conversion of an `int` to `uint32_t`. -/
def toU32 (x : Int) : Nat := (x % 4294967296).toNat

/-- A client-supplied shared buffer: the address `pointer()` and `size()`. -/
structure SharedBuffer where
  pointer : Nat
  size : Nat
deriving DecidableEq, Repr

/-- What `set()` finds outside the object: whether `get_audio_flinger()`
returns a server, the three output defaults (`none` when the query fails), the
answer of `createTrack` (a status when no track is returned, otherwise the
control block of `getCblk()`, `none` when that is null), and whether the
callback thread could be created. -/
structure AudioSystem where
  audioFlinger : Bool
  outputSamplingRate : Option Int
  outputFrameCount : Option Int
  outputLatency : Option Nat
  createTrack : Sum Status (Option audio_track_cblk_t)
  threadCreated : Bool
deriving DecidableEq, Repr

/-- The arguments of `set()` that the model follows; `cbf` tells whether a
callback is given.  `streamType`, `flags`, `user` and `threadCanCallJava` are
only passed on. -/
structure SetArgs where
  sampleRate : Nat
  format : Int
  channelCount : Int
  frameCount : Int
  cbf : Bool
  notificationFrames : Int
  sharedBuffer : Option SharedBuffer
deriving DecidableEq, Repr

/-- The arguments with which `set()` calls `createTrack`. -/
structure CreateTrackCall where
  sampleRate : Nat
  format : Int
  channelCount : Int
  frameCount : Int
  sharedBuffer : Option SharedBuffer
deriving DecidableEq, Repr

/-- Outcome of `set()`: the returned status, the object (`none` while
`mAudioFlinger` is null, that is, while no `set()` has succeeded), and the
`createTrack` call if one was made. -/
structure SetResult where
  status : Status
  object : Option Track
  created : Option CreateTrackCall
deriving DecidableEq, Repr

/-- The value `set()` gives to `minBufCount`, or `none` when one of the two
divisions divides by zero.  `1000 * afFrameCount` and its quotient are `int`,
the quotient is converted to `uint32_t` for the division of `afLatency`. -/
def minBufCount (afLatency : Nat) (afFrameCount afSampleRate : Int) (shared : Bool) :
    Option Nat :=
  if afSampleRate = 0 then none
  else
    let divisor := toU32 (Int.tdiv (i32 (1000 * afFrameCount)) afSampleRate)
    if divisor = 0 then none
    else
      let minBufCount := afLatency / divisor
      -- playback from a shared buffer starts even if the last block is partly filled
      some (if shared ∧ minBufCount > 1 then minBufCount - 1 else minBufCount)

/-- The value `set()` gives to `minFrameCount`: an unsigned 32-bit product and
quotient, stored in an `int`. -/
def minFrameCount (afFrameCount afSampleRate : Int) (sampleRate minBufCount : Nat) : Int :=
  i32 ((u32 (u32 (toU32 afFrameCount * sampleRate) * minBufCount) / toU32 afSampleRate : Nat) : Int)

/-- The values `set()` gives to `frameCount` and `notificationFrames` before it
compares `frameCount` with `minFrameCount`, or `BAD_VALUE` when the shared
buffer is misaligned. -/
def frameCounts (a : SetArgs) (channelCount minFrameCount : Int) : Sum Status (Int × Int) :=
  match a.sharedBuffer with
  | none =>
    let frameCount := if a.frameCount = 0 then minFrameCount else a.frameCount
    let notificationFrames :=
      if a.notificationFrames = 0 then Int.tdiv frameCount 2 else a.notificationFrames
    -- Make sure that application is notified with sufficient margin before underrun
    let notificationFrames :=
      if notificationFrames > Int.tdiv frameCount 2 then Int.tdiv frameCount 2
      else notificationFrames
    Sum.inr (frameCount, notificationFrames)
  | some sharedBuffer =>
    -- Ensure that buffer alignment matches channelcount
    if u32 sharedBuffer.pointer &&& (toU32 channelCount ||| 1) ≠ 0 then Sum.inl Status.BAD_VALUE
    else
      Sum.inr (i32 ((u32 sharedBuffer.size / toU32 channelCount / 2 : Nat) : Int),
        a.notificationFrames)

/-- `AudioTrack::set(...)` on the object `object`, `none` being an object on
which no `set()` has succeeded (`mAudioFlinger` and `mSharedBuffer` null).  The
result is `none` when the call divides by zero.  The members `mStatus`,
`mSampleRate`, `mStreamType`, `mLatency`, `mVolume` and `mUserData` are not
part of `Track`. -/
def set (object : Option Track) (sys : AudioSystem) (a : SetArgs) : Option SetResult :=
  match object with
  | some t => some ⟨Status.INVALID_OPERATION, some t, none⟩
  | none =>
    if !sys.audioFlinger then some ⟨Status.NO_INIT, none, none⟩
    else
      match sys.outputSamplingRate, sys.outputFrameCount, sys.outputLatency with
      | some afSampleRate, some afFrameCount, some afLatency =>
        -- handle default values first.
        let sampleRate := if a.sampleRate = 0 then toU32 afSampleRate else a.sampleRate
        let format := if a.format = 0 then PCM_16_BIT else a.format
        let channelCount := if a.channelCount = 0 then 2 else a.channelCount
        -- validate parameters; the test reads the member mSharedBuffer, which is null here
        let mSharedBuffer : Bool := false
        if (format ≠ PCM_8_BIT ∨ mSharedBuffer) ∧ format ≠ PCM_16_BIT then
          some ⟨Status.BAD_VALUE, none, none⟩
        else if channelCount ≠ 1 ∧ channelCount ≠ 2 then
          some ⟨Status.BAD_VALUE, none, none⟩
        else
          -- Ensure that buffer depth covers at least audio hardware latency
          match minBufCount afLatency afFrameCount afSampleRate a.sharedBuffer.isSome with
          | none => none
          | some minBufCount =>
            let minFrameCount := minFrameCount afFrameCount afSampleRate sampleRate minBufCount
            match frameCounts a channelCount minFrameCount with
            | Sum.inl status => some ⟨status, none, none⟩
            | Sum.inr (frameCount, notificationFrames) =>
              if frameCount < minFrameCount then some ⟨Status.BAD_VALUE, none, none⟩
              else
                -- create the track
                let call : CreateTrackCall :=
                  ⟨sampleRate, format, channelCount, frameCount, a.sharedBuffer⟩
                match sys.createTrack with
                | Sum.inl status => some ⟨status, none, some call⟩
                | Sum.inr none => some ⟨Status.NO_INIT, none, some call⟩
                | Sum.inr (some cblk) =>
                  if a.cbf ∧ !sys.threadCreated then some ⟨Status.NO_INIT, none, some call⟩
                  else
                    some ⟨Status.NO_ERROR,
                      some
                        { mCblk := { cblk with out := 1, volumeLR := 268439552 },
                          mFrameCount := cblk.frameCount,
                          mChannelCount := toU32 channelCount,
                          mFormat := format,
                          mMuted := false,
                          mActive := 0,
                          mSharedBuffer := a.sharedBuffer.isSome,
                          mCbf := a.cbf,
                          mNotificationFrames := toU32 notificationFrames,
                          mRemainingFrames := toU32 notificationFrames,
                          mMarkerPosition := 0,
                          mNewPosition := 0,
                          mUpdatePeriod := 0,
                          mLoopCount := 0,
                          serverCalls := [] },
                      some call⟩
      | _, _, _ => some ⟨Status.NO_INIT, none, none⟩

/-- A stereo 16-bit streaming track over the control block `c`, in the state
in which `set()` leaves a track without shared buffer and without callback. -/
def streaming (c : audio_track_cblk_t) : Track :=
  { mCblk := c, mFrameCount := c.frameCount, mChannelCount := 2, mFormat := PCM_16_BIT,
    mMuted := false, mActive := 0, mSharedBuffer := false, mCbf := false,
    mNotificationFrames := 0, mRemainingFrames := 0, mMarkerPosition := 0,
    mNewPosition := 0, mUpdatePeriod := 0, mLoopCount := 0, serverCalls := [] }

/-- An inactive streaming track over a ring of 8 frames in which the producer
has written 5 frames and the mixer has consumed 2. -/
def partlyFilled : Track :=
  streaming { audio_track_cblk_t.playbackAt 8 0 with user := 5, server := 2 }

/-- A buffer descriptor that asks for `frameCount` frames. -/
def request (frameCount : Nat) : Buffer :=
  { flags := 0, channelCount := 0, format := 0, frameCount := frameCount, size := 0, raw := 0 }

/-- A shared-buffer track of 8 frames on which `setLoop(0, 8, 1)` was called
before `start()` and whose buffer the mixer has since played twice, without
`processAudioBuffer` having run in between: the loop is used up and the
server stands at the end of the buffer. -/
def loopedOnce : Track :=
  let t : Track :=
    { streaming (audio_track_cblk_t.playbackAt 8 0) with mSharedBuffer := true, mCbf := true }
  let t := (t.setLoop 0 8 1).2
  -- start(): the shared buffer is full
  let t := { t with mCblk := { t.mCblk with user := 8, flowControlFlag := 0 }, mActive := 1 }
  { t with mCblk := (t.mCblk.stepServerLocked 8).stepServerLocked 8 }

/-- An active streaming track with a callback for which three loop ends have
not been reported yet. -/
def threeLoopsDone : Track :=
  { partlyFilled with mActive := 1, mCbf := true, mLoopCount := 3 }

/-- An active mono 8-bit streaming track over an empty ring of 8 frames. -/
def mono8 : Track :=
  { streaming { audio_track_cblk_t.playbackAt 8 0 with channels := 1 } with
    mChannelCount := 1, mFormat := PCM_8_BIT, mActive := 1 }

/-- A reachable server whose output runs at 44100 Hz with blocks of 1024
frames and 100 ms of latency, and whose `createTrack` returns the control
block `c`. -/
def serverWith (c : audio_track_cblk_t) : AudioSystem :=
  { audioFlinger := true, outputSamplingRate := some 44100, outputFrameCount := some 1024,
    outputLatency := some 100, createTrack := Sum.inr (some c), threadCreated := true }

/-- The arguments of a `set()` call for a mono `PCM_8_BIT` track over a shared
buffer of 8192 bytes at the aligned address `0x1000`. -/
def shared8Args : SetArgs :=
  { sampleRate := 44100, format := PCM_8_BIT, channelCount := 1, frameCount := 0,
    cbf := false, notificationFrames := 0, sharedBuffer := some ⟨4096, 8192⟩ }

/-- The arguments of a `set()` call that leaves every size to its default:
no sample rate, format, channel count, frame count or notification period,
no callback and no shared buffer. -/
def defaultArgs : SetArgs :=
  { sampleRate := 0, format := 0, channelCount := 0, frameCount := 0,
    cbf := false, notificationFrames := 0, sharedBuffer := none }

/-- An inactive track with a callback: `partlyFilled` with `mCbf` set. -/
def withCallback : Track := { partlyFilled with mCbf := true }

/-- An active shared-buffer track of 8 frames in the middle of the second of
three passes of the loop `[0, 8)`. -/
def loopingShared : Track :=
  { streaming { audio_track_cblk_t.playbackAt 8 0 with
      user := 8, server := 3, loopStart := 0, loopEnd := 8, loopCount := 2 } with
    mSharedBuffer := true, mCbf := true, mActive := 1, mLoopCount := 3 }

/-- An active streaming track with a callback whose ring of 8 frames the
mixer has emptied: 5 frames were written and 5 consumed, and the last
`stepUser` has cleared `flowControlFlag`. -/
def drained : Track :=
  { streaming { audio_track_cblk_t.playbackAt 8 0 with
      user := 5, server := 5, flowControlFlag := 0 } with
    mActive := 1, mCbf := true }

/-- The shared-buffer track `loopedOnce`, played to its end, on which a
marker at frame 8 and a position update every 4 frames are pending. -/
def markedShared : Track :=
  { loopedOnce with mMarkerPosition := 8, mUpdatePeriod := 4, mNewPosition := 4 }

/-- An active streaming track with a callback, a marker at frame 10000 and a
position update every 2000 frames, as `start()` leaves it at position 0. -/
def marked : Track :=
  { streaming (audio_track_cblk_t.playbackAt 4096 0) with
    mActive := 1, mCbf := true, mMarkerPosition := 10000, mUpdatePeriod := 2000,
    mNewPosition := 2000 }

/-- A call that finds `user` frames written and `server` frames played on a
ring of 4096 frames, with `fuel` for the new-position loop, and asks the
callback for nothing. -/
def callAt (user server fuel : Nat) : ThreadCall :=
  { cblk := { audio_track_cblk_t.playbackAt 4096 0 with
      user := user, server := server, userBase := user - user % 4096,
      serverBase := server - server % 4096, flowControlFlag := 0 },
    fuel := fuel, written := [], audioBuffer := request 0 }

/-- The streaming track `partlyFilled` after `start()`: active, with 5 of the
8 frames of the ring free. -/
def playing : Track := { partlyFilled with mActive := 1 }

/-- A reachable server whose output runs at 44100 Hz with blocks of 32
frames, less than a millisecond of audio. -/
def shortBlockServer : AudioSystem :=
  { serverWith (audio_track_cblk_t.playbackAt 4096 0) with outputFrameCount := some 32 }

/-- A wake-up that finds the empty mono ring of `mono8`, with the track still
active and no timeout. -/
def emptyRing : Wakeup :=
  { timedOut := false, cblk := mono8.mCblk, active := 1 }

end Track

open audio_track_cblk_t

/-! ## Theorems -/

/-! ### The producer cursor -/

theorem stepUser_out (c : audio_track_cblk_t) (n : Nat) : (c.stepUser n).2.out = c.out := rfl

theorem stepUser_frameCount (c : audio_track_cblk_t) (n : Nat) :
    (c.stepUser n).2.frameCount = c.frameCount := rfl

theorem stepUser_flowControlFlag (c : audio_track_cblk_t) (n : Nat) :
    (c.stepUser n).2.flowControlFlag = 0 := rfl

theorem stepUser_fst (c : audio_track_cblk_t) (n : Nat) :
    (c.stepUser n).1 = (c.stepUser n).2.user := rfl

theorem stepUser_playback_user (c : audio_track_cblk_t) (n : Nat) (h : c.out ≠ 0) :
    (c.stepUser n).2.user = u32 (c.user + n) := by
  simp [stepUser, h]

theorem stepUsers_append (c : audio_track_cblk_t) (ns ms : List Nat) :
    c.stepUsers (ns ++ ms) = (c.stepUsers ns).stepUsers ms := by
  induction ns generalizing c with
  | nil => rfl
  | cons n ns ih => simp [stepUsers, ih]

theorem stepUsers_out (c : audio_track_cblk_t) (ns : List Nat) :
    (c.stepUsers ns).out = c.out := by
  induction ns generalizing c with
  | nil => rfl
  | cons n ns ih => simp [stepUsers, ih, stepUser_out]

theorem stepUsers_playback_user (c : audio_track_cblk_t) (ns : List Nat) (h : c.out ≠ 0) :
    u32 (c.stepUsers ns).user = u32 (c.user + ns.sum) := by
  induction ns generalizing c with
  | nil => simp [stepUsers]
  | cons n ns ih =>
    have h2 : (c.stepUser n).2.out ≠ 0 := by rw [stepUser_out]; exact h
    simp only [stepUsers, List.sum_cons]
    rw [ih _ h2, stepUser_playback_user c n h]
    simp only [u32]
    omega

theorem stepUsers_user_lt (c : audio_track_cblk_t) (ns : List Nat) (h : c.out ≠ 0)
    (hu : c.user < 4294967296) : (c.stepUsers ns).user < 4294967296 := by
  induction ns generalizing c with
  | nil => simpa [stepUsers] using hu
  | cons n ns ih =>
    simp only [stepUsers]
    apply ih
    · rw [stepUser_out]; exact h
    · rw [stepUser_playback_user c n h]
      exact Nat.mod_lt _ (by decide)

theorem stepUserTrace_getElem (c : audio_track_cblk_t) (ns : List Nat) (k : Nat)
    (hk : k < ns.length) :
    (c.stepUserTrace ns)[k]? = some ((c.stepUsers (ns.take k)).stepUser ns[k]) := by
  induction ns generalizing c k with
  | nil => simp at hk
  | cons n ns ih =>
    cases k with
    | zero => simp [stepUserTrace, stepUsers]
    | succ k =>
      simp only [List.length_cons, Nat.add_lt_add_iff_right] at hk
      simp [stepUserTrace, stepUsers, ih _ k hk]

theorem stepUsers_take_succ (c : audio_track_cblk_t) (ns : List Nat) (k : Nat)
    (hk : k < ns.length) :
    c.stepUsers (ns.take (k + 1)) = ((c.stepUsers (ns.take k)).stepUser ns[k]).2 := by
  induction ns generalizing c k with
  | nil => simp at hk
  | cons n ns ih =>
    cases k with
    | zero => simp [stepUsers]
    | succ k =>
      simp only [List.length_cons, Nat.add_lt_add_iff_right] at hk
      simp [stepUsers, ih _ k hk]

/-- C1: on a playback control block (`out = 1`) that starts from `user = 0`,
after every sequence of `stepUser` calls `user` is the sum of the step sizes
modulo `2 ^ 32`; the call number `k` returns the new `user` value, which is the
sum of the first `k + 1` sizes modulo `2 ^ 32`, and leaves `flowControlFlag`
at 0. -/
theorem stepUser_sequence_sum (c : audio_track_cblk_t) (ns : List Nat)
    (hout : c.out = 1) (huser : c.user = 0) :
    (c.stepUsers ns).user = ns.sum % 4294967296 ∧
    ∀ k, k < ns.length →
      (c.stepUserTrace ns)[k]? =
          some ((ns.take (k + 1)).sum % 4294967296, c.stepUsers (ns.take (k + 1))) ∧
        (c.stepUsers (ns.take (k + 1))).user = (ns.take (k + 1)).sum % 4294967296 ∧
        (c.stepUsers (ns.take (k + 1))).flowControlFlag = 0 := by
  have ho : c.out ≠ 0 := by omega
  have key : ∀ ms : List Nat, (c.stepUsers ms).user = ms.sum % 4294967296 := by
    intro ms
    have h1 := stepUsers_playback_user c ms ho
    have h2 := stepUsers_user_lt c ms ho (by omega)
    simp only [u32, huser, Nat.zero_add] at h1
    rw [Nat.mod_eq_of_lt h2] at h1
    exact h1
  refine ⟨key ns, ?_⟩
  intro k hk
  have hs := stepUsers_take_succ c ns k hk
  refine ⟨?_, key _, ?_⟩
  · rw [stepUserTrace_getElem c ns k hk]
    congr 1
    apply Prod.ext
    · rw [stepUser_fst, ← hs]
      exact key _
    · exact hs.symm
  · rw [hs]
    rfl

/-- C1 at a concrete block: three steps, the last one wrapping at `2 ^ 32`. -/
theorem stepUser_sequence_sum_witness :
    (({ constructed with frameCount := 8, out := 1 } : audio_track_cblk_t).stepUsers
        [3, 5, 4294967295]).user = 7 :=
  ((stepUser_sequence_sum _ [3, 5, 4294967295] rfl rfl).1).trans (by decide)

theorem stepUser_clamped_step (c : audio_track_cblk_t) (n : Nat) (hout : c.out ≠ 0)
    (hlo : c.userBase ≤ c.user) (hhi : c.user < c.userBase + c.frameCount)
    (hend : c.userBase + c.frameCount < 4294967296)
    (hn : c.user + n ≤ c.userBase + c.frameCount) :
    (c.stepUser n).2.userBase ≤ (c.stepUser n).2.user ∧
    (c.stepUser n).2.user < (c.stepUser n).2.userBase + c.frameCount := by
  simp only [stepUser, u32, hout, false_and, if_false]
  split_ifs <;> constructor <;> omega

theorem stepUsers_clamped (c : audio_track_cblk_t) (ns : List Nat) (hout : c.out ≠ 0)
    (hlo : c.userBase ≤ c.user) (hhi : c.user < c.userBase + c.frameCount)
    (hcl : c.ClampedSteps ns) :
    (c.stepUsers ns).userBase ≤ (c.stepUsers ns).user ∧
    (c.stepUsers ns).user < (c.stepUsers ns).userBase + c.frameCount := by
  induction ns generalizing c with
  | nil => exact ⟨hlo, hhi⟩
  | cons n ns ih =>
    obtain ⟨hend, hn, hrest⟩ := hcl
    have hstep := stepUser_clamped_step c n hout hlo hhi hend hn
    have := ih (c.stepUser n).2 (by rw [stepUser_out]; exact hout) hstep.1
      (by rw [stepUser_frameCount]; exact hstep.2) hrest
    rw [stepUser_frameCount] at this
    exact this

/-- C2, as stated, fails: on a playback block with `frameCount = 4` that starts
from `user = userBase = 0`, `stepUser(10)` leaves `user = 10` and
`userBase = 4`, an offset of 6 frames in a ring of 4. -/
theorem stepUser_offset_counterexample :
    (({ constructed with frameCount := 4, out := 1 } : audio_track_cblk_t).stepUsers [10]).user
        = 10 ∧
    (({ constructed with frameCount := 4, out := 1 } : audio_track_cblk_t).stepUsers
        [10]).userBase = 4 ∧
    ¬ ((({ constructed with frameCount := 4, out := 1 } : audio_track_cblk_t).stepUsers
          [10]).user -
        (({ constructed with frameCount := 4, out := 1 } : audio_track_cblk_t).stepUsers
          [10]).userBase < 4) := by
  decide

/-- C2, amended: on a playback control block with `frameCount > 0` that starts
from `user = userBase = 0`, after every sequence of `stepUser` calls in which
each step keeps `user + n ≤ userBase + frameCount < 2 ^ 32`, the producer
offset `user - userBase` lies in `[0, frameCount)`. -/
theorem stepUser_clamped_offset (c : audio_track_cblk_t) (ns : List Nat)
    (hout : c.out = 1) (hfc : 0 < c.frameCount) (huser : c.user = 0)
    (hbase : c.userBase = 0) (hcl : c.ClampedSteps ns) :
    (c.stepUsers ns).userBase ≤ (c.stepUsers ns).user ∧
    (c.stepUsers ns).user - (c.stepUsers ns).userBase < c.frameCount := by
  have h := stepUsers_clamped c ns (by omega) (by omega) (by omega) hcl
  omega

/-- C2, amended, at a concrete block: a ring of 8 frames filled by steps of 3,
5 and 8 frames, which wrap the base twice. -/
theorem stepUser_clamped_offset_witness :
    (({ constructed with frameCount := 8, out := 1 } : audio_track_cblk_t).stepUsers
        [3, 5, 8]).userBase ≤
      (({ constructed with frameCount := 8, out := 1 } : audio_track_cblk_t).stepUsers
        [3, 5, 8]).user ∧
    (({ constructed with frameCount := 8, out := 1 } : audio_track_cblk_t).stepUsers
        [3, 5, 8]).user -
      (({ constructed with frameCount := 8, out := 1 } : audio_track_cblk_t).stepUsers
        [3, 5, 8]).userBase < 8 :=
  stepUser_clamped_offset _ [3, 5, 8] rfl (by decide) rfl rfl (by decide)

/-! ### Cursor order -/

theorem framesAvailable_l_of_cursorOrder (c : audio_track_cblk_t) (h : c.CursorOrder) :
    c.framesAvailable_l = c.server + c.frameCount - c.user := by
  obtain ⟨ho, hs, he, hf, hu, hsu, hus⟩ := h
  simp only [framesAvailable_l, ho, hs, he, ne_eq, not_false_eq_true, if_true, u32, sub32,
    UINT_MAX]
  split_ifs <;> omega

theorem stepUser_cursorOrder (c : audio_track_cblk_t) (n : Nat) (h : c.CursorOrder)
    (hn : n ≤ c.framesAvailable_l) (hw : c.user + n < 4294967296) :
    (c.stepUser n).2.CursorOrder := by
  rw [framesAvailable_l_of_cursorOrder c h] at hn
  obtain ⟨ho, hs, he, hf, hu, hsu, hus⟩ := h
  have hu2 : (c.stepUser n).2.user = c.user + n := by
    rw [stepUser_playback_user c n ho]
    exact Nat.mod_eq_of_lt hw
  refine ⟨ho, hs, he, hf, ?_, ?_, ?_⟩
  · rw [hu2]; exact hw
  · rw [hu2]; show c.server ≤ c.user + n; omega
  · rw [hu2]; show c.user + n ≤ c.server + c.frameCount; omega

theorem stepServerLocked_cursorOrder (c : audio_track_cblk_t) (n : Nat) (h : c.CursorOrder)
    (hw : c.server + n < 4294967296) : (c.stepServerLocked n).CursorOrder := by
  obtain ⟨ho, hs, he, hf, hu, hsu, hus⟩ := h
  simp only [UINT_MAX] at hs he
  simp only [CursorOrder, stepServerLocked, ho, hs, he, ne_eq, not_false_eq_true, true_and,
    u32, UINT_MAX]
  split_ifs <;> simp only [] <;> refine ⟨ho, ?_, ?_, hf, hu, ?_, ?_⟩ <;>
    first | trivial | assumption | omega

theorem runOps_cursorOrder (c : audio_track_cblk_t) (ops : List Op) (h : c.CursorOrder)
    (hg : c.GrantedOps ops) : (c.runOps ops).CursorOrder := by
  induction ops generalizing c with
  | nil => exact h
  | cons op ops ih =>
    cases op with
    | user n =>
      obtain ⟨hn, hw, hrest⟩ := hg
      exact ih _ (stepUser_cursorOrder c n h hn hw) hrest
    | server n =>
      obtain ⟨hw, hrest⟩ := hg
      exact ih _ (stepServerLocked_cursorOrder c n h hw) hrest

theorem runOps_frameCount (c : audio_track_cblk_t) (ops : List Op) :
    (c.runOps ops).frameCount = c.frameCount := by
  induction ops generalizing c with
  | nil => rfl
  | cons op ops ih =>
    cases op with
    | user n => simp only [runOps, ih, stepUser_frameCount]
    | server n =>
      simp only [runOps, ih]
      simp only [stepServerLocked]
      split_ifs <;> rfl

/-- C3, as stated, fails: on a freshly constructed playback block with
`frameCount = 4`, the single call `stepUser(10)` leaves `user = 10` and
`server = 0`, so `user - server` exceeds `frameCount`. -/
theorem cursor_order_counterexample :
    ¬ ((({ constructed with frameCount := 4, out := 1 } : audio_track_cblk_t).runOps
          [Op.user 10]).server ≤
        (({ constructed with frameCount := 4, out := 1 } : audio_track_cblk_t).runOps
          [Op.user 10]).user ∧
      (({ constructed with frameCount := 4, out := 1 } : audio_track_cblk_t).runOps
          [Op.user 10]).user -
        (({ constructed with frameCount := 4, out := 1 } : audio_track_cblk_t).runOps
          [Op.user 10]).server ≤ 4) := by
  decide

/-- C3, amended: starting from a freshly constructed playback control block
(`user = server = 0`, `loopStart = loopEnd = UINT_MAX`, `out = 1`) with
`0 < frameCount < 2 ^ 32`, after any interleaving of `stepUser` calls of at
most `framesAvailable_l()` frames and of successful `stepServer` calls of any
size, none of which wraps its cursor at `2 ^ 32`, `server ≤ user` and
`user - server ≤ frameCount`. -/
theorem cursor_order_granted (c : audio_track_cblk_t) (ops : List Op)
    (huser : c.user = 0) (hserver : c.server = 0)
    (hstart : c.loopStart = UINT_MAX) (hend : c.loopEnd = UINT_MAX) (hout : c.out = 1)
    (hfc : 0 < c.frameCount) (hfc32 : c.frameCount < 4294967296)
    (hg : c.GrantedOps ops) :
    (c.runOps ops).server ≤ (c.runOps ops).user ∧
    (c.runOps ops).user - (c.runOps ops).server ≤ c.frameCount := by
  have h0 : c.CursorOrder := ⟨by omega, hstart, hend, hfc32, by omega, by omega, by omega⟩
  obtain ⟨_, _, _, _, _, hsu, hus⟩ := runOps_cursorOrder c ops h0 hg
  rw [runOps_frameCount] at hus
  omega

/-- C3, amended, at a concrete block: a ring of 8 frames that is filled,
drained by a mixer asking for more than is ready, and filled again. -/
theorem cursor_order_granted_witness :
    (({ constructed with frameCount := 8, out := 1 } : audio_track_cblk_t).runOps
        [Op.user 8, Op.server 5, Op.user 5, Op.server 100, Op.user 3]).server ≤
      (({ constructed with frameCount := 8, out := 1 } : audio_track_cblk_t).runOps
        [Op.user 8, Op.server 5, Op.user 5, Op.server 100, Op.user 3]).user ∧
    (({ constructed with frameCount := 8, out := 1 } : audio_track_cblk_t).runOps
        [Op.user 8, Op.server 5, Op.user 5, Op.server 100, Op.user 3]).user -
      (({ constructed with frameCount := 8, out := 1 } : audio_track_cblk_t).runOps
        [Op.user 8, Op.server 5, Op.user 5, Op.server 100, Op.user 3]).server ≤ 8 :=
  cursor_order_granted _ [Op.user 8, Op.server 5, Op.user 5, Op.server 100, Op.user 3]
    rfl rfl rfl rfl rfl (by decide) (by decide) (by decide)

/-! ### Free space and ready data -/

/-- C4: in every control-block state with 32-bit fields in which the producer
is outside an active loop window (`user < loopEnd`),
`framesAvailable() + framesReady()` equals `frameCount` in 32-bit unsigned
arithmetic, on playback and on record blocks alike. -/
theorem framesAvailable_add_framesReady (c : audio_track_cblk_t) (hwf : c.WF)
    (hloop : c.user < c.loopEnd) :
    u32 (c.framesAvailable + c.framesReady) = c.frameCount := by
  obtain ⟨hu, hs, _, _, hf, _, _, _, _⟩ := hwf
  by_cases ho : c.out = 0
  · simp only [framesAvailable, framesAvailable_l, framesReady, ho, ne_eq, not_true_eq_false,
      if_false, u32, sub32]
    omega
  · simp only [framesAvailable, framesAvailable_l, framesReady, ho, ne_eq, not_false_eq_true,
      if_true, hloop, u32, sub32]
    omega

/-- C4 at a concrete block: 5 frames written and 2 consumed in a ring of 8. -/
theorem framesAvailable_add_framesReady_witness :
    u32 (({ constructed with frameCount := 8, out := 1, user := 5, server := 2 } :
            audio_track_cblk_t).framesAvailable +
         ({ constructed with frameCount := 8, out := 1, user := 5, server := 2 } :
            audio_track_cblk_t).framesReady) = 8 :=
  framesAvailable_add_framesReady _ (by decide) (by decide)

/-! ### Buffer acquisition -/

theorem waitLoop_nil (blocking : Bool) (t : Track) :
    Track.waitLoop blocking [] t =
      if t.mCblk.framesAvailable_l = 0 then
        if t.mActive = 0 then some (Sum.inl Status.NO_MORE_BUFFERS, t)
        else if !blocking then some (Sum.inl Status.WOULD_BLOCK, t)
        else none
      else some (Sum.inr t.mCblk.framesAvailable_l, t) := by
  unfold Track.waitLoop
  split_ifs <;> simp_all

theorem waitLoop_cons (blocking : Bool) (w : Track.Wakeup) (ws : List Track.Wakeup)
    (t : Track) :
    Track.waitLoop blocking (w :: ws) t =
      if t.mCblk.framesAvailable_l = 0 then
        if t.mActive = 0 then some (Sum.inl Status.NO_MORE_BUFFERS, t)
        else if !blocking then some (Sum.inl Status.WOULD_BLOCK, t)
        else Track.waitLoop blocking ws (t.afterWait w)
      else some (Sum.inr t.mCblk.framesAvailable_l, t) := by
  conv => lhs; unfold Track.waitLoop

theorem waitLoop_inr (blocking : Bool) (ws : List Track.Wakeup) (t t' : Track) (fa : Nat)
    (h : Track.waitLoop blocking ws t = some (Sum.inr fa, t')) :
    fa = t'.mCblk.framesAvailable_l ∧ fa ≠ 0 ∧ t'.mMuted = t.mMuted ∧
    t'.mChannelCount = t.mChannelCount := by
  induction ws generalizing t with
  | nil =>
    rw [waitLoop_nil] at h
    split_ifs at h with h1 h2 h3 <;>
      simp only [Option.some.injEq, Prod.mk.injEq, Sum.inr.injEq, reduceCtorEq, false_and] at h
    obtain ⟨rfl, rfl⟩ := h
    exact ⟨rfl, h1, rfl, rfl⟩
  | cons w ws ih =>
    rw [waitLoop_cons] at h
    split_ifs at h with h1 h2 h3
    · simp only [Option.some.injEq, Prod.mk.injEq, reduceCtorEq, false_and] at h
    · simp only [Option.some.injEq, Prod.mk.injEq, reduceCtorEq, false_and] at h
    · obtain ⟨e1, e2, e3, e4⟩ := ih _ h
      exact ⟨e1, e2, e3, e4⟩
    · simp only [Option.some.injEq, Prod.mk.injEq, Sum.inr.injEq] at h
      obtain ⟨rfl, rfl⟩ := h
      exact ⟨rfl, h1, rfl, rfl⟩

theorem waitLoop_inl (blocking : Bool) (ws : List Track.Wakeup) (t t' : Track) (e : Status)
    (h : Track.waitLoop blocking ws t = some (Sum.inl e, t')) :
    e = Status.NO_MORE_BUFFERS ∨ e = Status.WOULD_BLOCK := by
  induction ws generalizing t with
  | nil =>
    rw [waitLoop_nil] at h
    split_ifs at h with h1 h2 h3 <;>
      simp only [Option.some.injEq, Prod.mk.injEq, Sum.inl.injEq, reduceCtorEq, false_and] at h
    · exact Or.inl h.1.symm
    · exact Or.inr h.1.symm
  | cons w ws ih =>
    rw [waitLoop_cons] at h
    split_ifs at h with h1 h2 h3
    · simp only [Option.some.injEq, Prod.mk.injEq, Sum.inl.injEq] at h
      exact Or.inl h.1.symm
    · simp only [Option.some.injEq, Prod.mk.injEq, Sum.inl.injEq] at h
      exact Or.inr h.1.symm
    · exact ih _ h
    · simp only [Option.some.injEq, Prod.mk.injEq, reduceCtorEq, false_and] at h

theorem obtainBuffer_waited (t : Track) (blocking : Bool) (ws : List Track.Wakeup) :
    (if t.mCblk.framesAvailable = 0 then Track.waitLoop blocking ws t
      else some (Sum.inr t.mCblk.framesAvailable, t)) = Track.waitLoop blocking ws t := by
  split_ifs with h
  · rfl
  · cases ws with
    | nil => rw [waitLoop_nil]; simp only [framesAvailable] at h; simp [h, framesAvailable]
    | cons w ws => rw [waitLoop_cons]; simp only [framesAvailable] at h; simp [h, framesAvailable]

theorem obtainBuffer_success_eq (t t' : Track) (audioBuffer b : Buffer) (blocking : Bool)
    (ws : List Track.Wakeup) (st : Status)
    (h : t.obtainBuffer audioBuffer blocking ws = some (st, b, t'))
    (hst : st = Status.NO_ERROR ∨ st = Status.STOPPED) :
    t'.mMuted = t.mMuted ∧ t'.mChannelCount = t.mChannelCount ∧
    t'.mCblk.framesAvailable_l ≠ 0 ∧
    st = (if t'.mActive ≠ 0 then Status.NO_ERROR else Status.STOPPED) ∧
    b = { flags := if t'.mMuted then MUTE else 0,
          channelCount := t'.mChannelCount,
          format := PCM_16_BIT,
          frameCount :=
            Track.grantedFrames t'.mCblk audioBuffer.frameCount t'.mCblk.framesAvailable_l,
          size := u32 (u32 (Track.grantedFrames t'.mCblk audioBuffer.frameCount
            t'.mCblk.framesAvailable_l * t'.mChannelCount) * 2),
          raw := t'.mCblk.buffer t'.mCblk.user } := by
  simp only [Track.obtainBuffer] at h
  rw [obtainBuffer_waited t blocking ws] at h
  cases hw : Track.waitLoop blocking ws t with
  | none => simp [hw] at h
  | some r =>
    obtain ⟨x, t2⟩ := r
    cases x with
    | inl e =>
      simp only [hw, Option.some.injEq, Prod.mk.injEq] at h
      have := waitLoop_inl blocking ws t t2 e hw
      obtain ⟨rfl, _, _⟩ := h
      rcases hst with h1 | h1 <;> rcases this with h2 | h2 <;> rw [h1] at h2 <;>
        exact absurd h2 (by decide)
    | inr fa =>
      simp only [hw, Option.some.injEq, Prod.mk.injEq] at h
      obtain ⟨e1, e2, e3, e4⟩ := waitLoop_inr blocking ws t t2 fa hw
      obtain ⟨rfl, rfl, rfl⟩ := h
      subst e1
      exact ⟨e3, e4, e2, rfl, rfl⟩

theorem grantedFrames_bounds (c : audio_track_cblk_t) (req : Nat)
    (hhi : c.user ≤ c.userBase + c.frameCount)
    (hend : c.userBase + c.frameCount < 4294967296)
    (hav : c.user + c.framesAvailable_l < 4294967296) :
    Track.grantedFrames c req c.framesAvailable_l ≤ req ∧
    Track.grantedFrames c req c.framesAvailable_l ≤ c.framesAvailable_l ∧
    c.user + Track.grantedFrames c req c.framesAvailable_l ≤ c.userBase + c.frameCount := by
  generalize c.framesAvailable_l = fa at hav ⊢
  simp only [Track.grantedFrames, u32, sub32]
  split_ifs <;> refine ⟨?_, ?_, ?_⟩ <;> omega

/-- C5, as stated, fails: a playback block with `frameCount = 4096` whose
cursors and wrap base all stand at `2 ^ 32 - 4096`, a state that satisfies
`server ≤ user ≤ server + frameCount` and `user - userBase < frameCount`.
A request for 100 frames on the active track returns `NO_ERROR` with
`frameCount = 4096`, more than was requested, because `userBase + frameCount`
wraps to 0. -/
theorem obtainBuffer_filled_counterexample :
    ({ Track.streaming (playbackAt 4096 4294963200) with mActive := 1 } : Track).obtainBuffer
        (Track.request 100) false [] =
      some (Status.NO_ERROR,
        { flags := 0, channelCount := 2, format := PCM_16_BIT, frameCount := 4096,
          size := 16384, raw := 0 },
        { Track.streaming (playbackAt 4096 4294963200) with mActive := 1 }) ∧
    ¬ (4096 ≤ (Track.request 100).frameCount) := by
  decide

/-- C5, amended: whenever `obtainBuffer` fills the descriptor (status
`NO_ERROR` or `STOPPED`), and the control block it fills from has its producer
inside the ring (`userBase ≤ user ≤ userBase + frameCount`) with no 32-bit
wrap in `userBase + frameCount`, in `user + framesAvailable` or in the byte
size `frameCount * channelCount * 2` of the ring, the returned `frameCount` is
at most the requested one, at most `framesAvailable`, and satisfies
`user + frameCount ≤ userBase + cblk.frameCount`; `size` is
`frameCount * channelCount * 2`, `format` is `PCM_16_BIT`, and `flags` is
`MUTE` exactly when the track is muted. -/
theorem obtainBuffer_filled (t t' : Track) (audioBuffer b : Buffer) (blocking : Bool)
    (ws : List Track.Wakeup) (st : Status)
    (hres : t.obtainBuffer audioBuffer blocking ws = some (st, b, t'))
    (hst : st = Status.NO_ERROR ∨ st = Status.STOPPED)
    (hlo : t'.mCblk.userBase ≤ t'.mCblk.user)
    (hhi : t'.mCblk.user ≤ t'.mCblk.userBase + t'.mCblk.frameCount)
    (hend : t'.mCblk.userBase + t'.mCblk.frameCount < 4294967296)
    (hav : t'.mCblk.user + t'.mCblk.framesAvailable < 4294967296)
    (hsize : t'.mCblk.frameCount * t.mChannelCount * 2 < 4294967296) :
    b.frameCount ≤ audioBuffer.frameCount ∧
    b.frameCount ≤ t'.mCblk.framesAvailable ∧
    t'.mCblk.user + b.frameCount ≤ t'.mCblk.userBase + t'.mCblk.frameCount ∧
    b.size = b.frameCount * t.mChannelCount * 2 ∧
    b.format = PCM_16_BIT ∧
    (b.flags = MUTE ↔ t.mMuted = true) := by
  obtain ⟨hm, hc, _, _, hb⟩ := obtainBuffer_success_eq t t' audioBuffer b blocking ws st hres hst
  obtain ⟨g1, g2, g3⟩ := grantedFrames_bounds t'.mCblk audioBuffer.frameCount hhi hend hav
  subst hb
  refine ⟨g1, g2, g3, ?_, rfl, ?_⟩
  · simp only [framesAvailable] at hav
    rw [hc]
    have hle : Track.grantedFrames t'.mCblk audioBuffer.frameCount t'.mCblk.framesAvailable_l
        ≤ t'.mCblk.frameCount := by omega
    have h1 := Nat.mul_le_mul_right t.mChannelCount hle
    simp only [u32]
    omega
  · rw [hm]
    cases t.mMuted <;> simp

/-- C5, amended, at a concrete track: 10 frames are requested when 5 are
available and 3 are left before the end of the ring; 3 frames are granted. -/
theorem obtainBuffer_filled_witness :
    (3 : Nat) ≤ (Track.request 10).frameCount ∧
    3 ≤ Track.partlyFilled.mCblk.framesAvailable ∧
    Track.partlyFilled.mCblk.user + 3 ≤
      Track.partlyFilled.mCblk.userBase + Track.partlyFilled.mCblk.frameCount ∧
    (12 : Nat) = 3 * Track.partlyFilled.mChannelCount * 2 ∧
    PCM_16_BIT = PCM_16_BIT ∧
    ((0 : Nat) = MUTE ↔ Track.partlyFilled.mMuted = true) :=
  obtainBuffer_filled Track.partlyFilled Track.partlyFilled (Track.request 10)
    { flags := 0, channelCount := 2, format := PCM_16_BIT, frameCount := 3, size := 12,
      raw := 10 }
    true [] Status.STOPPED (by decide) (Or.inr rfl) (by decide) (by decide) (by decide)
    (by decide) (by decide)

theorem waitLoop_of_avail (blocking : Bool) (ws : List Track.Wakeup) (t : Track)
    (h : t.mCblk.framesAvailable_l ≠ 0) :
    Track.waitLoop blocking ws t = some (Sum.inr t.mCblk.framesAvailable_l, t) := by
  cases ws with
  | nil => rw [waitLoop_nil, if_neg h]
  | cons w ws => rw [waitLoop_cons, if_neg h]

theorem waitLoop_of_inactive (blocking : Bool) (ws : List Track.Wakeup) (t : Track)
    (h : t.mCblk.framesAvailable_l = 0) (ha : t.mActive = 0) :
    Track.waitLoop blocking ws t = some (Sum.inl Status.NO_MORE_BUFFERS, t) := by
  cases ws with
  | nil => rw [waitLoop_nil, if_pos h, if_pos ha]
  | cons w ws => rw [waitLoop_cons, if_pos h, if_pos ha]

theorem waitLoop_of_nonblocking (ws : List Track.Wakeup) (t : Track)
    (h : t.mCblk.framesAvailable_l = 0) (ha : t.mActive ≠ 0) :
    Track.waitLoop false ws t = some (Sum.inl Status.WOULD_BLOCK, t) := by
  cases ws with
  | nil => rw [waitLoop_nil, if_pos h, if_neg ha]; rfl
  | cons w ws => rw [waitLoop_cons, if_pos h, if_neg ha]; rfl

/-- C6: when `framesAvailable()` is 0, `obtainBuffer` returns `NO_MORE_BUFFERS`
on an inactive track and `WOULD_BLOCK` on an active track called
non-blocking, in both cases with `frameCount = 0` and `size = 0` in the
descriptor and with the track and its control block unchanged; when
`framesAvailable()` is positive it returns `NO_ERROR` on an active track and
`STOPPED` on an inactive one. -/
theorem obtainBuffer_status (t : Track) (audioBuffer : Buffer) (blocking : Bool)
    (ws : List Track.Wakeup) :
    (t.mCblk.framesAvailable = 0 → t.mActive = 0 →
      t.obtainBuffer audioBuffer blocking ws =
        some (Status.NO_MORE_BUFFERS, { audioBuffer with frameCount := 0, size := 0 }, t)) ∧
    (t.mCblk.framesAvailable = 0 → t.mActive ≠ 0 →
      t.obtainBuffer audioBuffer false ws =
        some (Status.WOULD_BLOCK, { audioBuffer with frameCount := 0, size := 0 }, t)) ∧
    (0 < t.mCblk.framesAvailable →
      ∃ b, t.obtainBuffer audioBuffer blocking ws =
        some (if t.mActive ≠ 0 then Status.NO_ERROR else Status.STOPPED, b, t)) := by
  refine ⟨?_, ?_, ?_⟩
  · intro h ha
    simp only [Track.obtainBuffer]
    rw [obtainBuffer_waited t blocking ws, waitLoop_of_inactive blocking ws t h ha]
  · intro h ha
    simp only [Track.obtainBuffer]
    rw [obtainBuffer_waited t false ws, waitLoop_of_nonblocking ws t h ha]
  · intro h
    have h2 : t.mCblk.framesAvailable_l ≠ 0 := by
      simp only [framesAvailable] at h
      omega
    simp only [Track.obtainBuffer]
    rw [obtainBuffer_waited t blocking ws, waitLoop_of_avail blocking ws t h2]
    exact ⟨_, rfl⟩

/-- C6 at a concrete track: a full ring of 8 frames on an inactive track,
asked to block, returns `NO_MORE_BUFFERS` at once. -/
theorem obtainBuffer_status_witness :
    (Track.streaming { playbackAt 8 0 with user := 8 }).obtainBuffer (Track.request 4) true [] =
      some (Status.NO_MORE_BUFFERS, { Track.request 4 with frameCount := 0, size := 0 },
        Track.streaming { playbackAt 8 0 with user := 8 }) :=
  (obtainBuffer_status (Track.streaming { playbackAt 8 0 with user := 8 }) (Track.request 4)
    true []).1 (by decide) (by decide)

/-! ### Loops and seeking -/

/-- C7: `setLoop(start, end, count)` with `count = 0` returns `NO_ERROR` and
sets `loopStart = loopEnd = UINT_MAX` and both loop counts to 0.  With
`count ≠ 0` it returns `BAD_VALUE` exactly when `start ≥ end`, or
`start < cblk.user`, or `end - start > mFrameCount`, and then changes
nothing; otherwise it returns `NO_ERROR` and stores `start`, `end` and
`count` (the latter also in `mLoopCount`). -/
theorem setLoop_result (t : Track) (loopStart loopEnd : Nat) (loopCount : Int)
    (hstart : loopStart < 4294967296) (hend : loopEnd < 4294967296) :
    (loopCount = 0 →
      (t.setLoop loopStart loopEnd loopCount).1 = Status.NO_ERROR ∧
      (t.setLoop loopStart loopEnd loopCount).2.mCblk.loopStart = UINT_MAX ∧
      (t.setLoop loopStart loopEnd loopCount).2.mCblk.loopEnd = UINT_MAX ∧
      (t.setLoop loopStart loopEnd loopCount).2.mCblk.loopCount = 0 ∧
      (t.setLoop loopStart loopEnd loopCount).2.mLoopCount = 0) ∧
    (loopCount ≠ 0 →
      ((t.setLoop loopStart loopEnd loopCount).1 = Status.BAD_VALUE ↔
        (loopStart ≥ loopEnd ∨ loopStart < t.mCblk.user ∨
          loopEnd - loopStart > t.mFrameCount)) ∧
      ((t.setLoop loopStart loopEnd loopCount).1 = Status.BAD_VALUE →
        (t.setLoop loopStart loopEnd loopCount).2 = t) ∧
      ((t.setLoop loopStart loopEnd loopCount).1 ≠ Status.BAD_VALUE →
        (t.setLoop loopStart loopEnd loopCount).1 = Status.NO_ERROR ∧
        (t.setLoop loopStart loopEnd loopCount).2.mCblk.loopStart = loopStart ∧
        (t.setLoop loopStart loopEnd loopCount).2.mCblk.loopEnd = loopEnd ∧
        (t.setLoop loopStart loopEnd loopCount).2.mCblk.loopCount = loopCount ∧
        (t.setLoop loopStart loopEnd loopCount).2.mLoopCount = loopCount)) := by
  constructor
  · intro h0
    simp [Track.setLoop, h0]
  · intro h0
    have hsub : loopStart < loopEnd → sub32 loopEnd loopStart = loopEnd - loopStart := by
      intro hlt
      simp only [sub32]
      omega
    by_cases hbad : loopStart ≥ loopEnd ∨ loopStart < t.mCblk.user ∨
        sub32 loopEnd loopStart > t.mFrameCount
    · have hbad2 : loopStart ≥ loopEnd ∨ loopStart < t.mCblk.user ∨
          loopEnd - loopStart > t.mFrameCount := by
        rcases hbad with h | h | h
        · exact Or.inl h
        · exact Or.inr (Or.inl h)
        · by_cases hlt : loopStart < loopEnd
          · rw [hsub hlt] at h; exact Or.inr (Or.inr h)
          · exact Or.inl (by omega)
      simp only [Track.setLoop, h0, if_false, hbad, if_true, true_iff, ne_eq,
        not_true_eq_false, false_implies, implies_true, and_true]
      exact hbad2
    · have hbad2 : ¬ (loopStart ≥ loopEnd ∨ loopStart < t.mCblk.user ∨
          loopEnd - loopStart > t.mFrameCount) := by
        intro h
        apply hbad
        rcases h with h | h | h
        · exact Or.inl h
        · exact Or.inr (Or.inl h)
        · by_cases hlt : loopStart < loopEnd
          · rw [← hsub hlt] at h; exact Or.inr (Or.inr h)
          · exact Or.inl (by omega)
      simp only [Track.setLoop, h0, if_false, hbad, reduceCtorEq, false_iff, ne_eq,
        not_false_eq_true, false_implies, true_implies, and_self, and_true, true_and]
      exact hbad2

/-- C7 at a concrete track: a loop over frames 5 to 8, set three times over,
on a track whose producer stands at frame 5. -/
theorem setLoop_result_witness :
    (Track.partlyFilled.setLoop 5 8 3).1 = Status.NO_ERROR ∧
    (Track.partlyFilled.setLoop 5 8 3).2.mCblk.loopStart = 5 ∧
    (Track.partlyFilled.setLoop 5 8 3).2.mCblk.loopEnd = 8 ∧
    (Track.partlyFilled.setLoop 5 8 3).2.mCblk.loopCount = 3 ∧
    (Track.partlyFilled.setLoop 5 8 3).2.mLoopCount = 3 :=
  ((setLoop_result Track.partlyFilled 5 8 3 (by decide) (by decide)).2 (by decide)).2.2
    (by decide)

theorem stepServerLocked_user (c : audio_track_cblk_t) (n : Nat) :
    (c.stepServerLocked n).user = c.user ∧ (c.stepServerLocked n).out = c.out := by
  simp only [stepServerLocked]
  split_ifs <;> exact ⟨rfl, rfl⟩

theorem stepServerLocked_below (c : audio_track_cblk_t) (n : Nat)
    (h : c.serverTarget n < c.loopEnd) :
    (c.stepServerLocked n).loopStart = c.loopStart ∧
    (c.stepServerLocked n).loopEnd = c.loopEnd ∧
    (c.stepServerLocked n).loopCount = c.loopCount ∧
    (c.stepServerLocked n).server = c.serverTarget n := by
  simp only [serverTarget] at h
  simp [stepServerLocked, serverTarget, Nat.not_le.mpr h]

theorem stepServerLocked_reached (c : audio_track_cblk_t) (n : Nat)
    (h : c.serverTarget n ≥ c.loopEnd) :
    (c.stepServerLocked n).server = c.loopStart ∧
    (c.stepServerLocked n).loopCount = i32 (c.loopCount - 1) ∧
    (i32 (c.loopCount - 1) = 0 →
      (c.stepServerLocked n).loopStart = UINT_MAX ∧
      (c.stepServerLocked n).loopEnd = UINT_MAX) ∧
    (i32 (c.loopCount - 1) ≠ 0 →
      (c.stepServerLocked n).loopStart = c.loopStart ∧
      (c.stepServerLocked n).loopEnd = c.loopEnd) := by
  simp only [serverTarget] at h
  by_cases h0 : i32 (c.loopCount - 1) = 0
  · simp [stepServerLocked, h, h0]
  · simp [stepServerLocked, h, h0]

theorem serverTarget_lt (c : audio_track_cblk_t) (n : Nat) (hu : c.user < 4294967296) :
    c.serverTarget n < 4294967296 := by
  simp only [serverTarget, u32]
  split_ifs <;> omega

theorem stepUser_user_lt (c : audio_track_cblk_t) (n : Nat) (hs : c.server < 4294967296) :
    (c.stepUser n).2.user < 4294967296 := by
  simp only [stepUser, u32]
  split_ifs <;> omega

theorem stepServerLocked_server_lt (c : audio_track_cblk_t) (n : Nat)
    (hu : c.user < 4294967296) (hl : c.loopStart < 4294967296) :
    (c.stepServerLocked n).server < 4294967296 := by
  by_cases h : c.serverTarget n < c.loopEnd
  · rw [(stepServerLocked_below c n h).2.2.2]
    exact serverTarget_lt c n hu
  · rw [(stepServerLocked_reached c n (by omega)).1]
    exact hl

theorem runCounting_cleared (b : Nat) (c : audio_track_cblk_t) (ops : List Op)
    (hs : c.loopStart = UINT_MAX) (he : c.loopEnd = UINT_MAX)
    (hu : c.user < 4294967296) (hsv : c.server < 4294967296) :
    (c.runCounting b ops).1.loopStart = UINT_MAX ∧
    (c.runCounting b ops).1.loopEnd = UINT_MAX ∧
    (c.runCounting b ops).1.user < 4294967296 ∧
    (c.runCounting b ops).1.server < 4294967296 := by
  induction ops generalizing c with
  | nil => exact ⟨hs, he, hu, hsv⟩
  | cons op ops ih =>
    cases op with
    | user n =>
      simp only [runCounting]
      exact ih _ hs he (stepUser_user_lt c n hsv) hsv
    | server n =>
      simp only [runCounting]
      have hu2 : (c.stepServerLocked n).user < 4294967296 := by
        rw [(stepServerLocked_user c n).1]; exact hu
      have hs2 := stepServerLocked_server_lt c n hu (by rw [hs]; decide)
      by_cases h : c.serverTarget n < c.loopEnd
      · obtain ⟨e1, e2, _, _⟩ := stepServerLocked_below c n h
        exact ih _ (e1.trans hs) (e2.trans he) hu2 hs2
      · obtain ⟨_, _, e3, e4⟩ := stepServerLocked_reached c n (by omega)
        by_cases h0 : i32 (c.loopCount - 1) = 0
        · exact ih _ (e3 h0).1 (e3 h0).2 hu2 hs2
        · exact ih _ ((e4 h0).1.trans hs) ((e4 h0).2.trans he) hu2 hs2

theorem runCounting_active (a b : Nat) (k : Int) (c : audio_track_cblk_t) (ops : List Op)
    (ha : a < 4294967296) (hk : 0 < k) (hk32 : k < 2147483648)
    (hs : c.loopStart = a) (he : c.loopEnd = b) (hc : c.loopCount = k)
    (hu : c.user < 4294967296) (hsv : c.server < 4294967296) :
    (c.runCounting b ops).1.user < 4294967296 ∧
    (c.runCounting b ops).1.server < 4294967296 ∧
    (((c.runCounting b ops).2 : Int) < k →
      (c.runCounting b ops).1.loopStart = a ∧ (c.runCounting b ops).1.loopEnd = b ∧
      (c.runCounting b ops).1.loopCount = k - (c.runCounting b ops).2) ∧
    (k ≤ ((c.runCounting b ops).2 : Int) →
      (c.runCounting b ops).1.loopStart = UINT_MAX ∧
      (c.runCounting b ops).1.loopEnd = UINT_MAX) := by
  induction ops generalizing c k with
  | nil =>
    simp only [runCounting, Nat.cast_zero, sub_zero]
    exact ⟨hu, hsv, fun _ => ⟨hs, he, hc⟩, fun h => by omega⟩
  | cons op ops ih =>
    cases op with
    | user n =>
      simp only [runCounting]
      exact ih k _ hk hk32 hs he hc (stepUser_user_lt c n hsv) hsv
    | server n =>
      simp only [runCounting]
      have hu2 : (c.stepServerLocked n).user < 4294967296 := by
        rw [(stepServerLocked_user c n).1]; exact hu
      have hs2 := stepServerLocked_server_lt c n hu (by rw [hs]; exact ha)
      by_cases h : c.serverTarget n < c.loopEnd
      · obtain ⟨e1, e2, e3, _⟩ := stepServerLocked_below c n h
        have hb : ¬ c.serverTarget n ≥ b := by rw [← he]; omega
        simp only [hb, if_false, Nat.add_zero]
        exact ih k _ hk hk32 (e1.trans hs) (e2.trans he) (e3.trans hc) hu2 hs2
      · obtain ⟨_, e2, e3, e4⟩ := stepServerLocked_reached c n (by omega)
        have hb : c.serverTarget n ≥ b := by rw [← he]; omega
        have hdec : i32 (c.loopCount - 1) = k - 1 := by
          rw [hc]; simp only [i32]; omega
        simp only [hb, if_true, Nat.cast_add, Nat.cast_one]
        by_cases h0 : k - 1 = 0
        · obtain ⟨c1, c2, c3, c4⟩ := runCounting_cleared b _ ops (e3 (hdec.trans h0)).1
            (e3 (hdec.trans h0)).2 hu2 hs2
          refine ⟨c3, c4, fun hlt => ?_, fun _ => ⟨c1, c2⟩⟩
          omega
        · have hne : i32 (c.loopCount - 1) ≠ 0 := by rw [hdec]; exact h0
          obtain ⟨i1, i2, i3, i4⟩ := ih (k - 1) _ (by omega) (by omega)
            ((e4 hne).1.trans hs) ((e4 hne).2.trans he) (e2.trans hdec) hu2 hs2
          refine ⟨i1, i2, fun hlt => ?_, fun hge => i4 (by omega)⟩
          obtain ⟨j1, j2, j3⟩ := i3 (by omega)
          exact ⟨j1, j2, by rw [j3]; omega⟩

theorem stepServerLocked_cleared_server (c : audio_track_cblk_t) (m : Nat)
    (hs : c.loopStart = UINT_MAX) (he : c.loopEnd = UINT_MAX) (hu : c.user < 4294967296) :
    (c.stepServerLocked m).server = c.serverTarget m := by
  by_cases h : c.serverTarget m < c.loopEnd
  · exact (stepServerLocked_below c m h).2.2.2
  · rw [(stepServerLocked_reached c m (by omega)).1, hs]
    have hlt := serverTarget_lt c m hu
    rw [he] at h
    simp only [UINT_MAX] at h ⊢
    omega

/-- C8: after a successful `setLoop(a, b, n)` with `n > 0`, consider any
interleaving of `stepUser` calls and successful `stepServer` calls, and let
`w` be the number of `stepServer` calls so far whose position reached `b`.
While `w < n` the loop window is still `[a, b)` with `n - w` iterations left,
and the next `stepServer` that reaches `b` puts the server back at `a`.  Once
`w ≥ n` the window is cleared (`loopStart = loopEnd = UINT_MAX`) and every
further `stepServer` stores the position it computed, also at or past `b`. -/
theorem loop_wraps_exactly (t : Track) (a b : Nat) (n : Int) (ops : List Op) (m : Nat)
    (hwf : t.mCblk.WF) (hb : b < 4294967296) (hn : 0 < n) (hn32 : n < 2147483648)
    (hok : (t.setLoop a b n).1 = Status.NO_ERROR) :
    ((((t.setLoop a b n).2.mCblk.runCounting b ops).2 : Int) < n →
      ((t.setLoop a b n).2.mCblk.runCounting b ops).1.loopStart = a ∧
      ((t.setLoop a b n).2.mCblk.runCounting b ops).1.loopEnd = b ∧
      ((t.setLoop a b n).2.mCblk.runCounting b ops).1.loopCount =
        n - ((t.setLoop a b n).2.mCblk.runCounting b ops).2 ∧
      (((t.setLoop a b n).2.mCblk.runCounting b ops).1.serverTarget m ≥ b →
        (((t.setLoop a b n).2.mCblk.runCounting b ops).1.stepServerLocked m).server = a)) ∧
    (n ≤ (((t.setLoop a b n).2.mCblk.runCounting b ops).2 : Int) →
      ((t.setLoop a b n).2.mCblk.runCounting b ops).1.loopStart = UINT_MAX ∧
      ((t.setLoop a b n).2.mCblk.runCounting b ops).1.loopEnd = UINT_MAX ∧
      (((t.setLoop a b n).2.mCblk.runCounting b ops).1.stepServerLocked m).server =
        ((t.setLoop a b n).2.mCblk.runCounting b ops).1.serverTarget m) := by
  obtain ⟨hu, hsv, _, _, _, _, _, _, _⟩ := hwf
  have hn0 : n ≠ 0 := by omega
  have hgood : ¬ (a ≥ b ∨ a < t.mCblk.user ∨ sub32 b a > t.mFrameCount) := by
    intro hbad
    simp [Track.setLoop, hn0, hbad] at hok
  have hstate : (t.setLoop a b n).2.mCblk =
      { t.mCblk with loopStart := a, loopEnd := b, loopCount := n } := by
    simp [Track.setLoop, hn0, hgood]
  have hab : a < b := by
    by_contra hc
    exact hgood (Or.inl (by omega))
  rw [hstate]
  obtain ⟨r1, r2, r3, r4⟩ := runCounting_active a b n
    { t.mCblk with loopStart := a, loopEnd := b, loopCount := n } ops (by omega) hn hn32
    rfl rfl rfl hu hsv
  constructor
  · intro hlt
    obtain ⟨j1, j2, j3⟩ := r3 hlt
    refine ⟨j1, j2, j3, fun hreach => ?_⟩
    rw [(stepServerLocked_reached _ m (by rw [j2]; exact hreach)).1, j1]
  · intro hge
    obtain ⟨j1, j2⟩ := r4 hge
    refine ⟨j1, j2, ?_⟩
    exact stepServerLocked_cleared_server _ m j1 j2 r1

/-- C8 at a concrete track: a loop over frames 5 to 8 set three times over; the
mixer reaches frame 8 three times and is sent back to frame 5 each time, and
the fourth time it stays at frame 8. -/
theorem loop_wraps_exactly_witness :
    (((Track.partlyFilled.setLoop 5 8 3).2.mCblk.runCounting 8
        [Op.user 3, Op.server 10, Op.server 3, Op.server 3]).1.stepServerLocked 3).server =
      ((Track.partlyFilled.setLoop 5 8 3).2.mCblk.runCounting 8
        [Op.user 3, Op.server 10, Op.server 3, Op.server 3]).1.serverTarget 3 :=
  ((loop_wraps_exactly Track.partlyFilled 5 8 3
    [Op.user 3, Op.server 10, Op.server 3, Op.server 3] 3
    (by decide) (by decide) (by decide) (by decide) (by decide)).2 (by decide)).2.2

/-! ### Events of the callback thread -/

theorem loopEndPayloads_append (xs ys : List Track.Event) :
    Track.loopEndPayloads (xs ++ ys) = Track.loopEndPayloads xs ++ Track.loopEndPayloads ys := by
  induction xs with
  | nil => rfl
  | cons x xs ih => cases x <;> simp [Track.loopEndPayloads, ih]

theorem loopEndLoop_stop (c m : Int) (h : ¬ m > c) : Track.loopEndLoop c m = ([], m) := by
  rw [Track.loopEndLoop, if_neg h]

theorem loopEndLoop_step (c m : Int) (h : m > c) :
    Track.loopEndLoop c m =
      (Track.Event.EVENT_LOOP_END (if m - 1 ≥ 0 then m - 1 else -1) ::
          (Track.loopEndLoop c (m - 1)).1,
        (Track.loopEndLoop c (m - 1)).2) := by
  rw [Track.loopEndLoop, if_pos h]

theorem loopEndLoop_spec (c : Int) (k : Nat) :
    ∀ m : Int, (m - c).toNat = k →
      Track.loopEndPayloads (Track.loopEndLoop c m).1 =
          (List.range k).map (fun i : Nat => if m - 1 - (i : Int) ≥ 0 then m - 1 - i else -1) ∧
        (Track.loopEndLoop c m).2 = (if m > c then c else m) := by
  induction k with
  | zero =>
    intro m hm
    have h : ¬ m > c := by omega
    rw [loopEndLoop_stop c m h, if_neg h]
    exact ⟨rfl, rfl⟩
  | succ k ih =>
    intro m hm
    have h : m > c := by omega
    obtain ⟨i1, i2⟩ := ih (m - 1) (by omega)
    rw [loopEndLoop_step c m h, if_pos h]
    constructor
    · simp only [Track.loopEndPayloads, i1, List.range_succ_eq_map, List.map_cons,
        List.map_map, Nat.cast_zero, sub_zero]
      congr 1
      apply List.map_congr_left
      intro i _
      simp only [Function.comp, Nat.succ_eq_add_one, Nat.cast_add, Nat.cast_one]
      have e : m - 1 - ((i : Int) + 1) = m - 1 - 1 - i := by omega
      rw [e]
    · rw [i2]
      split_ifs <;> omega

theorem loopEndLoop_closed (c : Int) (k : Nat) :
    ∀ m : Int, (m - c).toNat = k →
      Track.loopEndLoop c m =
        ((List.range k).map (fun i : Nat =>
            Track.Event.EVENT_LOOP_END (if m - 1 - (i : Int) ≥ 0 then m - 1 - i else -1)),
          if m > c then c else m) := by
  induction k with
  | zero =>
    intro m hm
    have h : ¬ m > c := by omega
    rw [loopEndLoop_stop c m h, if_neg h]
    rfl
  | succ k ih =>
    intro m hm
    have h : m > c := by omega
    rw [loopEndLoop_step c m h, ih (m - 1) (by omega), if_pos h]
    apply Prod.ext
    · simp only [List.range_succ_eq_map, List.map_cons, List.map_map, Nat.cast_zero, sub_zero]
      congr 1
      apply List.map_congr_left
      intro i _
      simp only [Function.comp, Nat.succ_eq_add_one, Nat.cast_add, Nat.cast_one]
      have e : m - 1 - ((i : Int) + 1) = m - 1 - 1 - i := by omega
      rw [e]
    · simp only
      split_ifs <;> omega

theorem obtainBuffer_nonblocking (t : Track) (audioBuffer : Buffer) :
    ∃ st b, t.obtainBuffer audioBuffer false [] = some (st, b, t) := by
  simp only [Track.obtainBuffer]
  rw [obtainBuffer_waited t false [], waitLoop_nil]
  simp only [Bool.not_false, if_true]
  split_ifs <;> exact ⟨_, _, rfl⟩

theorem underrunPhase_loopEnd (t : Track) :
    Track.loopEndPayloads (Track.underrunPhase t).1 = [] ∧
    (Track.underrunPhase t).2.1.mLoopCount = t.mLoopCount ∧
    (Track.underrunPhase t).2.1.mCblk.loopCount = t.mCblk.loopCount := by
  simp only [Track.underrunPhase]
  split_ifs <;> exact ⟨rfl, rfl, rfl⟩

theorem markerPhase_loopEnd (t : Track) :
    Track.loopEndPayloads (Track.markerPhase t).1 = [] ∧
    (Track.markerPhase t).2.mLoopCount = t.mLoopCount ∧
    (Track.markerPhase t).2.mCblk.loopCount = t.mCblk.loopCount := by
  simp only [Track.markerPhase]
  split_ifs <;> exact ⟨rfl, rfl, rfl⟩

theorem newPosLoop_loopEnd (server updatePeriod fuel pos : Nat) (events : List Track.Event)
    (final : Nat) (h : Track.newPosLoop server updatePeriod fuel pos = some (events, final)) :
    Track.loopEndPayloads events = [] := by
  induction fuel generalizing pos events final with
  | zero => simp [Track.newPosLoop] at h
  | succ fuel ih =>
    simp only [Track.newPosLoop] at h
    split_ifs at h with hge
    · cases hrec : Track.newPosLoop server updatePeriod fuel (u32 (pos + updatePeriod)) with
      | none => simp [hrec] at h
      | some r =>
        obtain ⟨ev, fin⟩ := r
        simp only [hrec, Option.some.injEq, Prod.mk.injEq] at h
        obtain ⟨rfl, rfl⟩ := h
        simp only [Track.loopEndPayloads]
        exact ih _ _ _ hrec
    · simp only [Option.some.injEq, Prod.mk.injEq] at h
      obtain ⟨rfl, rfl⟩ := h
      rfl

theorem newPosPhase_loopEnd (fuel : Nat) (t t' : Track) (events : List Track.Event)
    (h : Track.newPosPhase fuel t = some (events, t')) :
    Track.loopEndPayloads events = [] ∧ t'.mLoopCount = t.mLoopCount ∧
    t'.mCblk.loopCount = t.mCblk.loopCount := by
  simp only [Track.newPosPhase] at h
  split_ifs at h with hp
  · cases hrec : Track.newPosLoop t.mCblk.server t.mUpdatePeriod fuel t.mNewPosition with
    | none => simp [hrec] at h
    | some r =>
      obtain ⟨ev, fin⟩ := r
      simp only [hrec, Option.some.injEq, Prod.mk.injEq] at h
      obtain ⟨rfl, rfl⟩ := h
      exact ⟨newPosLoop_loopEnd _ _ _ _ _ _ hrec, rfl, rfl⟩
  · simp only [Option.some.injEq, Prod.mk.injEq] at h
    obtain ⟨rfl, rfl⟩ := h
    exact ⟨rfl, rfl, rfl⟩

theorem fillLoop_loopEnd (written : List Nat) (t : Track) (audioBuffer : Buffer)
    (frames writtenSize : Nat) (r : Track.Filled)
    (h : Track.fillLoop written t audioBuffer frames writtenSize = some r) :
    Track.loopEndPayloads r.events = [] ∧ r.track.mLoopCount = t.mLoopCount ∧
    r.track.mCblk.loopCount = t.mCblk.loopCount := by
  induction written generalizing t audioBuffer frames writtenSize r with
  | nil =>
    obtain ⟨st, b, hob⟩ := obtainBuffer_nonblocking t { audioBuffer with frameCount := frames }
    unfold Track.fillLoop at h
    simp only [hob] at h
    split_ifs at h <;> simp only [Option.some.injEq, reduceCtorEq] at h <;> subst h <;>
      exact ⟨rfl, rfl, rfl⟩
  | cons w written ih =>
    obtain ⟨st, b, hob⟩ := obtainBuffer_nonblocking t { audioBuffer with frameCount := frames }
    unfold Track.fillLoop at h
    simp only [hob] at h
    split_ifs at h
    all_goals first
      | (simp only [Option.some.injEq] at h; subst h; exact ⟨rfl, rfl, rfl⟩)
      | (split at h
         · simp only [reduceCtorEq] at h
         · rename_i r2 hrec
           simp only [Option.some.injEq] at h
           subst h
           obtain ⟨i1, i2, i3⟩ := ih _ _ _ _ _ hrec
           exact ⟨by simp only [Track.loopEndPayloads]; exact i1, i2, i3⟩)

theorem underrunPhase_returns (t : Track) :
    (Track.underrunPhase t).2.2 = true ↔
      (t.mActive ≠ 0 ∧ t.mCblk.framesReady = 0 ∧ t.mCblk.flowControlFlag = 0 ∧
        t.mSharedBuffer = true) := by
  unfold Track.underrunPhase
  by_cases h1 : t.mActive ≠ 0 ∧ t.mCblk.framesReady = 0
  · by_cases h2 : t.mCblk.flowControlFlag = 0
    · rw [if_pos h1, if_pos h2]
      exact ⟨fun h => ⟨h1.1, h1.2, h2, h⟩, fun h => h.2.2.2⟩
    · rw [if_pos h1, if_neg h2]
      exact ⟨fun h => absurd h (by simp), fun h => absurd h.2.2.1 h2⟩
  · rw [if_neg h1]
    exact ⟨fun h => absurd h (by simp), fun h => absurd ⟨h.1, h.2.1⟩ h1⟩

theorem processAudioBuffer_payloads (fuel : Nat) (written : List Nat) (audioBuffer : Buffer)
    (t : Track) (r : Track.Processed)
    (hrun : Track.processAudioBuffer fuel written audioBuffer t = some r)
    (hnot : (Track.underrunPhase t).2.2 = false) :
    Track.loopEndPayloads r.events =
        Track.loopEndPayloads (Track.loopEndLoop t.mCblk.loopCount t.mLoopCount).1 ∧
      r.track.mLoopCount = (Track.loopEndLoop t.mCblk.loopCount t.mLoopCount).2 ∧
      r.track.mCblk.loopCount = t.mCblk.loopCount := by
  obtain ⟨u1, u2, u3⟩ := underrunPhase_loopEnd t
  rcases hup : Track.underrunPhase t with ⟨ev1, t1, ret⟩
  rw [hup] at hnot u1 u2 u3
  simp only at hnot u1 u2 u3
  subst hnot
  unfold Track.processAudioBuffer at hrun
  simp only [hup] at hrun
  rw [u2, u3] at hrun
  split at hrun
  · simp only [reduceCtorEq] at hrun
  · rename_i ev4 t4 hpos
    obtain ⟨p1, p2, p3⟩ := newPosPhase_loopEnd _ _ _ _ hpos
    obtain ⟨m1, m2, m3⟩ := markerPhase_loopEnd
      { t1 with mLoopCount := (Track.loopEndLoop t.mCblk.loopCount t.mLoopCount).2 }
    rw [m2] at p2
    rw [m3] at p3
    split at hrun
    · simp only [reduceCtorEq] at hrun
    · rename_i filled hfill
      obtain ⟨f1, f2, f3⟩ := fillLoop_loopEnd _ _ _ _ _ _ hfill
      split_ifs at hrun <;> simp only [Option.some.injEq] at hrun <;> subst hrun <;>
        simp only [loopEndPayloads_append, u1, m1, p1, f1, List.nil_append, List.append_nil,
          true_and] <;>
        exact ⟨f2.trans p2, (f3.trans p3).trans u3⟩

/-- C9, as stated, fails: on the shared-buffer track `loopedOnce`, where
`mLoopCount = 1` and `cblk.loopCount = 0`, the call fires `EVENT_UNDERRUN` and
`EVENT_BUFFER_END` and returns `false` at the underrun check; no
`EVENT_LOOP_END` fires and `mLoopCount` stays 1. -/
theorem processAudioBuffer_loop_end_counterexample :
    Track.loopedOnce.mLoopCount = 1 ∧ Track.loopedOnce.mCblk.loopCount = 0 ∧
    (Track.processAudioBuffer 0 [] (Track.request 0) Track.loopedOnce).map
        (fun r => (r.events, r.result, Track.loopEndPayloads r.events, r.track.mLoopCount)) =
      some ([Track.Event.EVENT_UNDERRUN, Track.Event.EVENT_BUFFER_END], false, [], 1) := by
  decide

/-- C9, amended: in one `processAudioBuffer` call that does not return at the
underrun check (the track is not at once active, out of ready frames, with
`flowControlFlag = 0` and with a shared buffer), with `mLoopCount = m` and
`cblk.loopCount = c`: if `m > c` exactly `m - c` `EVENT_LOOP_END` events
fire, with payloads `m-1, m-2, ..., c` in that order, every negative value
being reported as `-1`, and afterwards `mLoopCount = cblk.loopCount`; if
`m ≤ c` none fire. -/
theorem processAudioBuffer_loop_end (fuel : Nat) (written : List Nat) (audioBuffer : Buffer)
    (t : Track) (r : Track.Processed)
    (hrun : Track.processAudioBuffer fuel written audioBuffer t = some r)
    (hnot : ¬ (t.mActive ≠ 0 ∧ t.mCblk.framesReady = 0 ∧ t.mCblk.flowControlFlag = 0 ∧
      t.mSharedBuffer = true)) :
    Track.loopEndPayloads r.events =
        (List.range (t.mLoopCount - t.mCblk.loopCount).toNat).map
          (fun i : Nat => if t.mLoopCount - 1 - (i : Int) ≥ 0 then t.mLoopCount - 1 - i else -1) ∧
    (Track.loopEndPayloads r.events).length = (t.mLoopCount - t.mCblk.loopCount).toNat ∧
    (t.mLoopCount > t.mCblk.loopCount → r.track.mLoopCount = r.track.mCblk.loopCount) ∧
    (t.mLoopCount ≤ t.mCblk.loopCount →
      Track.loopEndPayloads r.events = [] ∧ r.track.mLoopCount = t.mLoopCount) := by
  have hfalse : (Track.underrunPhase t).2.2 = false := by
    cases h : (Track.underrunPhase t).2.2 with
    | false => rfl
    | true => exact absurd ((underrunPhase_returns t).mp h) hnot
  obtain ⟨e1, e2, e3⟩ := processAudioBuffer_payloads fuel written audioBuffer t r hrun hfalse
  obtain ⟨s1, s2⟩ := loopEndLoop_spec t.mCblk.loopCount (t.mLoopCount - t.mCblk.loopCount).toNat
    t.mLoopCount rfl
  refine ⟨e1.trans s1, ?_, ?_, ?_⟩
  · rw [e1.trans s1, List.length_map, List.length_range]
  · intro hgt
    rw [e2, s2, if_pos hgt, e3]
  · intro hle
    have h0 : (t.mLoopCount - t.mCblk.loopCount).toNat = 0 := by omega
    refine ⟨?_, ?_⟩
    · rw [e1.trans s1, h0]; rfl
    · rw [e2, s2, if_neg (by omega)]

theorem threeLoopsDone_run :
    Track.processAudioBuffer 1 [] (Track.request 0) Track.threeLoopsDone =
      some ⟨[Track.Event.EVENT_LOOP_END 2, Track.Event.EVENT_LOOP_END 1,
              Track.Event.EVENT_LOOP_END 0],
            { Track.threeLoopsDone with mLoopCount := 0 }, true, true⟩ := by
  unfold Track.processAudioBuffer
  simp only [loopEndLoop_closed _ _ _ rfl]
  decide

/-- C9, amended, at a concrete track: with `mLoopCount = 3` and
`cblk.loopCount = 0` the call fires three `EVENT_LOOP_END` events, with
payloads 2, 1, 0. -/
theorem processAudioBuffer_loop_end_witness :
    Track.processAudioBuffer 1 [] (Track.request 0) Track.threeLoopsDone =
      some ⟨[Track.Event.EVENT_LOOP_END 2, Track.Event.EVENT_LOOP_END 1,
              Track.Event.EVENT_LOOP_END 0],
            { Track.threeLoopsDone with mLoopCount := 0 }, true, true⟩ ∧
    Track.loopEndPayloads [Track.Event.EVENT_LOOP_END 2, Track.Event.EVENT_LOOP_END 1,
      Track.Event.EVENT_LOOP_END 0] = [2, 1, 0] :=
  ⟨threeLoopsDone_run,
    ((processAudioBuffer_loop_end 1 [] (Track.request 0) Track.threeLoopsDone _
      threeLoopsDone_run (by decide)).1).trans (by decide)⟩

/-- C10: on an inactive track, `setPosition(p)` with `p ≤ cblk.user` returns
`NO_ERROR`, after which `getPosition` yields `p` and `forceReady` is 1, while
`user`, `userBase` and the loop fields are unchanged; with `p > cblk.user` it
returns `BAD_VALUE` and leaves the track, in particular `server` and
`forceReady`, unchanged. -/
theorem setPosition_result (t : Track) (p : Nat) (hstopped : t.mActive = 0) :
    (p ≤ t.mCblk.user →
      (t.setPosition p).1 = Status.NO_ERROR ∧
      (t.setPosition p).2.getPosition true = (Status.NO_ERROR, some p) ∧
      (t.setPosition p).2.mCblk.forceReady = 1 ∧
      (t.setPosition p).2.mCblk.user = t.mCblk.user ∧
      (t.setPosition p).2.mCblk.userBase = t.mCblk.userBase ∧
      (t.setPosition p).2.mCblk.loopStart = t.mCblk.loopStart ∧
      (t.setPosition p).2.mCblk.loopEnd = t.mCblk.loopEnd ∧
      (t.setPosition p).2.mCblk.loopCount = t.mCblk.loopCount ∧
      (t.setPosition p).2.mLoopCount = t.mLoopCount) ∧
    (p > t.mCblk.user →
      (t.setPosition p).1 = Status.BAD_VALUE ∧
      (t.setPosition p).2 = t ∧
      (t.setPosition p).2.mCblk.server = t.mCblk.server ∧
      (t.setPosition p).2.mCblk.forceReady = t.mCblk.forceReady) := by
  constructor
  · intro hp
    have h : ¬ p > t.mCblk.user := by omega
    simp [Track.setPosition, Track.stopped, Track.getPosition, hstopped, h]
  · intro hp
    simp [Track.setPosition, Track.stopped, hstopped, hp]

/-- C10 at a concrete track: seeking back to frame 3 on a stopped track whose
producer stands at frame 5. -/
theorem setPosition_result_witness :
    (Track.partlyFilled.setPosition 3).1 = Status.NO_ERROR ∧
    (Track.partlyFilled.setPosition 3).2.getPosition true = (Status.NO_ERROR, some 3) ∧
    (Track.partlyFilled.setPosition 3).2.mCblk.forceReady = 1 :=
  ⟨((setPosition_result Track.partlyFilled 3 (by decide)).1 (by decide)).1,
   ((setPosition_result Track.partlyFilled 3 (by decide)).1 (by decide)).2.1,
   ((setPosition_result Track.partlyFilled 3 (by decide)).1 (by decide)).2.2.1⟩

/-! ### Volume -/

/-- C11 fails on the code: `setVolume(1.0, -1.0)`, whose two conversions give
4096 and -4096, stores `0xFFFFF000` in `volumeLR`.  The right value is
sign-extended before the bitwise or, so the upper 16 bits are `0xFFFF` and not
the left value `0x1000`; the claimed word is `0x1000F000`. -/
theorem setVolume_negative_right :
    (Track.partlyFilled.setVolume 4096 (-4096)).mCblk.volumeLR = 4294963200 ∧
    (Track.partlyFilled.setVolume 4096 (-4096)).mCblk.volumeLR / 65536 = 65535 ∧
    (Track.partlyFilled.setVolume 4096 (-4096)).mCblk.volumeLR % 65536 = 61440 ∧
    (Track.partlyFilled.setVolume 4096 (-4096)).mCblk.volumeLR ≠ 4096 * 65536 + 61440 := by
  decide

/-- With a right value that is not negative the packing is the claimed one:
the upper 16 bits hold the left value and the lower 16 bits the right one. -/
theorem setVolume_nonnegative_right (t : Track) (left16 right16 : Int)
    (hr : 0 ≤ right16 ∧ right16 < 32768) :
    (t.setVolume left16 right16).mCblk.volumeLR =
      (left16 % 65536).toNat * 65536 + right16.toNat := by
  have h1 : u32 (Track.promote16 left16 * 65536) = 2 ^ 16 * (left16 % 65536).toNat := by
    simp only [u32, Track.promote16]
    omega
  have h2 : Track.promote16 right16 = right16.toNat := by
    simp only [Track.promote16]
    omega
  have h3 : right16.toNat < 2 ^ 16 := by omega
  show u32 (Track.promote16 left16 * 65536) ||| Track.promote16 right16 = _
  rw [h1, h2, ← Nat.mul_add_lt_is_or h3]
  omega

/-! ### The write path -/

set_option maxRecDepth 100000 in
theorem expand8to16_table :
    ∀ b : Fin 256, Track.expand8to16 b.val = ((b.val ^^^ 128) * 256) % 65536 ∧
      Track.signed16 (Track.expand8to16 b.val) = ((b.val : Int) - 128) * 256 := by
  decide

theorem expandLoop_below (src : List Nat) (count srcPos dst : Nat) (pcm : Track.Pcm) (a : Nat)
    (ha : a < 2 * dst) : Track.expandLoop src count srcPos dst pcm a = pcm a := by
  induction count generalizing srcPos dst pcm with
  | zero => rfl
  | succ count ih =>
    simp only [Track.expandLoop]
    rw [ih _ _ _ (by omega)]
    simp only [Track.store16]
    rw [if_neg (by omega), if_neg (by omega)]

theorem load16_store16 (pcm : Track.Pcm) (i v : Nat) (hv : v < 65536) :
    Track.load16 (Track.store16 pcm i v) i = v := by
  simp only [Track.load16, Track.store16, if_true]
  rw [if_neg (by omega)]
  omega

theorem expandLoop_sample (src : List Nat) (count srcPos dst : Nat) (pcm : Track.Pcm) (i : Nat)
    (hi : i < count) :
    Track.load16 (Track.expandLoop src count srcPos dst pcm) (dst + i) =
      Track.expand8to16 (src.getD (srcPos + i) 0) := by
  induction count generalizing srcPos dst pcm i with
  | zero => omega
  | succ count ih =>
    simp only [Track.expandLoop]
    cases i with
    | zero =>
      simp only [Nat.add_zero, Track.load16]
      rw [expandLoop_below _ _ _ _ _ _ (by omega), expandLoop_below _ _ _ _ _ _ (by omega)]
      have hv : Track.expand8to16 (src.getD srcPos 0) < 65536 := by
        simp only [Track.expand8to16]
        omega
      exact load16_store16 pcm dst _ hv
    | succ i =>
      have := ih (srcPos + 1) (dst + 1)
        (Track.store16 pcm dst (Track.expand8to16 (src.getD srcPos 0))) i (by omega)
      have e1 : dst + (i + 1) = dst + 1 + i := by omega
      have e2 : srcPos + (i + 1) = srcPos + 1 + i := by omega
      rw [e1, e2]
      exact this

/-- C12: on the 8-bit write path, the 16-bit sample stored for a source byte
`b` (0..255) is `((b XOR 0x80) << 8)` cut to 16 bits, the signed value
`(b - 128) * 256`; the loop stores the samples in source order, sample `i` of
the destination coming from byte `i` of the source; and writing the bytes
`[0x00, 0x80, 0xFF]` on a mono 8-bit track leaves `[0x8000, 0x0000, 0x7F00]`
in the ring. -/
theorem write_8bit_samples (src : List Nat) (count srcPos dst : Nat) (pcm : Track.Pcm) :
    (∀ b, b < 256 →
      Track.expand8to16 b = ((b ^^^ 128) * 256) % 65536 ∧
      Track.signed16 (Track.expand8to16 b) = ((b : Int) - 128) * 256) ∧
    (∀ i, i < count →
      Track.load16 (Track.expandLoop src count srcPos dst pcm) (dst + i) =
        Track.expand8to16 (src.getD (srcPos + i) 0)) ∧
    ((Track.mono8.write [0, 128, 255] 3 (fun _ => 0) (Track.request 0) [[]]).result =
        some (Sum.inr 3) ∧
      [0, 1, 2].map (Track.load16
          (Track.mono8.write [0, 128, 255] 3 (fun _ => 0) (Track.request 0) [[]]).pcm) =
        [32768, 0, 32512]) := by
  refine ⟨fun b hb => expand8to16_table ⟨b, hb⟩, fun i hi => expandLoop_sample _ _ _ _ _ _ hi,
    by decide, by decide⟩

/-- C12 at concrete bytes: the third sample stored from `[0x00, 0x80, 0xFF]` is
`0x7F00`. -/
theorem write_8bit_samples_witness :
    Track.load16 (Track.expandLoop [0, 128, 255] 3 0 0 (fun _ => 0)) (0 + 2) =
      Track.expand8to16 ([0, 128, 255].getD (0 + 2) 0) ∧
    Track.expand8to16 255 = ((255 ^^^ 128) * 256) % 65536 :=
  ⟨(write_8bit_samples [0, 128, 255] 3 0 0 (fun _ => 0)).2.1 2 (by decide),
   ((write_8bit_samples [0, 128, 255] 3 0 0 (fun _ => 0)).1 255 (by decide)).1⟩

theorem waitLoop_inl_blocking (blocking : Bool) (ws : List Track.Wakeup) (t t' : Track)
    (e : Status) (h : Track.waitLoop blocking ws t = some (Sum.inl e, t')) :
    e = Status.NO_MORE_BUFFERS ∨ (e = Status.WOULD_BLOCK ∧ blocking = false) := by
  induction ws generalizing t with
  | nil =>
    rw [waitLoop_nil] at h
    split_ifs at h with h1 h2 h3 <;>
      simp only [Option.some.injEq, Prod.mk.injEq, Sum.inl.injEq, reduceCtorEq, false_and] at h
    · exact Or.inl h.1.symm
    · exact Or.inr ⟨h.1.symm, by simpa using h3⟩
  | cons w ws ih =>
    rw [waitLoop_cons] at h
    split_ifs at h with h1 h2 h3
    · simp only [Option.some.injEq, Prod.mk.injEq, Sum.inl.injEq] at h
      exact Or.inl h.1.symm
    · simp only [Option.some.injEq, Prod.mk.injEq, Sum.inl.injEq] at h
      exact Or.inr ⟨h.1.symm, by simpa using h3⟩
    · exact ih _ h
    · simp only [Option.some.injEq, Prod.mk.injEq, reduceCtorEq, false_and] at h

theorem waitLoop_config (blocking : Bool) (ws : List Track.Wakeup) (t t' : Track)
    (x : Sum Status Nat) (h : Track.waitLoop blocking ws t = some (x, t')) :
    t'.mFormat = t.mFormat ∧ t'.mChannelCount = t.mChannelCount ∧
    t'.mSharedBuffer = t.mSharedBuffer ∧ t'.mFrameCount = t.mFrameCount := by
  induction ws generalizing t with
  | nil =>
    rw [waitLoop_nil] at h
    split_ifs at h <;> simp only [Option.some.injEq, Prod.mk.injEq, reduceCtorEq] at h <;>
      obtain ⟨_, rfl⟩ := h <;> exact ⟨rfl, rfl, rfl, rfl⟩
  | cons w ws ih =>
    rw [waitLoop_cons] at h
    split_ifs at h
    · simp only [Option.some.injEq, Prod.mk.injEq] at h
      obtain ⟨_, rfl⟩ := h
      exact ⟨rfl, rfl, rfl, rfl⟩
    · simp only [Option.some.injEq, Prod.mk.injEq] at h
      obtain ⟨_, rfl⟩ := h
      exact ⟨rfl, rfl, rfl, rfl⟩
    · have := ih (t.afterWait w) h
      exact this
    · simp only [Option.some.injEq, Prod.mk.injEq] at h
      obtain ⟨_, rfl⟩ := h
      exact ⟨rfl, rfl, rfl, rfl⟩

theorem obtainBuffer_cases (t t' : Track) (audioBuffer b : Buffer) (blocking : Bool)
    (ws : List Track.Wakeup) (st : Status)
    (h : t.obtainBuffer audioBuffer blocking ws = some (st, b, t')) :
    (t'.mFormat = t.mFormat ∧ t'.mChannelCount = t.mChannelCount ∧
      t'.mSharedBuffer = t.mSharedBuffer ∧ t'.mFrameCount = t.mFrameCount) ∧
    (st = Status.NO_ERROR ∨ st = Status.STOPPED ∨ st = Status.NO_MORE_BUFFERS ∨
      (st = Status.WOULD_BLOCK ∧ blocking = false)) := by
  simp only [Track.obtainBuffer] at h
  rw [obtainBuffer_waited t blocking ws] at h
  cases hw : Track.waitLoop blocking ws t with
  | none => simp [hw] at h
  | some r =>
    obtain ⟨x, t2⟩ := r
    have hc := waitLoop_config blocking ws t t2 x hw
    cases x with
    | inl e =>
      simp only [hw, Option.some.injEq, Prod.mk.injEq] at h
      obtain ⟨rfl, _, rfl⟩ := h
      refine ⟨hc, ?_⟩
      rcases waitLoop_inl_blocking blocking ws t _ _ hw with h1 | h1
      · exact Or.inr (Or.inr (Or.inl h1))
      · exact Or.inr (Or.inr (Or.inr h1))
    | inr fa =>
      simp only [hw, Option.some.injEq, Prod.mk.injEq] at h
      obtain ⟨rfl, _, rfl⟩ := h
      refine ⟨hc, ?_⟩
      split_ifs
      · exact Or.inl rfl
      · exact Or.inr (Or.inl rfl)

theorem obtainBuffer_size (t t' : Track) (audioBuffer b : Buffer) (blocking : Bool)
    (ws : List Track.Wakeup) (st : Status)
    (h : t.obtainBuffer audioBuffer blocking ws = some (st, b, t'))
    (hst : st.isNegative = false) :
    b.size = u32 (u32 (b.frameCount * t.mChannelCount) * 2) := by
  have hst2 : st = Status.NO_ERROR ∨ st = Status.STOPPED := by
    cases st <;> simp [Status.isNegative] at hst ⊢
  obtain ⟨_, hc, _, _, hb⟩ := obtainBuffer_success_eq t t' audioBuffer b blocking ws st h hst2
  rw [hb, hc]

theorem writeLoop_nil (src : List Nat) (t : Track) (pcm : Track.Pcm) (audioBuffer : Buffer)
    (userSize srcPos : Nat) (written : Int) :
    (Track.writeLoop src [] t pcm audioBuffer userSize srcPos written).result = none := rfl

theorem writeLoop_step (src : List Nat) (ws : List Track.Wakeup)
    (envs : List (List Track.Wakeup)) (t : Track) (pcm : Track.Pcm) (audioBuffer : Buffer)
    (userSize srcPos : Nat) (written : Int) :
    (Track.writeLoop src (ws :: envs) t pcm audioBuffer userSize srcPos written).result = none ∨
    (∃ b t1,
      t.obtainBuffer { audioBuffer with frameCount := t.requestedFrames userSize } true ws =
        some (Status.NO_MORE_BUFFERS, b, t1) ∧
      (Track.writeLoop src (ws :: envs) t pcm audioBuffer userSize srcPos written).result =
        some (Sum.inr written) ∧
      (Track.writeLoop src (ws :: envs) t pcm audioBuffer userSize srcPos written).track = t1 ∧
      (Track.writeLoop src (ws :: envs) t pcm audioBuffer userSize srcPos written).calls =
        [⟨t, t.requestedFrames userSize, Status.NO_MORE_BUFFERS, b, t1⟩]) ∨
    (∃ st b t1,
      t.obtainBuffer { audioBuffer with frameCount := t.requestedFrames userSize } true ws =
        some (st, b, t1) ∧
      st.isNegative = false ∧ sub32 userSize (Track.toWrite t1 b) = 0 ∧
      (Track.writeLoop src (ws :: envs) t pcm audioBuffer userSize srcPos written).result =
        some (Sum.inr (i32 (written + Track.toWrite t1 b))) ∧
      (Track.writeLoop src (ws :: envs) t pcm audioBuffer userSize srcPos written).track =
        t1.releaseBuffer b ∧
      (Track.writeLoop src (ws :: envs) t pcm audioBuffer userSize srcPos written).calls =
        [⟨t, t.requestedFrames userSize, st, b, t1⟩]) ∨
    (∃ st b t1 pcm1,
      t.obtainBuffer { audioBuffer with frameCount := t.requestedFrames userSize } true ws =
        some (st, b, t1) ∧
      st.isNegative = false ∧ sub32 userSize (Track.toWrite t1 b) ≠ 0 ∧
      (Track.writeLoop src (ws :: envs) t pcm audioBuffer userSize srcPos written).result =
        (Track.writeLoop src envs (t1.releaseBuffer b) pcm1 b
          (sub32 userSize (Track.toWrite t1 b)) (srcPos + Track.toWrite t1 b)
          (i32 (written + Track.toWrite t1 b))).result ∧
      (Track.writeLoop src (ws :: envs) t pcm audioBuffer userSize srcPos written).track =
        (Track.writeLoop src envs (t1.releaseBuffer b) pcm1 b
          (sub32 userSize (Track.toWrite t1 b)) (srcPos + Track.toWrite t1 b)
          (i32 (written + Track.toWrite t1 b))).track ∧
      (Track.writeLoop src (ws :: envs) t pcm audioBuffer userSize srcPos written).calls =
        ⟨t, t.requestedFrames userSize, st, b, t1⟩ ::
          (Track.writeLoop src envs (t1.releaseBuffer b) pcm1 b
            (sub32 userSize (Track.toWrite t1 b)) (srcPos + Track.toWrite t1 b)
            (i32 (written + Track.toWrite t1 b))).calls) := by
  rw [Track.writeLoop]
  simp only [Track.requestedFrames]
  cases hob : t.obtainBuffer
      { audioBuffer with frameCount :=
          if t.mFormat = PCM_16_BIT then userSize / t.mChannelCount / 2
          else userSize / t.mChannelCount } true ws with
  | none => exact Or.inl rfl
  | some r =>
    obtain ⟨st, b, t1⟩ := r
    have hcases := (obtainBuffer_cases t t1 _ b true ws st hob).2
    simp only []
    by_cases hneg : st.isNegative = true
    · have hnm : st = Status.NO_MORE_BUFFERS := by
        rcases hcases with h | h | h | h
        · rw [h] at hneg; simp [Status.isNegative] at hneg
        · rw [h] at hneg; simp [Status.isNegative] at hneg
        · exact h
        · exact absurd h.2 (by simp)
      subst hnm
      refine Or.inr (Or.inl ⟨b, t1, rfl, ?_, ?_, ?_⟩) <;> simp [Status.isNegative]
    · have hneg2 : st.isNegative = false := by simpa using hneg
      by_cases hz : sub32 userSize (Track.toWrite t1 b) = 0
      · refine Or.inr (Or.inr (Or.inl ⟨st, b, t1, rfl, hneg2, hz, ?_, ?_, ?_⟩)) <;>
          simp [hneg2, hz]
      · refine Or.inr (Or.inr (Or.inr ⟨st, b, t1,
          (if t1.mFormat = PCM_8_BIT then
            Track.expandLoop src (Track.toWrite t1 b) srcPos b.raw pcm
           else Track.memcpy pcm (2 * b.raw) src srcPos (Track.toWrite t1 b)),
          rfl, hneg2, hz, ?_, ?_, ?_⟩)) <;>
          simp only [hneg2, hz, Bool.false_eq_true, if_false, ne_eq, not_false_eq_true,
            if_true]

theorem writeLoop_bytes (src : List Nat) (envs : List (List Track.Wakeup)) :
    ∀ (t : Track) (pcm : Track.Pcm) (audioBuffer : Buffer) (userSize srcPos : Nat)
      (written : Int), -2147483648 ≤ written → written < 2147483648 →
      (Track.writeLoop src envs t pcm audioBuffer userSize srcPos written).result ≠ none →
      (Track.writeLoop src envs t pcm audioBuffer userSize srcPos written).result =
        some (Sum.inr (i32 (written + Track.bytesConsumed
          (Track.writeLoop src envs t pcm audioBuffer userSize srcPos written).calls))) := by
  induction envs with
  | nil => intro t pcm ab us sp w _ _ h; exact absurd rfl h
  | cons ws envs ih =>
    intro t pcm ab us sp w hw1 hw2 h
    rcases writeLoop_step src ws envs t pcm ab us sp w with
      h0 | ⟨b, t1, _, hr, _, hc⟩ | ⟨st, b, t1, _, hn, _, hr, _, hc⟩ |
      ⟨st, b, t1, pcm1, _, hn, _, hr, _, hc⟩
    · exact absurd h0 h
    · rw [hr, hc]
      simp only [Track.bytesConsumed, Status.isNegative, if_true, Nat.add_zero, Nat.cast_zero,
        add_zero, i32]
      congr 2
      omega
    · rw [hr, hc]
      simp only [Track.bytesConsumed, hn, Bool.false_eq_true, if_false, Nat.add_zero]
    · rw [hr] at h ⊢
      rw [hc, ih _ _ _ _ _ _ (by simp only [i32]; omega) (by simp only [i32]; omega) h]
      simp only [Track.bytesConsumed, hn, Bool.false_eq_true, if_false, Nat.cast_add, i32]
      congr 2
      omega

theorem writeLoop_remaining (src : List Nat) (envs : List (List Track.Wakeup)) :
    ∀ (t : Track) (pcm : Track.Pcm) (audioBuffer : Buffer) (userSize srcPos : Nat)
      (written : Int),
      (Track.writeLoop src envs t pcm audioBuffer userSize srcPos written).result ≠ none →
      (∀ c ∈ (Track.writeLoop src envs t pcm audioBuffer userSize srcPos written).calls,
        c.status.isNegative = false) →
      u32 (Track.bytesConsumed
        (Track.writeLoop src envs t pcm audioBuffer userSize srcPos written).calls) =
        u32 userSize := by
  induction envs with
  | nil => intro t pcm ab us sp w h; exact absurd rfl h
  | cons ws envs ih =>
    intro t pcm ab us sp w h hall
    rcases writeLoop_step src ws envs t pcm ab us sp w with
      h0 | ⟨b, t1, _, hr, _, hc⟩ | ⟨st, b, t1, _, hn, hz, hr, _, hc⟩ |
      ⟨st, b, t1, pcm1, _, hn, hz, hr, _, hc⟩
    · exact absurd h0 h
    · rw [hc] at hall
      have := hall _ (List.mem_singleton.mpr rfl)
      simp [Status.isNegative] at this
    · rw [hc]
      simp only [Track.bytesConsumed, hn, Bool.false_eq_true, if_false, Nat.add_zero]
      simp only [sub32, u32] at hz ⊢
      omega
    · rw [hr] at h
      rw [hc] at hall ⊢
      have hrest := ih _ _ _ _ _ _ h (fun c hcm => hall c (List.mem_cons_of_mem _ hcm))
      simp only [Track.bytesConsumed, hn, Bool.false_eq_true, if_false]
      simp only [sub32, u32] at hrest ⊢
      omega

theorem writeLoop_user (src : List Nat) (envs : List (List Track.Wakeup)) :
    ∀ (t : Track) (pcm : Track.Pcm) (audioBuffer : Buffer) (userSize srcPos : Nat)
      (written : Int), t.mCblk.out ≠ 0 →
      (Track.writeLoop src envs t pcm audioBuffer userSize srcPos written).result ≠ none →
      (∀ c ∈ (Track.writeLoop src envs t pcm audioBuffer userSize srcPos written).calls,
        c.status.isNegative = false) →
      (∀ c ∈ (Track.writeLoop src envs t pcm audioBuffer userSize srcPos written).calls,
        c.producerUntouched) →
      (Track.writeLoop src envs t pcm audioBuffer userSize srcPos written).track.mCblk.user =
        u32 (t.mCblk.user + Track.framesReleased
          (Track.writeLoop src envs t pcm audioBuffer userSize srcPos written).calls) := by
  induction envs with
  | nil => intro t pcm ab us sp w _ h; exact absurd rfl h
  | cons ws envs ih =>
    intro t pcm ab us sp w hout h hall hunt
    rcases writeLoop_step src ws envs t pcm ab us sp w with
      h0 | ⟨b, t1, _, hr, _, hc⟩ | ⟨st, b, t1, _, hn, hz, hr, ht, hc⟩ |
      ⟨st, b, t1, pcm1, _, hn, hz, hr, ht, hc⟩
    · exact absurd h0 h
    · rw [hc] at hall
      have := hall _ (List.mem_singleton.mpr rfl)
      simp [Status.isNegative] at this
    · rw [hc] at hunt ⊢
      obtain ⟨hu1, ho1⟩ := hunt _ (List.mem_singleton.mpr rfl)
      simp only at hu1 ho1
      rw [ht]
      simp only [Track.framesReleased, hn, Bool.false_eq_true, if_false, Nat.add_zero,
        Track.releaseBuffer]
      rw [stepUser_playback_user _ _ (by rw [ho1]; exact hout), hu1]
    · rw [hr] at h
      rw [hc] at hall hunt ⊢
      obtain ⟨hu1, ho1⟩ := hunt _ (List.mem_cons_self _ _)
      simp only at hu1 ho1
      have hout2 : (t1.releaseBuffer b).mCblk.out ≠ 0 := by
        simp only [Track.releaseBuffer, stepUser_out]
        rw [ho1]; exact hout
      have hrest := ih _ _ _ _ _ _ hout2 h
        (fun c hcm => hall c (List.mem_cons_of_mem _ hcm))
        (fun c hcm => hunt c (List.mem_cons_of_mem _ hcm))
      rw [ht, hrest]
      simp only [Track.framesReleased, hn, Bool.false_eq_true, if_false, Track.releaseBuffer]
      rw [stepUser_playback_user _ _ (by rw [ho1]; exact hout), hu1]
      simp only [u32]
      omega

theorem write_step_arith (t t1 : Track) (b : Buffer) (us : Nat)
    (hfmt1 : t1.mFormat = t.mFormat)
    (hsize : b.size = u32 (u32 (b.frameCount * t.mChannelCount) * 2))
    (hch : t.mChannelCount = 1 ∨ t.mChannelCount = 2)
    (hfmt : t.mFormat = PCM_8_BIT ∨ t.mFormat = PCM_16_BIT)
    (hus : us < 2147483648) (hmul : us % t.frameSize = 0)
    (hle : b.frameCount ≤ t.requestedFrames us) :
    Track.toWrite t1 b = b.frameCount * t.frameSize ∧
    b.frameCount * t.frameSize ≤ us ∧
    sub32 us (Track.toWrite t1 b) = us - b.frameCount * t.frameSize ∧
    (us - b.frameCount * t.frameSize) % t.frameSize = 0 := by
  have h8 : (PCM_8_BIT : Int) ≠ PCM_16_BIT := by decide
  have h16 : (PCM_16_BIT : Int) ≠ PCM_8_BIT := by decide
  rcases hch with hc | hc <;> rcases hfmt with hf | hf <;>
    simp only [Track.toWrite, Track.frameSize, Track.requestedFrames, hfmt1, hc, hf, h8, h16,
      if_true, if_false, Nat.mul_one, Nat.one_mul, Nat.div_one, sub32, u32] at hsize hmul hle ⊢ <;>
    omega

theorem frameSize_pos (t : Track) (hch : t.mChannelCount = 1 ∨ t.mChannelCount = 2) :
    0 < t.frameSize := by
  simp only [Track.frameSize]
  rcases hch with h | h <;> rw [h] <;> split_ifs <;> omega

theorem writeLoop_frames (src : List Nat) (envs : List (List Track.Wakeup)) :
    ∀ (t : Track) (pcm : Track.Pcm) (audioBuffer : Buffer) (userSize srcPos : Nat)
      (written : Int),
      (t.mChannelCount = 1 ∨ t.mChannelCount = 2) →
      (t.mFormat = PCM_8_BIT ∨ t.mFormat = PCM_16_BIT) →
      userSize < 2147483648 → userSize % t.frameSize = 0 →
      (Track.writeLoop src envs t pcm audioBuffer userSize srcPos written).result ≠ none →
      (∀ c ∈ (Track.writeLoop src envs t pcm audioBuffer userSize srcPos written).calls,
        c.status.isNegative = false) →
      (∀ c ∈ (Track.writeLoop src envs t pcm audioBuffer userSize srcPos written).calls,
        c.buffer.frameCount ≤ c.requested) →
      Track.framesReleased
        (Track.writeLoop src envs t pcm audioBuffer userSize srcPos written).calls *
          t.frameSize = userSize := by
  induction envs with
  | nil => intro t pcm ab us sp w _ _ _ _ h; exact absurd rfl h
  | cons ws envs ih =>
    intro t pcm ab us sp w hch hfmt hus hmul h hall hle
    rcases writeLoop_step src ws envs t pcm ab us sp w with
      h0 | ⟨b, t1, _, hr, _, hc⟩ | ⟨st, b, t1, hob, hn, hz, hr, ht, hc⟩ |
      ⟨st, b, t1, pcm1, hob, hn, hz, hr, ht, hc⟩
    · exact absurd h0 h
    · rw [hc] at hall
      have := hall _ (List.mem_singleton.mpr rfl)
      simp [Status.isNegative] at this
    · rw [hc] at hle ⊢
      have hle1 := hle _ (List.mem_singleton.mpr rfl)
      simp only at hle1
      obtain ⟨⟨hf1, _, _, _⟩, _⟩ := obtainBuffer_cases t t1 _ b true ws st hob
      have hsz := obtainBuffer_size t t1 _ b true ws st hob hn
      obtain ⟨a1, a2, a3, _⟩ := write_step_arith t t1 b us hf1 hsz hch hfmt hus hmul hle1
      simp only [Track.framesReleased, hn, Bool.false_eq_true, if_false, Nat.add_zero]
      rw [a3] at hz
      omega
    · rw [hr] at h
      rw [hc] at hall hle ⊢
      have hle1 := hle _ (List.mem_cons_self _ _)
      simp only at hle1
      obtain ⟨⟨hf1, hc1, _, _⟩, _⟩ := obtainBuffer_cases t t1 _ b true ws st hob
      have hsz := obtainBuffer_size t t1 _ b true ws st hob hn
      obtain ⟨a1, a2, a3, a4⟩ := write_step_arith t t1 b us hf1 hsz hch hfmt hus hmul hle1
      have hfs : (t1.releaseBuffer b).frameSize = t.frameSize := by
        simp only [Track.frameSize, Track.releaseBuffer, hf1, hc1]
      have hrest := ih (t1.releaseBuffer b) pcm1 b _ _ _
        (by simp only [Track.releaseBuffer]; rw [hc1]; exact hch)
        (by simp only [Track.releaseBuffer]; rw [hf1]; exact hfmt)
        (by rw [a3]; omega) (by rw [a3, hfs]; exact a4) h
        (fun c hcm => hall c (List.mem_cons_of_mem _ hcm))
        (fun c hcm => hle c (List.mem_cons_of_mem _ hcm))
      rw [hfs] at hrest
      have hrest2 := hrest.trans a3
      simp only [Track.framesReleased, hn, Bool.false_eq_true, if_false]
      rw [Nat.add_mul, hrest2]
      omega

/-- C14 fails on the code: `set()` with `PCM_8_BIT` and a shared buffer, on a
fresh object and a reachable server, returns `NO_ERROR` and creates the track.
The format test reads the member `mSharedBuffer`, which is still null, where
the tests that follow read the argument `sharedBuffer`. -/
theorem set_accepts_8bit_shared :
    (Track.set none (Track.serverWith (playbackAt 4096 0)) Track.shared8Args).map
        (fun r => (r.status, r.object.map (fun t => (t.mFormat, t.mSharedBuffer)),
          r.created.map (fun c => c.frameCount))) =
      some (Status.NO_ERROR, some (PCM_8_BIT, true), some 4096) := by
  decide

/-- The tests `set()` does make: on a fresh object and a server that answers,
a format that is neither `PCM_8_BIT` nor `PCM_16_BIT` after defaulting, or a
channel count that is neither 1 nor 2 after defaulting, gives `BAD_VALUE`,
no `createTrack` call and an object that stays unset. -/
theorem set_rejects_format_and_channels (sys : Track.AudioSystem) (a : Track.SetArgs)
    (rate frames : Int) (latency : Nat)
    (hsys : sys.audioFlinger = true) (hrate : sys.outputSamplingRate = some rate)
    (hframes : sys.outputFrameCount = some frames) (hlat : sys.outputLatency = some latency)
    (hbad :
      ((if a.format = 0 then PCM_16_BIT else a.format) ≠ PCM_8_BIT ∧
        (if a.format = 0 then PCM_16_BIT else a.format) ≠ PCM_16_BIT) ∨
      ((if a.channelCount = 0 then 2 else a.channelCount) ≠ 1 ∧
        (if a.channelCount = 0 then (2 : Int) else a.channelCount) ≠ 2)) :
    Track.set none sys a = some ⟨Status.BAD_VALUE, none, none⟩ := by
  simp only [Track.set, hsys, hrate, hframes, hlat, Bool.not_true, Bool.false_eq_true, if_false,
    or_false]
  rcases hbad with ⟨h1, h2⟩ | ⟨h1, h2⟩
  · rw [if_pos ⟨h1, h2⟩]
  · by_cases hf : (if a.format = 0 then PCM_16_BIT else a.format) ≠ PCM_8_BIT ∧
        (if a.format = 0 then PCM_16_BIT else a.format) ≠ PCM_16_BIT
    · rw [if_pos hf]
    · rw [if_neg hf, if_pos ⟨h1, h2⟩]

theorem minBufCount_eq (latency : Nat) (frames rate : Int) (shared : Bool)
    (hr0 : 0 < rate) (hperiod : rate ≤ 1000 * frames) (hf32 : 1000 * frames < 2147483648) :
    Track.minBufCount latency frames rate shared =
      some (if shared = true ∧ latency / ((1000 * frames) / rate).toNat > 1
            then latency / ((1000 * frames) / rate).toNat - 1
            else latency / ((1000 * frames) / rate).toNat) := by
  have hq1 : 1 ≤ (1000 * frames) / rate :=
    Int.le_ediv_of_mul_le hr0 (by omega)
  have hq2 : (1000 * frames) / rate ≤ 1000 * frames :=
    Int.ediv_le_self _ (by omega)
  have hi : i32 (1000 * frames) = 1000 * frames := by
    simp only [i32]; omega
  have ht : Int.tdiv (1000 * frames) rate = (1000 * frames) / rate :=
    Int.tdiv_eq_ediv (by omega) (by omega)
  have hu : Track.toU32 ((1000 * frames) / rate) = ((1000 * frames) / rate).toNat := by
    simp only [Track.toU32]
    rw [Int.emod_eq_of_lt (by omega) (by omega)]
  have hne : ((1000 * frames) / rate).toNat ≠ 0 := by omega
  simp only [Track.minBufCount, hi, ht, hu]
  rw [if_neg (by omega), if_neg hne]

theorem minFrameCount_eq (frames rate : Int) (sampleRate m : Nat)
    (hr0 : 0 < rate) (hr32 : rate < 2147483648) (hf0 : 0 ≤ frames)
    (hprod : frames.toNat * sampleRate * m < 2147483648) :
    Track.minFrameCount frames rate sampleRate m =
      ((frames.toNat * sampleRate * m / rate.toNat : Nat) : Int) := by
  have hx : u32 (u32 (Track.toU32 frames * sampleRate) * m) = frames.toNat * sampleRate * m := by
    have h1 : u32 (u32 (Track.toU32 frames * sampleRate) * m) =
        u32 (Track.toU32 frames * sampleRate * m) := by
      simp only [u32]
      exact Nat.mod_mul_mod
    have h2 : u32 (Track.toU32 frames * sampleRate * m) = u32 (frames.toNat * sampleRate * m) := by
      have e : Track.toU32 frames = frames.toNat % 4294967296 := by
        simp only [Track.toU32]; omega
      rw [e]
      simp only [u32]
      rw [Nat.mul_assoc, Nat.mod_mul_mod, ← Nat.mul_assoc]
    rw [h1, h2]
    simp only [u32]
    exact Nat.mod_eq_of_lt (by omega)
  have hr : Track.toU32 rate = rate.toNat := by
    simp only [Track.toU32]; omega
  have hle : frames.toNat * sampleRate * m / rate.toNat ≤ frames.toNat * sampleRate * m :=
    Nat.div_le_self _ _
  simp only [Track.minFrameCount]
  rw [hx, hr]
  generalize frames.toNat * sampleRate * m / rate.toNat = q at hle ⊢
  simp only [i32]
  omega

theorem set_reaches_sizing (sys : Track.AudioSystem) (a : Track.SetArgs) (rate frames : Int)
    (latency mbc : Nat)
    (hsys : sys.audioFlinger = true) (hrate : sys.outputSamplingRate = some rate)
    (hframes : sys.outputFrameCount = some frames) (hlat : sys.outputLatency = some latency)
    (hfmt : (if a.format = 0 then PCM_16_BIT else a.format) = PCM_8_BIT ∨
      (if a.format = 0 then PCM_16_BIT else a.format) = PCM_16_BIT)
    (hch : (if a.channelCount = 0 then 2 else a.channelCount) = 1 ∨
      (if a.channelCount = 0 then (2 : Int) else a.channelCount) = 2)
    (hmbc : Track.minBufCount latency frames rate a.sharedBuffer.isSome = some mbc) :
    Track.set none sys a =
      (match Track.frameCounts a (if a.channelCount = 0 then 2 else a.channelCount)
          (Track.minFrameCount frames rate
            (if a.sampleRate = 0 then Track.toU32 rate else a.sampleRate) mbc) with
      | Sum.inl status => some ⟨status, none, none⟩
      | Sum.inr (frameCount, notificationFrames) =>
        if frameCount < Track.minFrameCount frames rate
            (if a.sampleRate = 0 then Track.toU32 rate else a.sampleRate) mbc then
          some ⟨Status.BAD_VALUE, none, none⟩
        else
          match sys.createTrack with
          | Sum.inl status =>
            some ⟨status, none,
              some ⟨if a.sampleRate = 0 then Track.toU32 rate else a.sampleRate,
                if a.format = 0 then PCM_16_BIT else a.format,
                if a.channelCount = 0 then 2 else a.channelCount, frameCount, a.sharedBuffer⟩⟩
          | Sum.inr none =>
            some ⟨Status.NO_INIT, none,
              some ⟨if a.sampleRate = 0 then Track.toU32 rate else a.sampleRate,
                if a.format = 0 then PCM_16_BIT else a.format,
                if a.channelCount = 0 then 2 else a.channelCount, frameCount, a.sharedBuffer⟩⟩
          | Sum.inr (some cblk) =>
            if a.cbf ∧ !sys.threadCreated then
              some ⟨Status.NO_INIT, none,
                some ⟨if a.sampleRate = 0 then Track.toU32 rate else a.sampleRate,
                  if a.format = 0 then PCM_16_BIT else a.format,
                  if a.channelCount = 0 then 2 else a.channelCount, frameCount,
                  a.sharedBuffer⟩⟩
            else
              some ⟨Status.NO_ERROR,
                some
                  { mCblk := { cblk with out := 1, volumeLR := 268439552 },
                    mFrameCount := cblk.frameCount,
                    mChannelCount := Track.toU32 (if a.channelCount = 0 then 2 else a.channelCount),
                    mFormat := if a.format = 0 then PCM_16_BIT else a.format,
                    mMuted := false,
                    mActive := 0,
                    mSharedBuffer := a.sharedBuffer.isSome,
                    mCbf := a.cbf,
                    mNotificationFrames := Track.toU32 notificationFrames,
                    mRemainingFrames := Track.toU32 notificationFrames,
                    mMarkerPosition := 0,
                    mNewPosition := 0,
                    mUpdatePeriod := 0,
                    mLoopCount := 0,
                    serverCalls := [] },
                some ⟨if a.sampleRate = 0 then Track.toU32 rate else a.sampleRate,
                  if a.format = 0 then PCM_16_BIT else a.format,
                  if a.channelCount = 0 then 2 else a.channelCount, frameCount,
                  a.sharedBuffer⟩⟩) := by
  have hf : ¬ (((if a.format = 0 then PCM_16_BIT else a.format) ≠ PCM_8_BIT ∨ False) ∧
      (if a.format = 0 then PCM_16_BIT else a.format) ≠ PCM_16_BIT) := by
    rintro ⟨h1 | h1, h2⟩
    · rcases hfmt with h | h
      · exact h1 h
      · exact h2 h
    · exact h1
  have hc : ¬ ((if a.channelCount = 0 then 2 else a.channelCount) ≠ 1 ∧
      (if a.channelCount = 0 then (2 : Int) else a.channelCount) ≠ 2) := by
    rintro ⟨h1, h2⟩
    rcases hch with h | h
    · exact h1 h
    · exact h2 h
  simp only [Track.set, hsys, hrate, hframes, hlat, Bool.not_true, Bool.false_eq_true, if_false]
  rw [if_neg hf, if_neg hc, hmbc]

/-- C15: in a `set()` call that reaches the sizing (fresh object, server
defaults `rate`, `frames`, `latency` available, format and channel count
valid after defaulting) with values in which no 32-bit operation wraps,
`minBufCount` is `latency / ((1000 * frames) / rate)`, less 1 when a shared
buffer is given and the quotient exceeds 1, and `minFrameCount` is
`(frames * sampleRate * minBufCount) / rate`.  Without a shared buffer a
requested `frameCount` of 0 becomes `minFrameCount`, `notificationFrames` 0
becomes `frameCount / 2` and the value kept never exceeds `frameCount / 2`;
with a shared buffer `frameCount` is `size / channelCount / 2`.  The call
returns, and whenever the resulting `frameCount` is below `minFrameCount` it
returns `BAD_VALUE` and creates nothing; otherwise `createTrack` is called with that
`frameCount`, and a successful `set()` stores the `notificationFrames` so
computed. -/
theorem set_frame_sizing (sys : Track.AudioSystem) (a : Track.SetArgs) (rate frames : Int)
    (latency sampleRate mbc : Nat) (format channelCount mfc : Int)
    (hsys : sys.audioFlinger = true) (hrate : sys.outputSamplingRate = some rate)
    (hframes : sys.outputFrameCount = some frames) (hlat : sys.outputLatency = some latency)
    (hsr : sampleRate = if a.sampleRate = 0 then Track.toU32 rate else a.sampleRate)
    (hformat : format = if a.format = 0 then PCM_16_BIT else a.format)
    (hcc : channelCount = if a.channelCount = 0 then 2 else a.channelCount)
    (hfmt : format = PCM_8_BIT ∨ format = PCM_16_BIT)
    (hch : channelCount = 1 ∨ channelCount = 2)
    (hr0 : 0 < rate) (hperiod : rate ≤ 1000 * frames) (hf32 : 1000 * frames < 2147483648)
    (hmbc : mbc =
      if a.sharedBuffer.isSome = true ∧ latency / ((1000 * frames) / rate).toNat > 1
      then latency / ((1000 * frames) / rate).toNat - 1
      else latency / ((1000 * frames) / rate).toNat)
    (hprod : frames.toNat * sampleRate * mbc < 2147483648)
    (hmfc : mfc = ((frames.toNat * sampleRate * mbc / rate.toNat : Nat) : Int)) :
    Track.minBufCount latency frames rate a.sharedBuffer.isSome = some mbc ∧
    Track.minFrameCount frames rate sampleRate mbc = mfc ∧
    (a.sharedBuffer = none →
      ∃ fc nf, Track.frameCounts a channelCount mfc = Sum.inr (fc, nf) ∧
        fc = (if a.frameCount = 0 then mfc else a.frameCount) ∧
        (a.notificationFrames = 0 → nf = Int.tdiv fc 2) ∧
        nf ≤ Int.tdiv fc 2) ∧
    (∀ sb, a.sharedBuffer = some sb → sb.size < 4294967296 →
      ∀ fc nf, Track.frameCounts a channelCount mfc = Sum.inr (fc, nf) →
        fc = ((sb.size / channelCount.toNat / 2 : Nat) : Int) ∧ nf = a.notificationFrames) ∧
    ∃ r, Track.set none sys a = some r ∧
      (∀ st, Track.frameCounts a channelCount mfc = Sum.inl st →
        r = ⟨Status.BAD_VALUE, none, none⟩) ∧
      (∀ fc nf, Track.frameCounts a channelCount mfc = Sum.inr (fc, nf) →
        (fc < mfc → r = ⟨Status.BAD_VALUE, none, none⟩) ∧
        (¬ fc < mfc →
          r.created = some ⟨sampleRate, format, channelCount, fc, a.sharedBuffer⟩ ∧
          (∀ t, r.object = some t →
            r.status = Status.NO_ERROR ∧ t.mNotificationFrames = Track.toU32 nf ∧
              t.mRemainingFrames = Track.toU32 nf))) := by
  have h1 : Track.minBufCount latency frames rate a.sharedBuffer.isSome = some mbc := by
    rw [minBufCount_eq latency frames rate _ hr0 hperiod hf32, hmbc]
  have h2 : Track.minFrameCount frames rate sampleRate mbc = mfc := by
    rw [minFrameCount_eq frames rate sampleRate mbc hr0 (by omega) (by omega) hprod, hmfc]
  have hset := set_reaches_sizing sys a rate frames latency mbc hsys hrate hframes hlat
    (by rw [← hformat]; exact hfmt) (by rw [← hcc]; exact hch) h1
  rw [← hsr, ← hformat, ← hcc, h2] at hset
  have hex : ∃ r, Track.set none sys a = some r := by
    rw [hset]
    cases Track.frameCounts a channelCount mfc with
    | inl st => exact ⟨_, rfl⟩
    | inr p =>
      obtain ⟨fc, nf⟩ := p
      simp only
      by_cases hlt : fc < mfc
      · rw [if_pos hlt]
        exact ⟨_, rfl⟩
      · rw [if_neg hlt]
        cases sys.createTrack with
        | inl st => exact ⟨_, rfl⟩
        | inr o =>
          cases o with
          | none => exact ⟨_, rfl⟩
          | some c =>
            simp only
            by_cases hth : a.cbf = true ∧ (!sys.threadCreated) = true
            · rw [if_pos hth]
              exact ⟨_, rfl⟩
            · rw [if_neg hth]
              exact ⟨_, rfl⟩
  obtain ⟨r, hrun0⟩ := hex
  have hrun := hrun0
  rw [hset] at hrun
  refine ⟨h1, h2, ?_, ?_, r, hrun0, ?_, ?_⟩
  · intro hnone
    simp only [Track.frameCounts, hnone]
    refine ⟨_, _, rfl, rfl, ?_, ?_⟩
    · intro h0
      simp only [h0, if_true]
      split_ifs <;> rfl
    · split_ifs <;> omega
  · intro sb hsb hsize fc nf hfc
    simp only [Track.frameCounts, hsb] at hfc
    split_ifs at hfc
    simp only [Sum.inr.injEq, Prod.mk.injEq] at hfc
    obtain ⟨rfl, rfl⟩ := hfc
    refine ⟨?_, rfl⟩
    have hcu : Track.toU32 channelCount = channelCount.toNat := by
      simp only [Track.toU32]
      rcases hch with h | h <;> rw [h] <;> decide
    rw [hcu]
    have hle : u32 sb.size / channelCount.toNat / 2 ≤ sb.size / 2 := by
      have : u32 sb.size = sb.size := Nat.mod_eq_of_lt hsize
      rw [this]
      exact Nat.div_le_div_right (Nat.div_le_self _ _)
    have hu : u32 sb.size = sb.size := Nat.mod_eq_of_lt hsize
    rw [hu] at hle ⊢
    generalize sb.size / channelCount.toNat / 2 = q at hle ⊢
    simp only [i32]
    omega
  · intro st hst
    rw [hst] at hrun
    simp only [Track.frameCounts] at hst
    split at hst
    · simp at hst
    · split_ifs at hst
      simp only [Sum.inl.injEq] at hst
      subst hst
      simp only [Option.some.injEq] at hrun
      exact hrun.symm
  · intro fc nf hfc
    rw [hfc] at hrun
    simp only at hrun
    constructor
    · intro hlt
      rw [if_pos hlt] at hrun
      simp only [Option.some.injEq] at hrun
      exact hrun.symm
    · intro hge
      rw [if_neg hge] at hrun
      split at hrun
      · simp only [Option.some.injEq] at hrun
        subst hrun
        exact ⟨rfl, fun t h => Option.noConfusion h⟩
      · simp only [Option.some.injEq] at hrun
        subst hrun
        exact ⟨rfl, fun t h => Option.noConfusion h⟩
      · split_ifs at hrun
        · simp only [Option.some.injEq] at hrun
          subst hrun
          exact ⟨rfl, fun t h => Option.noConfusion h⟩
        · simp only [Option.some.injEq] at hrun
          subst hrun
          refine ⟨rfl, fun t h => ?_⟩
          simp only [Option.some.injEq] at h
          subst h
          exact ⟨rfl, rfl, rfl⟩

/-- C15 at a concrete call: default arguments against a server at 44100 Hz
with blocks of 1024 frames and 100 ms of latency give `minBufCount` 4,
`minFrameCount` 4096, a `createTrack` call for 4096 frames and a stored
notification period of 2048 frames. -/
theorem set_frame_sizing_witness :
    Track.set none (Track.serverWith (playbackAt 4096 0)) Track.defaultArgs =
      some ⟨Status.NO_ERROR,
        some { Track.streaming { playbackAt 4096 0 with volumeLR := 268439552 } with
          mNotificationFrames := 2048, mRemainingFrames := 2048 },
        some ⟨44100, PCM_16_BIT, 2, 4096, none⟩⟩ ∧
    Track.minBufCount 100 1024 44100 false = some 4 ∧
    Track.minFrameCount 1024 44100 44100 4 = 4096 ∧
    ∃ fc nf, Track.frameCounts Track.defaultArgs 2 4096 = Sum.inr (fc, nf) ∧
      fc = (if Track.defaultArgs.frameCount = 0 then 4096 else Track.defaultArgs.frameCount) ∧
      (Track.defaultArgs.notificationFrames = 0 → nf = Int.tdiv fc 2) ∧
      nf ≤ Int.tdiv fc 2 :=
  have h := set_frame_sizing (Track.serverWith (playbackAt 4096 0)) Track.defaultArgs 44100 1024
    100 44100 4 PCM_16_BIT 2 4096 rfl rfl rfl rfl (by decide) (by decide) (by decide)
    (by decide) (by decide) (by decide) (by decide) (by decide) (by decide) (by decide)
    (by decide)
  ⟨by decide, h.1, h.2.1, h.2.2.1 rfl⟩

/-! ### Transport -/

/-- C16, as stated, fails: `start()` called on the inactive track
`withCallback` from its callback thread while the exit of that thread is
pending returns at once; the track stays inactive and no server call is
made. -/
theorem start_from_exiting_thread_counterexample :
    Track.withCallback.mActive = 0 ∧
    Track.withCallback.start true true = Track.withCallback ∧
    (Track.withCallback.start true true).mActive = 0 ∧
    (Track.withCallback.start true true).serverCalls = [] := by
  decide

/-- C16, amended: unless `start()` is called from the callback thread while
the exit of that thread is pending, `start()` on an inactive track sets
`mActive` to 1, sets `mNewPosition` to `cblk.server + mUpdatePeriod` modulo
`2 ^ 32`, issues exactly one server `start` and, when a shared buffer is
present, sets `cblk.user = mFrameCount` and `flowControlFlag = 0`, changing
nothing else; `start()` on an active track changes nothing and issues no
server call, so that a second `start()` changes nothing. -/
theorem start_transitions (t : Track) (exitPending fromThread : Bool)
    (hcall : ¬ (t.mCbf = true ∧ exitPending = true ∧ fromThread = true)) :
    (t.mActive = 0 →
      t.start exitPending fromThread =
        { t with
            mActive := 1,
            mCblk :=
              if t.mSharedBuffer = true then
                { t.mCblk with user := t.mFrameCount, flowControlFlag := 0 }
              else t.mCblk,
            mNewPosition := u32 (t.mCblk.server + t.mUpdatePeriod),
            serverCalls := t.serverCalls ++ [ServerCall.start] }) ∧
    (t.mActive = 1 → ∀ e f, t.start e f = t) ∧
    (t.mActive = 0 ∨ t.mActive = 1 →
      ∀ e f, (t.start exitPending fromThread).start e f = t.start exitPending fromThread) := by
  have hactive : ∀ (u : Track), u.mActive = 1 → ∀ e f, u.start e f = u := by
    intro u hu e f
    cases u
    simp only at hu
    subst hu
    simp only [Track.start, Track.orOne]
    split_ifs <;> first | rfl | omega
  have hinactive : t.mActive = 0 →
      t.start exitPending fromThread =
        { t with
            mActive := 1,
            mCblk :=
              if t.mSharedBuffer = true then
                { t.mCblk with user := t.mFrameCount, flowControlFlag := 0 }
              else t.mCblk,
            mNewPosition := u32 (t.mCblk.server + t.mUpdatePeriod),
            serverCalls := t.serverCalls ++ [ServerCall.start] } := by
    intro h0
    simp only [Track.start, if_neg hcall, h0, Track.orOne]
    split_ifs <;> first | rfl | omega
  refine ⟨hinactive, hactive t, ?_⟩
  rintro (h0 | h1) e f
  · rw [hinactive h0]
    exact hactive _ rfl e f
  · rw [hactive t h1]
    exact hactive t h1 e f

/-- C16, amended, at a concrete track: `start()` on the shared-buffer track
obtained from `withCallback`, called from outside the callback thread. -/
theorem start_transitions_witness :
    ({ Track.withCallback with mSharedBuffer := true } : Track).start false false =
      { Track.withCallback with
          mSharedBuffer := true, mActive := 1,
          mCblk := { Track.withCallback.mCblk with user := 8, flowControlFlag := 0 },
          mNewPosition := 2, serverCalls := [ServerCall.start] } :=
  ((start_transitions { Track.withCallback with mSharedBuffer := true } false false
    (by decide)).1 (by decide)).trans (by decide)

/-- C17: `stop()` on an active track clears `mActive`, issues exactly one
server `stop`, followed by a `flush` when a shared buffer is used, and
cancels any loop (`loopStart = loopEnd = UINT_MAX`, `cblk.loopCount = 0`,
`mLoopCount = 0`), changing nothing else; `stop()` on an inactive track
changes nothing and issues no server call, so that a second `stop()` changes
nothing. -/
theorem stop_transitions (t : Track) :
    (t.mActive = 1 →
      t.stop =
        { t with
            mActive := 0,
            mCblk := { t.mCblk with loopStart := UINT_MAX, loopEnd := UINT_MAX, loopCount := 0 },
            mLoopCount := 0,
            serverCalls :=
              t.serverCalls ++ [ServerCall.stop] ++
                (if t.mSharedBuffer = true then [ServerCall.flush] else []) }) ∧
    (t.mActive = 0 → t.stop = t) ∧
    (t.mActive = 0 ∨ t.mActive = 1 → t.stop.stop = t.stop) := by
  have hinactive : ∀ (u : Track), u.mActive = 0 → u.stop = u := by
    intro u hu
    cases u
    simp only at hu
    subst hu
    simp only [Track.stop, Track.andNotOne]
    split_ifs <;> first | rfl | omega
  have hactive : t.mActive = 1 →
      t.stop =
        { t with
            mActive := 0,
            mCblk := { t.mCblk with loopStart := UINT_MAX, loopEnd := UINT_MAX, loopCount := 0 },
            mLoopCount := 0,
            serverCalls :=
              t.serverCalls ++ [ServerCall.stop] ++
                (if t.mSharedBuffer = true then [ServerCall.flush] else []) } := by
    intro h1
    simp only [Track.stop, h1, Track.andNotOne, Track.setLoop, Track.flush]
    split_ifs <;> first | rfl | omega | simp_all
  refine ⟨hactive, hinactive t, ?_⟩
  rintro (h0 | h1)
  · rw [hinactive t h0]
    exact hinactive t h0
  · rw [hactive h1]
    exact hinactive _ rfl

/-- C17 at a concrete track: `stop()` on the looping shared-buffer track
`loopingShared`. -/
theorem stop_transitions_witness :
    Track.loopingShared.stop =
      { Track.loopingShared with
          mActive := 0,
          mCblk := { Track.loopingShared.mCblk with
            loopStart := UINT_MAX, loopEnd := UINT_MAX, loopCount := 0 },
          mLoopCount := 0,
          serverCalls := [ServerCall.stop, ServerCall.flush] } ∧
    Track.loopingShared.stop.stop = Track.loopingShared.stop :=
  ⟨((stop_transitions Track.loopingShared).1 (by decide)).trans (by decide),
    (stop_transitions Track.loopingShared).2.2 (by decide)⟩

/-! ### Forbidden operations -/

/-- C20: an operation forbidden in the current state returns
`INVALID_OPERATION` and leaves the track, its control block and the PCM region
as they were, without calling the server: `write` on a track with a shared
buffer (no `obtainBuffer` call is made), `setPosition` and `reload` on an
active track, `setMarkerPosition` and `setPositionUpdatePeriod` on a track
without callback, and `set` on an object on which `set` has succeeded (no
`createTrack` call is made). -/
theorem forbidden_operations (t : Track) :
    (t.mSharedBuffer = true →
      ∀ src userSize pcm audioBuffer envs,
        t.write src userSize pcm audioBuffer envs =
          ⟨some (Sum.inl Status.INVALID_OPERATION), t, pcm, []⟩) ∧
    (t.mActive ≠ 0 →
      (∀ position, t.setPosition position = (Status.INVALID_OPERATION, t)) ∧
      t.reload = (Status.INVALID_OPERATION, t)) ∧
    (t.mCbf = false →
      (∀ marker, t.setMarkerPosition marker = (Status.INVALID_OPERATION, t)) ∧
      (∀ updatePeriod, t.setPositionUpdatePeriod updatePeriod = (Status.INVALID_OPERATION, t))) ∧
    (∀ sys a, Track.set (some t) sys a = some ⟨Status.INVALID_OPERATION, some t, none⟩) := by
  refine ⟨?_, ?_, ?_, ?_⟩
  · intro h src userSize pcm audioBuffer envs
    simp only [Track.write, h, if_true]
  · intro h
    have hs : t.stopped = false := by simp only [Track.stopped, decide_eq_false_iff_not]; exact h
    refine ⟨fun position => ?_, ?_⟩
    · simp only [Track.setPosition, hs, Bool.not_false, if_true]
    · simp only [Track.reload, hs, Bool.not_false, if_true]
  · intro h
    refine ⟨fun marker => ?_, fun updatePeriod => ?_⟩
    · simp only [Track.setMarkerPosition, h, Bool.not_false, if_true]
    · simp only [Track.setPositionUpdatePeriod, h, Bool.not_false, if_true]
  · intro sys a
    rfl

/-- C20 at concrete tracks: the forbidden operations on the active
shared-buffer track `loopingShared` and on the track `mono8`, which has no
callback. -/
theorem forbidden_operations_witness :
    (Track.loopingShared.write [1, 2, 3, 4] 4 (fun _ => 0) (Track.request 0) [[]]).result =
      some (Sum.inl Status.INVALID_OPERATION) ∧
    (Track.loopingShared.write [1, 2, 3, 4] 4 (fun _ => 0) (Track.request 0) [[]]).track =
      Track.loopingShared ∧
    Track.loopingShared.setPosition 0 = (Status.INVALID_OPERATION, Track.loopingShared) ∧
    Track.loopingShared.reload = (Status.INVALID_OPERATION, Track.loopingShared) ∧
    Track.mono8.setMarkerPosition 4 = (Status.INVALID_OPERATION, Track.mono8) ∧
    Track.mono8.setPositionUpdatePeriod 4 = (Status.INVALID_OPERATION, Track.mono8) ∧
    Track.set (some Track.mono8) (Track.serverWith (playbackAt 4096 0)) Track.defaultArgs =
      some ⟨Status.INVALID_OPERATION, some Track.mono8, none⟩ :=
  ⟨congrArg Track.Written.result
      ((forbidden_operations Track.loopingShared).1 rfl [1, 2, 3, 4] 4 (fun _ => 0)
        (Track.request 0) [[]]),
    congrArg Track.Written.track
      ((forbidden_operations Track.loopingShared).1 rfl [1, 2, 3, 4] 4 (fun _ => 0)
        (Track.request 0) [[]]),
    ((forbidden_operations Track.loopingShared).2.1 (by decide)).1 0,
    ((forbidden_operations Track.loopingShared).2.1 (by decide)).2,
    ((forbidden_operations Track.mono8).2.2.1 rfl).1 4,
    ((forbidden_operations Track.mono8).2.2.1 rfl).2 4,
    (forbidden_operations Track.mono8).2.2.2 _ _⟩

/-! ### Underrun, marker and position events -/

theorem loopEndLoop_events (c m : Int) :
    ∀ e ∈ (Track.loopEndLoop c m).1, ∃ n, e = Track.Event.EVENT_LOOP_END n := by
  intro e he
  rw [loopEndLoop_closed c (m - c).toNat m rfl] at he
  simp only [List.mem_map] at he
  obtain ⟨i, _, rfl⟩ := he
  exact ⟨_, rfl⟩

theorem newPosLoop_events (server updatePeriod fuel pos : Nat) (events : List Track.Event)
    (final : Nat) (h : Track.newPosLoop server updatePeriod fuel pos = some (events, final)) :
    ∀ e ∈ events, ∃ p, e = Track.Event.EVENT_NEW_POS p := by
  induction fuel generalizing pos events final with
  | zero => simp [Track.newPosLoop] at h
  | succ fuel ih =>
    simp only [Track.newPosLoop] at h
    split_ifs at h with hge
    · cases hrec : Track.newPosLoop server updatePeriod fuel (u32 (pos + updatePeriod)) with
      | none => simp [hrec] at h
      | some r =>
        obtain ⟨ev, fin⟩ := r
        simp only [hrec, Option.some.injEq, Prod.mk.injEq] at h
        obtain ⟨rfl, rfl⟩ := h
        intro e he
        rcases List.mem_cons.mp he with rfl | he
        · exact ⟨_, rfl⟩
        · exact ih _ _ _ hrec e he
    · simp only [Option.some.injEq, Prod.mk.injEq] at h
      obtain ⟨rfl, rfl⟩ := h
      intro e he
      cases he

theorem fillLoop_track (written : List Nat) (t : Track) (audioBuffer : Buffer)
    (frames writtenSize : Nat) (r : Track.Filled)
    (h : Track.fillLoop written t audioBuffer frames writtenSize = some r) :
    (∀ e ∈ r.events, ∃ b, e = Track.Event.EVENT_MORE_DATA b) ∧
    ∃ c, r.track = { t with mCblk := c } ∧ c.server = t.mCblk.server ∧
      (r.events = [] → c = t.mCblk) := by
  induction written generalizing t audioBuffer frames writtenSize r with
  | nil =>
    obtain ⟨st, b, hob⟩ := obtainBuffer_nonblocking t { audioBuffer with frameCount := frames }
    unfold Track.fillLoop at h
    simp only [hob] at h
    split_ifs at h <;> simp only [Option.some.injEq, reduceCtorEq] at h <;> subst h <;>
      exact ⟨fun e he => absurd he (List.not_mem_nil e), t.mCblk, rfl, rfl, fun _ => rfl⟩
  | cons w written ih =>
    obtain ⟨st, b, hob⟩ := obtainBuffer_nonblocking t { audioBuffer with frameCount := frames }
    unfold Track.fillLoop at h
    simp only [hob] at h
    split_ifs at h
    all_goals first
      | (simp only [Option.some.injEq] at h; subst h
         exact ⟨fun e he => absurd he (List.not_mem_nil e), t.mCblk, rfl, rfl, fun _ => rfl⟩)
      | (simp only [Option.some.injEq] at h; subst h
         refine ⟨fun e he => ?_, _, rfl, rfl, fun hnil => ?_⟩
         · rcases List.mem_cons.mp he with rfl | he
           · exact ⟨_, rfl⟩
           · exact absurd he (List.not_mem_nil e)
         · cases hnil)
      | (split at h
         · simp only [reduceCtorEq] at h
         · rename_i r2 hrec
           simp only [Option.some.injEq] at h
           subst h
           obtain ⟨i1, c, i2, i3, _⟩ := ih _ _ _ _ _ hrec
           refine ⟨fun e he => ?_, c, ?_, ?_, fun hnil => by cases hnil⟩
           · rcases List.mem_cons.mp he with rfl | he
             · exact ⟨_, rfl⟩
             · exact i1 e he
           · rw [i2]; rfl
           · rw [i3]; rfl)

theorem underrunPhase_track (t : Track) :
    ∃ f, (Track.underrunPhase t).2.1 = { t with mCblk := { t.mCblk with flowControlFlag := f } } := by
  unfold Track.underrunPhase
  by_cases h1 : t.mActive ≠ 0 ∧ t.mCblk.framesReady = 0
  · by_cases h2 : t.mCblk.flowControlFlag = 0
    · rw [if_pos h1, if_pos h2]
      exact ⟨1, rfl⟩
    · rw [if_pos h1, if_neg h2]
      exact ⟨t.mCblk.flowControlFlag, rfl⟩
  · rw [if_neg h1]
    exact ⟨t.mCblk.flowControlFlag, rfl⟩

theorem markerPhase_congr (t u : Track) (hm : u.mMarkerPosition = t.mMarkerPosition)
    (hs : u.mCblk.server = t.mCblk.server) :
    (Track.markerPhase u).1 = (Track.markerPhase t).1 ∧
    (Track.markerPhase u).2 =
      { u with mMarkerPosition := (Track.markerPhase t).2.mMarkerPosition } := by
  simp only [Track.markerPhase, hm, hs]
  split_ifs
  · exact ⟨rfl, rfl⟩
  · refine ⟨rfl, ?_⟩
    cases u
    simp only at hm
    subst hm
    rfl
  · refine ⟨rfl, ?_⟩
    cases u
    simp only at hm
    subst hm
    rfl

theorem newPosPhase_some (fuel : Nat) (u u' : Track) (events : List Track.Event)
    (h : Track.newPosPhase fuel u = some (events, u')) :
    ∃ final, u' = { u with mNewPosition := final } ∧
      (if u.mUpdatePeriod > 0 then
        Track.newPosLoop u.mCblk.server u.mUpdatePeriod fuel u.mNewPosition = some (events, final)
       else events = [] ∧ final = u.mNewPosition) := by
  simp only [Track.newPosPhase] at h
  by_cases hp : u.mUpdatePeriod > 0
  · rw [if_pos hp] at h
    cases hrec : Track.newPosLoop u.mCblk.server u.mUpdatePeriod fuel u.mNewPosition with
    | none => simp [hrec] at h
    | some r =>
      obtain ⟨ev, fin⟩ := r
      simp only [hrec, Option.some.injEq, Prod.mk.injEq] at h
      obtain ⟨rfl, rfl⟩ := h
      refine ⟨fin, rfl, ?_⟩
      rw [if_pos hp]
  · rw [if_neg hp] at h
    simp only [Option.some.injEq, Prod.mk.injEq] at h
    obtain ⟨rfl, rfl⟩ := h
    refine ⟨u.mNewPosition, rfl, ?_⟩
    rw [if_neg hp]
    exact ⟨rfl, rfl⟩

theorem processAudioBuffer_early (fuel : Nat) (written : List Nat) (audioBuffer : Buffer)
    (t : Track) (h : (Track.underrunPhase t).2.2 = true) :
    Track.processAudioBuffer fuel written audioBuffer t =
      some ⟨(Track.underrunPhase t).1, (Track.underrunPhase t).2.1, false, false⟩ := by
  rcases hup : Track.underrunPhase t with ⟨ev1, t1, ret⟩
  rw [hup] at h
  simp only at h
  subst h
  unfold Track.processAudioBuffer
  simp only [hup]

theorem processAudioBuffer_phases (fuel : Nat) (written : List Nat) (audioBuffer : Buffer)
    (t : Track) (r : Track.Processed)
    (hrun : Track.processAudioBuffer fuel written audioBuffer t = some r)
    (hnot : (Track.underrunPhase t).2.2 = false) :
    ∃ ev4 final fe,
      r.events = (Track.underrunPhase t).1 ++
        (Track.loopEndLoop t.mCblk.loopCount t.mLoopCount).1 ++ (Track.markerPhase t).1 ++
        ev4 ++ fe ∧
      (if t.mUpdatePeriod > 0 then
        Track.newPosLoop t.mCblk.server t.mUpdatePeriod fuel t.mNewPosition = some (ev4, final)
       else ev4 = [] ∧ final = t.mNewPosition) ∧
      (∀ e ∈ fe, ∃ b, e = Track.Event.EVENT_MORE_DATA b) ∧
      r.track.mMarkerPosition = (Track.markerPhase t).2.mMarkerPosition ∧
      r.track.mNewPosition = final ∧
      r.track.mUpdatePeriod = t.mUpdatePeriod ∧
      r.track.mActive = t.mActive ∧
      r.track.mSharedBuffer = t.mSharedBuffer ∧
      r.track.mCbf = t.mCbf ∧
      r.track.mCblk.server = t.mCblk.server ∧
      (fe = [] → r.track.mCblk = (Track.underrunPhase t).2.1.mCblk) := by
  obtain ⟨f, hf⟩ := underrunPhase_track t
  rcases hup : Track.underrunPhase t with ⟨ev1, t1, ret⟩
  rw [hup] at hnot hf
  simp only at hnot hf
  subst hnot
  subst hf
  unfold Track.processAudioBuffer at hrun
  simp only [hup] at hrun
  obtain ⟨m1, m2⟩ := markerPhase_congr t
    { t with mCblk := { t.mCblk with flowControlFlag := f },
             mLoopCount := (Track.loopEndLoop t.mCblk.loopCount t.mLoopCount).2 } rfl rfl
  rw [m1, m2] at hrun
  split at hrun
  · simp only [reduceCtorEq] at hrun
  · rename_i ev4 t4 hpos
    obtain ⟨final, rfl, hloop⟩ := newPosPhase_some _ _ _ _ hpos
    split at hrun
    · simp only [reduceCtorEq] at hrun
    · rename_i filled hfill
      obtain ⟨f1, c, f2, f3, f4⟩ := fillLoop_track _ _ _ _ _ _ hfill
      refine ⟨ev4, final, filled.events, ?_, hloop, f1, ?_⟩
      · split_ifs at hrun <;> simp only [Option.some.injEq] at hrun <;> subst hrun <;> rfl
      · split_ifs at hrun <;> simp only [Option.some.injEq] at hrun <;> subst hrun <;>
          rw [f2] <;>
          exact ⟨rfl, rfl, rfl, rfl, rfl, rfl, f3, fun h => f4 h⟩

theorem underrunPhase_eq (t : Track) :
    (t.mActive ≠ 0 ∧ t.mCblk.framesReady = 0 ∧ t.mCblk.flowControlFlag = 0 →
      Track.underrunPhase t =
        (Track.Event.EVENT_UNDERRUN ::
            (if t.mCblk.server = t.mCblk.frameCount then [Track.Event.EVENT_BUFFER_END] else []),
          { t with mCblk := { t.mCblk with flowControlFlag := 1 } }, t.mSharedBuffer)) ∧
    (¬ (t.mActive ≠ 0 ∧ t.mCblk.framesReady = 0 ∧ t.mCblk.flowControlFlag = 0) →
      Track.underrunPhase t = ([], t, false)) := by
  unfold Track.underrunPhase
  by_cases h1 : t.mActive ≠ 0 ∧ t.mCblk.framesReady = 0
  · by_cases h2 : t.mCblk.flowControlFlag = 0
    · rw [if_pos h1, if_pos h2]
      exact ⟨fun _ => rfl, fun h => absurd ⟨h1.1, h1.2, h2⟩ h⟩
    · rw [if_pos h1, if_neg h2]
      exact ⟨fun h => absurd h.2.2 h2, fun _ => rfl⟩
  · rw [if_neg h1]
    exact ⟨fun h => absurd ⟨h.1, h.2.1⟩ h1, fun _ => rfl⟩

theorem count_flow_events (xs : List Track.Event)
    (h : ∀ e ∈ xs, (∃ n, e = Track.Event.EVENT_LOOP_END n) ∨ (∃ p, e = Track.Event.EVENT_MARKER p) ∨
      (∃ p, e = Track.Event.EVENT_NEW_POS p) ∨ (∃ b, e = Track.Event.EVENT_MORE_DATA b)) :
    xs.count Track.Event.EVENT_UNDERRUN = 0 ∧ xs.count Track.Event.EVENT_BUFFER_END = 0 := by
  constructor
  · apply List.count_eq_zero.mpr
    intro hmem
    rcases h _ hmem with ⟨n, hn⟩ | ⟨p, hp⟩ | ⟨p, hp⟩ | ⟨b, hb⟩
    · cases hn
    · cases hp
    · cases hp
    · cases hb
  · apply List.count_eq_zero.mpr
    intro hmem
    rcases h _ hmem with ⟨n, hn⟩ | ⟨p, hp⟩ | ⟨p, hp⟩ | ⟨b, hb⟩
    · cases hn
    · cases hp
    · cases hp
    · cases hb

theorem markerPhase_events (t : Track) :
    ∀ e ∈ (Track.markerPhase t).1, e = Track.Event.EVENT_MARKER t.mMarkerPosition := by
  intro e he
  simp only [Track.markerPhase] at he
  split_ifs at he
  · rcases List.mem_cons.mp he with rfl | he
    · rfl
    · exact absurd he (List.not_mem_nil e)
  · exact absurd he (List.not_mem_nil e)
  · exact absurd he (List.not_mem_nil e)

theorem newPos_events (fuel : Nat) (t : Track) (ev4 : List Track.Event) (final : Nat)
    (h : if t.mUpdatePeriod > 0 then
        Track.newPosLoop t.mCblk.server t.mUpdatePeriod fuel t.mNewPosition = some (ev4, final)
       else ev4 = [] ∧ final = t.mNewPosition) :
    ∀ e ∈ ev4, ∃ p, e = Track.Event.EVENT_NEW_POS p := by
  split_ifs at h
  · exact newPosLoop_events _ _ _ _ _ _ h
  · intro e he
    rw [h.1] at he
    exact absurd he (List.not_mem_nil e)

theorem processAudioBuffer_flow (fuel : Nat) (written : List Nat) (audioBuffer : Buffer)
    (t : Track) (r : Track.Processed)
    (hrun : Track.processAudioBuffer fuel written audioBuffer t = some r) :
    ∃ rest, r.events = (Track.underrunPhase t).1 ++ rest ∧
      rest.count Track.Event.EVENT_UNDERRUN = 0 ∧
      rest.count Track.Event.EVENT_BUFFER_END = 0 ∧
      ((∀ b, Track.Event.EVENT_MORE_DATA b ∉ r.events) →
        r.track.mCblk = (Track.underrunPhase t).2.1.mCblk) := by
  cases hret : (Track.underrunPhase t).2.2 with
  | true =>
    rw [processAudioBuffer_early fuel written audioBuffer t hret] at hrun
    simp only [Option.some.injEq] at hrun
    subst hrun
    exact ⟨[], (List.append_nil _).symm, rfl, rfl, fun _ => rfl⟩
  | false =>
    obtain ⟨ev4, final, fe, hev, hloop, hfe, _, _, _, _, _, _, _, hc⟩ :=
      processAudioBuffer_phases fuel written audioBuffer t r hrun hret
    have hcount := count_flow_events
      ((Track.loopEndLoop t.mCblk.loopCount t.mLoopCount).1 ++ (Track.markerPhase t).1 ++
        ev4 ++ fe) (by
        intro e he
        simp only [List.mem_append] at he
        rcases he with ((he | he) | he) | he
        · exact Or.inl (loopEndLoop_events _ _ e he)
        · exact Or.inr (Or.inl ⟨_, markerPhase_events t e he⟩)
        · exact Or.inr (Or.inr (Or.inl (newPos_events fuel t ev4 final hloop e he)))
        · exact Or.inr (Or.inr (Or.inr (hfe e he))))
    refine ⟨_, ?_, hcount.1, hcount.2, fun hno => hc ?_⟩
    · rw [hev]
      simp only [List.append_assoc]
    · apply List.eq_nil_iff_forall_not_mem.mpr
      intro e he
      obtain ⟨b, rfl⟩ := hfe e he
      apply hno b
      rw [hev]
      exact List.mem_append_right _ he

/-- C19: a `processAudioBuffer` call fires `EVENT_UNDERRUN` exactly when the
track is active, `framesReady() = 0` and `flowControlFlag = 0` (once, as the
first event), and `EVENT_BUFFER_END` exactly when in addition
`cblk.server = cblk.frameCount` (once, right after `EVENT_UNDERRUN`).  The
flag is then set to 1 and stays so through the call unless an
`EVENT_MORE_DATA` callback leads to `releaseBuffer`, so that a following call
that finds the control block with that flag fires no `EVENT_UNDERRUN`.  With a
shared buffer the call that fires the event returns `false` after these
events, whatever the environment. -/
theorem processAudioBuffer_underrun (t : Track) :
    (∀ fuel written audioBuffer r,
      Track.processAudioBuffer fuel written audioBuffer t = some r →
      r.events.count Track.Event.EVENT_UNDERRUN =
        (if t.mActive ≠ 0 ∧ t.mCblk.framesReady = 0 ∧ t.mCblk.flowControlFlag = 0 then 1
         else 0) ∧
      r.events.count Track.Event.EVENT_BUFFER_END =
        (if (t.mActive ≠ 0 ∧ t.mCblk.framesReady = 0 ∧ t.mCblk.flowControlFlag = 0) ∧
            t.mCblk.server = t.mCblk.frameCount then 1
         else 0) ∧
      (t.mActive ≠ 0 ∧ t.mCblk.framesReady = 0 ∧ t.mCblk.flowControlFlag = 0 →
        (∃ rest, r.events =
          Track.Event.EVENT_UNDERRUN ::
            (if t.mCblk.server = t.mCblk.frameCount then [Track.Event.EVENT_BUFFER_END] else [])
            ++ rest) ∧
        ((∀ b, Track.Event.EVENT_MORE_DATA b ∉ r.events) →
          r.track.mCblk.flowControlFlag = 1 ∧
          ∀ fuel2 written2 audioBuffer2 c r2,
            c.flowControlFlag = r.track.mCblk.flowControlFlag →
            Track.processAudioBuffer fuel2 written2 audioBuffer2 { r.track with mCblk := c } =
              some r2 →
            Track.Event.EVENT_UNDERRUN ∉ r2.events))) ∧
    (t.mActive ≠ 0 ∧ t.mCblk.framesReady = 0 ∧ t.mCblk.flowControlFlag = 0 →
      t.mSharedBuffer = true →
      ∀ fuel written audioBuffer,
        Track.processAudioBuffer fuel written audioBuffer t =
          some ⟨Track.Event.EVENT_UNDERRUN ::
              (if t.mCblk.server = t.mCblk.frameCount then [Track.Event.EVENT_BUFFER_END] else []),
            { t with mCblk := { t.mCblk with flowControlFlag := 1 } }, false, false⟩) := by
  have hcount : ∀ (u : Track) fuel written audioBuffer r,
      Track.processAudioBuffer fuel written audioBuffer u = some r →
      r.events.count Track.Event.EVENT_UNDERRUN =
        (if u.mActive ≠ 0 ∧ u.mCblk.framesReady = 0 ∧ u.mCblk.flowControlFlag = 0 then 1
         else 0) ∧
      r.events.count Track.Event.EVENT_BUFFER_END =
        (if (u.mActive ≠ 0 ∧ u.mCblk.framesReady = 0 ∧ u.mCblk.flowControlFlag = 0) ∧
            u.mCblk.server = u.mCblk.frameCount then 1
         else 0) := by
    intro u fuel written audioBuffer r hrun
    obtain ⟨rest, hev, hu, hb, _⟩ := processAudioBuffer_flow fuel written audioBuffer u r hrun
    rw [hev, List.count_append, List.count_append, hu, hb]
    by_cases hc : u.mActive ≠ 0 ∧ u.mCblk.framesReady = 0 ∧ u.mCblk.flowControlFlag = 0
    · rw [(underrunPhase_eq u).1 hc, if_pos hc]
      by_cases hs : u.mCblk.server = u.mCblk.frameCount
      · rw [if_pos hs, if_pos ⟨hc, hs⟩]
        exact ⟨by dsimp only; decide, by dsimp only; decide⟩
      · rw [if_neg hs, if_neg (fun h => hs h.2)]
        exact ⟨by dsimp only; decide, by dsimp only; decide⟩
    · rw [(underrunPhase_eq u).2 hc, if_neg hc, if_neg (fun h => hc h.1)]
      exact ⟨rfl, rfl⟩
  refine ⟨fun fuel written audioBuffer r hrun => ?_, fun hc hs fuel written audioBuffer => ?_⟩
  · obtain ⟨c1, c2⟩ := hcount t fuel written audioBuffer r hrun
    refine ⟨c1, c2, fun hc => ?_⟩
    obtain ⟨rest, hev, _, _, hflag⟩ := processAudioBuffer_flow fuel written audioBuffer t r hrun
    rw [(underrunPhase_eq t).1 hc] at hev hflag
    refine ⟨⟨rest, hev⟩, fun hno => ?_⟩
    have hone : r.track.mCblk.flowControlFlag = 1 := by rw [hflag hno]
    refine ⟨hone, fun fuel2 written2 audioBuffer2 c r2 hcf hrun2 => ?_⟩
    have h2 := (hcount _ fuel2 written2 audioBuffer2 r2 hrun2).1
    rw [if_neg (by
      intro h
      have h3 : c.flowControlFlag = 0 := h.2.2
      rw [hcf, hone] at h3
      exact absurd h3 (by decide))] at h2
    exact List.count_eq_zero.mp h2
  · have hret : (Track.underrunPhase t).2.2 = true := by
      rw [(underrunPhase_eq t).1 hc]
      exact hs
    rw [processAudioBuffer_early fuel written audioBuffer t hret, (underrunPhase_eq t).1 hc]

theorem drained_run :
    Track.processAudioBuffer 1 [] (Track.request 0) Track.drained =
      some ⟨[Track.Event.EVENT_UNDERRUN],
            { Track.drained with mCblk := { Track.drained.mCblk with flowControlFlag := 1 } },
            true, true⟩ := by
  unfold Track.processAudioBuffer
  simp only [loopEndLoop_closed _ _ _ rfl]
  decide

/-- C19 at concrete tracks: the shared-buffer track `loopedOnce`, whose server
stands at the end of the buffer, fires `EVENT_UNDERRUN` and `EVENT_BUFFER_END`
and returns `false`; the emptied streaming track `drained` fires `EVENT_UNDERRUN`
once, no `EVENT_BUFFER_END`, and ends with `flowControlFlag = 1`. -/
theorem processAudioBuffer_underrun_witness :
    Track.processAudioBuffer 0 [] (Track.request 0) Track.loopedOnce =
      some ⟨[Track.Event.EVENT_UNDERRUN, Track.Event.EVENT_BUFFER_END],
            { Track.loopedOnce with
                mCblk := { Track.loopedOnce.mCblk with flowControlFlag := 1 } },
            false, false⟩ ∧
    [Track.Event.EVENT_UNDERRUN].count Track.Event.EVENT_UNDERRUN = 1 ∧
    [Track.Event.EVENT_UNDERRUN].count Track.Event.EVENT_BUFFER_END = 0 :=
  ⟨((processAudioBuffer_underrun Track.loopedOnce).2 (by decide) (by decide) 0 []
      (Track.request 0)).trans (by decide),
    (((processAudioBuffer_underrun Track.drained).1 1 [] (Track.request 0) _ drained_run).1).trans
      (by decide),
    (((processAudioBuffer_underrun Track.drained).1 1 [] (Track.request 0) _ drained_run).2.1).trans
      (by decide)⟩

/-! ### Marker and position events -/

theorem markerPayloads_append (xs ys : List Track.Event) :
    Track.markerPayloads (xs ++ ys) = Track.markerPayloads xs ++ Track.markerPayloads ys := by
  induction xs with
  | nil => rfl
  | cons x xs ih => cases x <;> simp [Track.markerPayloads, ih]

theorem newPosPayloads_append (xs ys : List Track.Event) :
    Track.newPosPayloads (xs ++ ys) = Track.newPosPayloads xs ++ Track.newPosPayloads ys := by
  induction xs with
  | nil => rfl
  | cons x xs ih => cases x <;> simp [Track.newPosPayloads, ih]

theorem markerPayloads_nil (xs : List Track.Event)
    (h : ∀ e ∈ xs, ∀ p, e ≠ Track.Event.EVENT_MARKER p) : Track.markerPayloads xs = [] := by
  induction xs with
  | nil => rfl
  | cons x xs ih =>
    have hx := h x (List.mem_cons_self x xs)
    have hxs := ih (fun e he => h e (List.mem_cons_of_mem x he))
    cases x <;> first | exact hxs | exact absurd rfl (hx _)

theorem newPosPayloads_nil (xs : List Track.Event)
    (h : ∀ e ∈ xs, ∀ p, e ≠ Track.Event.EVENT_NEW_POS p) : Track.newPosPayloads xs = [] := by
  induction xs with
  | nil => rfl
  | cons x xs ih =>
    have hx := h x (List.mem_cons_self x xs)
    have hxs := ih (fun e he => h e (List.mem_cons_of_mem x he))
    cases x <;> first | exact hxs | exact absurd rfl (hx _)

theorem underrunPhase_events (t : Track) :
    ∀ e ∈ (Track.underrunPhase t).1,
      e = Track.Event.EVENT_UNDERRUN ∨ e = Track.Event.EVENT_BUFFER_END := by
  intro e he
  by_cases hc : t.mActive ≠ 0 ∧ t.mCblk.framesReady = 0 ∧ t.mCblk.flowControlFlag = 0
  · rw [(underrunPhase_eq t).1 hc] at he
    simp only at he
    rcases List.mem_cons.mp he with rfl | he
    · exact Or.inl rfl
    · split_ifs at he
      · rcases List.mem_cons.mp he with rfl | he
        · exact Or.inr rfl
        · exact absurd he (List.not_mem_nil e)
      · exact absurd he (List.not_mem_nil e)
  · rw [(underrunPhase_eq t).2 hc] at he
    exact absurd he (List.not_mem_nil e)

theorem markerPhase_eq (t : Track) :
    Track.markerPayloads (Track.markerPhase t).1 =
      (if t.mMarkerPosition > 0 ∧ t.mCblk.server ≥ t.mMarkerPosition then [t.mMarkerPosition]
       else []) ∧
    Track.newPosPayloads (Track.markerPhase t).1 = [] ∧
    (Track.markerPhase t).2.mMarkerPosition =
      (if t.mMarkerPosition > 0 ∧ t.mCblk.server ≥ t.mMarkerPosition then 0
       else t.mMarkerPosition) := by
  unfold Track.markerPhase
  by_cases h1 : t.mMarkerPosition > 0
  · by_cases h2 : t.mCblk.server ≥ t.mMarkerPosition
    · rw [if_pos h1, if_pos h2, if_pos ⟨h1, h2⟩, if_pos ⟨h1, h2⟩]
      exact ⟨rfl, rfl, rfl⟩
    · rw [if_pos h1, if_neg h2, if_neg (fun h => h2 h.2), if_neg (fun h => h2 h.2)]
      exact ⟨rfl, rfl, rfl⟩
  · rw [if_neg h1, if_neg (fun h => h1 h.1), if_neg (fun h => h1 h.1)]
    exact ⟨rfl, rfl, rfl⟩

theorem newPosLoop_spec (server updatePeriod : Nat) (hP : updatePeriod > 0)
    (hs : server + updatePeriod < 4294967296) (fuel : Nat) :
    ∀ (pos : Nat) (events : List Track.Event) (final : Nat),
      Track.newPosLoop server updatePeriod fuel pos = some (events, final) →
      ∃ n, events = (List.range n).map
          (fun k => Track.Event.EVENT_NEW_POS (pos + k * updatePeriod)) ∧
        final = pos + n * updatePeriod ∧ server < final ∧
        ∀ k, k < n → pos + k * updatePeriod ≤ server := by
  induction fuel with
  | zero =>
    intro pos events final h
    simp [Track.newPosLoop] at h
  | succ fuel ih =>
    intro pos events final h
    simp only [Track.newPosLoop] at h
    split_ifs at h with hge
    · cases hrec : Track.newPosLoop server updatePeriod fuel (u32 (pos + updatePeriod)) with
      | none => simp [hrec] at h
      | some r =>
        obtain ⟨ev, fin⟩ := r
        simp only [hrec, Option.some.injEq, Prod.mk.injEq] at h
        obtain ⟨rfl, rfl⟩ := h
        have hu : u32 (pos + updatePeriod) = pos + updatePeriod := by
          simp only [u32]
          omega
        rw [hu] at hrec
        obtain ⟨n, h1, h2, h3, h4⟩ := ih _ _ _ hrec
        refine ⟨n + 1, ?_, ?_, h3, ?_⟩
        · rw [h1, List.range_succ_eq_map]
          simp only [List.map_cons, List.map_map, Nat.zero_mul, Nat.add_zero]
          congr 1
          apply List.map_congr_left
          intro k _
          simp only [Function.comp, Nat.succ_eq_add_one]
          congr 1
          rw [Nat.add_mul, Nat.one_mul]
          omega
        · rw [h2, Nat.add_mul, Nat.one_mul]
          omega
        · intro k hk
          cases k with
          | zero => simpa using hge
          | succ k =>
            have := h4 k (by omega)
            rw [Nat.add_mul, Nat.one_mul]
            omega
    · simp only [Option.some.injEq, Prod.mk.injEq] at h
      obtain ⟨rfl, rfl⟩ := h
      refine ⟨0, rfl, by simp, by omega, ?_⟩
      intro k hk
      omega

theorem newPosLoop_total (server updatePeriod : Nat) (hP : updatePeriod > 0)
    (hs : server + updatePeriod < 4294967296) (fuel : Nat) :
    ∀ pos : Nat, (server + updatePeriod - pos) / updatePeriod < fuel →
      (Track.newPosLoop server updatePeriod fuel pos).isSome = true := by
  induction fuel with
  | zero =>
    intro pos h
    exact absurd h (Nat.not_lt_zero _)
  | succ fuel ih =>
    intro pos h
    simp only [Track.newPosLoop]
    split_ifs with hge
    · have hu : u32 (pos + updatePeriod) = pos + updatePeriod := by
        simp only [u32]
        omega
      rw [hu]
      have hlt : (server + updatePeriod - (pos + updatePeriod)) / updatePeriod < fuel := by
        have e : server + updatePeriod - pos =
            (server + updatePeriod - (pos + updatePeriod)) + updatePeriod := by omega
        rw [e, Nat.add_div_right _ hP] at h
        omega
      have := ih (pos + updatePeriod) hlt
      cases hrec : Track.newPosLoop server updatePeriod fuel (pos + updatePeriod) with
      | none => rw [hrec] at this; cases this
      | some r => rfl
    · rfl

theorem newPosPayloads_map (f : Nat → Nat) (ks : List Nat) :
    Track.newPosPayloads (ks.map (fun k => Track.Event.EVENT_NEW_POS (f k))) = ks.map f := by
  induction ks with
  | nil => rfl
  | cons k ks ih => simp [Track.newPosPayloads, ih]

theorem processAudioBuffer_position (fuel : Nat) (written : List Nat) (audioBuffer : Buffer)
    (t : Track) (r : Track.Processed)
    (hrun : Track.processAudioBuffer fuel written audioBuffer t = some r)
    (hnot : ¬ (t.mActive ≠ 0 ∧ t.mCblk.framesReady = 0 ∧ t.mCblk.flowControlFlag = 0 ∧
      t.mSharedBuffer = true)) :
    Track.markerPayloads r.events =
      (if t.mMarkerPosition > 0 ∧ t.mCblk.server ≥ t.mMarkerPosition then [t.mMarkerPosition]
       else []) ∧
    r.track.mMarkerPosition =
      (if t.mMarkerPosition > 0 ∧ t.mCblk.server ≥ t.mMarkerPosition then 0
       else t.mMarkerPosition) ∧
    r.track.mUpdatePeriod = t.mUpdatePeriod ∧
    r.track.mActive = t.mActive ∧
    r.track.mSharedBuffer = t.mSharedBuffer ∧
    (t.mUpdatePeriod = 0 →
      Track.newPosPayloads r.events = [] ∧ r.track.mNewPosition = t.mNewPosition) ∧
    (t.mUpdatePeriod > 0 → t.mCblk.server + t.mUpdatePeriod < 4294967296 →
      ∃ n, Track.newPosPayloads r.events =
          (List.range n).map (fun k => t.mNewPosition + k * t.mUpdatePeriod) ∧
        r.track.mNewPosition = t.mNewPosition + n * t.mUpdatePeriod ∧
        t.mCblk.server < r.track.mNewPosition ∧
        ∀ k, k < n → t.mNewPosition + k * t.mUpdatePeriod ≤ t.mCblk.server) := by
  have hfalse : (Track.underrunPhase t).2.2 = false := by
    cases h : (Track.underrunPhase t).2.2 with
    | false => rfl
    | true => exact absurd ((underrunPhase_returns t).mp h) hnot
  obtain ⟨ev4, final, fe, hev, hloop, hfe, hm, hn, hp, ha, hs, _, _, _⟩ :=
    processAudioBuffer_phases fuel written audioBuffer t r hrun hfalse
  obtain ⟨k1, k2, k3⟩ := markerPhase_eq t
  have hev4 := newPos_events fuel t ev4 final hloop
  have u1 : Track.markerPayloads (Track.underrunPhase t).1 = [] :=
    markerPayloads_nil _ (fun e he p => by
      rcases underrunPhase_events t e he with rfl | rfl <;> exact fun h => by cases h)
  have u2 : Track.newPosPayloads (Track.underrunPhase t).1 = [] :=
    newPosPayloads_nil _ (fun e he p => by
      rcases underrunPhase_events t e he with rfl | rfl <;> exact fun h => by cases h)
  have l1 : Track.markerPayloads (Track.loopEndLoop t.mCblk.loopCount t.mLoopCount).1 = [] :=
    markerPayloads_nil _ (fun e he p => by
      obtain ⟨n, rfl⟩ := loopEndLoop_events _ _ e he
      exact fun h => by cases h)
  have l2 : Track.newPosPayloads (Track.loopEndLoop t.mCblk.loopCount t.mLoopCount).1 = [] :=
    newPosPayloads_nil _ (fun e he p => by
      obtain ⟨n, rfl⟩ := loopEndLoop_events _ _ e he
      exact fun h => by cases h)
  have p1 : Track.markerPayloads ev4 = [] :=
    markerPayloads_nil _ (fun e he p => by
      obtain ⟨n, rfl⟩ := hev4 e he
      exact fun h => by cases h)
  have f1 : Track.markerPayloads fe = [] :=
    markerPayloads_nil _ (fun e he p => by
      obtain ⟨n, rfl⟩ := hfe e he
      exact fun h => by cases h)
  have f2 : Track.newPosPayloads fe = [] :=
    newPosPayloads_nil _ (fun e he p => by
      obtain ⟨n, rfl⟩ := hfe e he
      exact fun h => by cases h)
  have hnp : Track.newPosPayloads r.events = Track.newPosPayloads ev4 := by
    rw [hev]
    simp only [newPosPayloads_append, u2, l2, k2, f2, List.nil_append, List.append_nil]
  refine ⟨?_, hm.trans k3, hp, ha, hs, ?_, ?_⟩
  · rw [hev]
    simp only [markerPayloads_append, u1, l1, k1, p1, f1, List.nil_append, List.append_nil]
  · intro h0
    rw [if_neg (by omega)] at hloop
    rw [hnp, hn, hloop.1, hloop.2]
    exact ⟨rfl, rfl⟩
  · intro hP hrange
    rw [if_pos hP] at hloop
    obtain ⟨n, h1, h2, h3, h4⟩ := newPosLoop_spec _ _ hP hrange fuel _ _ _ hloop
    refine ⟨n, ?_, hn.trans h2, ?_, h4⟩
    · rw [hnp, h1]
      exact newPosPayloads_map _ _
    · rw [hn]
      exact h3

theorem markerSchedule_zero (servers : List Nat) :
    Track.markerSchedule 0 servers = servers.map (fun _ => []) := by
  induction servers with
  | nil => rfl
  | cons x xs ih =>
    simp only [Track.markerSchedule, List.map_cons]
    rw [if_neg (by omega), ih]

theorem processCalls_cons (c : Track.ThreadCall) (calls : List Track.ThreadCall) (t t' : Track)
    (evs : List (List Track.Event)) (h : Track.processCalls (c :: calls) t = some (evs, t')) :
    ∃ r rest,
      Track.processAudioBuffer c.fuel c.written c.audioBuffer { t with mCblk := c.cblk } = some r ∧
      Track.processCalls calls r.track = some (rest, t') ∧ evs = r.events :: rest := by
  simp only [Track.processCalls] at h
  split at h
  · simp only [reduceCtorEq] at h
  · rename_i r hr
    split at h
    · simp only [reduceCtorEq] at h
    · rename_i rest t2 hrest
      simp only [Option.some.injEq, Prod.mk.injEq] at h
      obtain ⟨rfl, rfl⟩ := h
      exact ⟨r, rest, hr, hrest, rfl⟩

theorem processCalls_marker (calls : List Track.ThreadCall) :
    ∀ (t t' : Track) (evs : List (List Track.Event)),
      Track.processCalls calls t = some (evs, t') →
      (∀ c ∈ calls, ¬ (t.mActive ≠ 0 ∧ c.cblk.framesReady = 0 ∧ c.cblk.flowControlFlag = 0 ∧
        t.mSharedBuffer = true)) →
      evs.map Track.markerPayloads =
        Track.markerSchedule t.mMarkerPosition (calls.map (fun c => c.cblk.server)) ∧
      evs.length = calls.length ∧
      t'.mUpdatePeriod = t.mUpdatePeriod := by
  induction calls with
  | nil =>
    intro t t' evs h _
    simp only [Track.processCalls, Option.some.injEq, Prod.mk.injEq] at h
    obtain ⟨rfl, rfl⟩ := h
    exact ⟨rfl, rfl, rfl⟩
  | cons c calls ih =>
    intro t t' evs h hnot
    obtain ⟨r, rest, hr, hrest, rfl⟩ := processCalls_cons c calls t t' evs h
    obtain ⟨p1, p2, p3, p4, p5, _, _⟩ := processAudioBuffer_position _ _ _ _ r hr
      (hnot c (List.mem_cons_self c calls))
    simp only at p1 p2 p3 p4 p5
    obtain ⟨i1, i2, i3⟩ := ih r.track t' rest hrest (by
      intro d hd
      rw [p4, p5]
      exact hnot d (List.mem_cons_of_mem c hd))
    refine ⟨?_, by simp only [List.length_cons, i2], i3.trans p3⟩
    simp only [List.map_cons, Track.markerSchedule, p1, i1, p2]
    by_cases hm : t.mMarkerPosition > 0 ∧ c.cblk.server ≥ t.mMarkerPosition
    · rw [if_pos hm, if_pos hm, if_pos hm, markerSchedule_zero, List.map_map]
    · rw [if_neg hm, if_neg hm, if_neg hm]

theorem processCalls_newPos (calls : List Track.ThreadCall) :
    ∀ (t t' : Track) (evs : List (List Track.Event)),
      Track.processCalls calls t = some (evs, t') →
      (∀ c ∈ calls, ¬ (t.mActive ≠ 0 ∧ c.cblk.framesReady = 0 ∧ c.cblk.flowControlFlag = 0 ∧
        t.mSharedBuffer = true)) →
      t.mUpdatePeriod > 0 →
      (∀ c ∈ calls, c.cblk.server + t.mUpdatePeriod < 4294967296) →
      ∃ n, Track.newPosPayloads evs.flatten =
          (List.range n).map (fun k => t.mNewPosition + k * t.mUpdatePeriod) ∧
        t'.mNewPosition = t.mNewPosition + n * t.mUpdatePeriod ∧
        (∀ c ∈ calls, c.cblk.server < t'.mNewPosition) ∧
        ∀ k, k < n → ∃ c ∈ calls, t.mNewPosition + k * t.mUpdatePeriod ≤ c.cblk.server := by
  induction calls with
  | nil =>
    intro t t' evs h _ _ _
    simp only [Track.processCalls, Option.some.injEq, Prod.mk.injEq] at h
    obtain ⟨rfl, rfl⟩ := h
    refine ⟨0, rfl, by simp, fun c hc => absurd hc (List.not_mem_nil c), fun k hk => ?_⟩
    omega
  | cons c calls ih =>
    intro t t' evs h hnot hP hrange
    obtain ⟨r, rest, hr, hrest, rfl⟩ := processCalls_cons c calls t t' evs h
    obtain ⟨_, _, p3, p4, p5, _, p7⟩ := processAudioBuffer_position _ _ _ _ r hr
      (hnot c (List.mem_cons_self c calls))
    simp only at p3 p4 p5 p7
    obtain ⟨n1, q1, q2, q3, q4⟩ := p7 hP (hrange c (List.mem_cons_self c calls))
    obtain ⟨n2, i1, i2, i3, i4⟩ := ih r.track t' rest hrest
      (by
        intro d hd
        rw [p4, p5]
        exact hnot d (List.mem_cons_of_mem c hd))
      (by rw [p3]; exact hP)
      (by
        intro d hd
        rw [p3]
        exact hrange d (List.mem_cons_of_mem c hd))
    rw [p3, q2] at i1 i2 i4
    refine ⟨n1 + n2, ?_, ?_, ?_, ?_⟩
    · rw [List.flatten_cons, newPosPayloads_append, q1, i1, List.range_add, List.map_append,
        List.map_map]
      congr 1
      apply List.map_congr_left
      intro k _
      simp only [Function.comp, Nat.add_mul]
      omega
    · rw [i2, Nat.add_mul]
      omega
    · intro d hd
      rcases List.mem_cons.mp hd with rfl | hd
      · rw [i2]
        omega
      · exact i3 d hd
    · intro k hk
      by_cases hk1 : k < n1
      · exact ⟨c, List.mem_cons_self c calls, q4 k hk1⟩
      · obtain ⟨j, rfl⟩ : ∃ j, k = n1 + j := ⟨k - n1, by omega⟩
        obtain ⟨d, hd, hle⟩ := i4 j (by omega)
        refine ⟨d, List.mem_cons_of_mem c hd, ?_⟩
        rw [Nat.add_mul]
        omega

theorem server_le_last (calls : List Track.ThreadCall) :
    (calls.map (fun c => c.cblk.server)).Pairwise (fun a b => a ≤ b) →
    ∀ last, calls.getLast? = some last → ∀ c ∈ calls, c.cblk.server ≤ last.cblk.server := by
  induction calls with
  | nil =>
    intro _ last _ c hc
    exact absurd hc (List.not_mem_nil c)
  | cons a l ih =>
    intro hp last hlast c hc
    rw [List.map_cons, List.pairwise_cons] at hp
    cases l with
    | nil =>
      rw [List.getLast?_singleton, Option.some.injEq] at hlast
      subst hlast
      rcases List.mem_cons.mp hc with rfl | hc
      · exact Nat.le_refl _
      · exact absurd hc (List.not_mem_nil c)
    | cons b l2 =>
      rw [List.getLast?_cons_cons] at hlast
      rcases List.mem_cons.mp hc with rfl | hc
      · exact hp.1 _ (List.mem_map_of_mem _ (List.mem_of_getLast?_eq_some hlast))
      · exact ih hp.2 last hlast c hc

/-- C18, as stated, fails: the shared-buffer track `markedShared` has played
its 8 frames, with the marker at frame 8 and a new position due at frame 4.
The call finds `cblk.server = 8 ≥ mMarkerPosition > 0` and
`mNewPosition ≤ cblk.server`, yet it fires `EVENT_UNDERRUN` and
`EVENT_BUFFER_END` only and returns `false` at the underrun check: no
`EVENT_MARKER` and no `EVENT_NEW_POS` fires, and the marker stays set. -/
theorem processAudioBuffer_marker_counterexample :
    Track.markedShared.mCblk.server ≥ Track.markedShared.mMarkerPosition ∧
    Track.markedShared.mMarkerPosition > 0 ∧
    Track.markedShared.mUpdatePeriod > 0 ∧
    Track.markedShared.mNewPosition ≤ Track.markedShared.mCblk.server ∧
    (Track.processAudioBuffer 8 [] (Track.request 0) Track.markedShared).map
        (fun r => (r.events, r.result, Track.markerPayloads r.events,
          Track.newPosPayloads r.events, r.track.mMarkerPosition, r.track.mNewPosition)) =
      some ([Track.Event.EVENT_UNDERRUN, Track.Event.EVENT_BUFFER_END], false, [], [], 8, 4) ∧
    Track.markerSchedule 8 [8] = [[8]] := by
  refine ⟨by decide, by decide, by decide, by decide, by decide, by decide⟩

/-- C18, amended: take successive `processAudioBuffer` calls none of which
returns at the underrun check (no call finds the track at once active, out of
ready frames, with `flowControlFlag = 0` and with a shared buffer), with a
non-decreasing server position and `cblk.server + mUpdatePeriod < 2 ^ 32` at
each call.  Then `EVENT_MARKER` fires at the first call that finds
`cblk.server ≥ mMarkerPosition > 0`, once, with the marker as payload, and at
no other call.  With `mUpdatePeriod = P > 0` and `mNewPosition = p` before
the first call, the `EVENT_NEW_POS` payloads of all the calls are
`p, p + P, ..., p + (n - 1) P`, in that order, where `p + k P` is at most the
server position of the last call exactly when `k < n`, and afterwards
`mNewPosition = p + n P` is above that position.  The new-position loop of a
call ends within `(cblk.server + P - mNewPosition) / P + 1` iterations. -/
theorem processCalls_position_events (calls : List Track.ThreadCall) (t t' : Track)
    (evs : List (List Track.Event))
    (hrun : Track.processCalls calls t = some (evs, t'))
    (hnot : ∀ c ∈ calls, ¬ (t.mActive ≠ 0 ∧ c.cblk.framesReady = 0 ∧
      c.cblk.flowControlFlag = 0 ∧ t.mSharedBuffer = true))
    (hmono : (calls.map (fun c => c.cblk.server)).Pairwise (fun a b => a ≤ b))
    (hrange : ∀ c ∈ calls, c.cblk.server + t.mUpdatePeriod < 4294967296) :
    evs.length = calls.length ∧
    evs.map Track.markerPayloads =
      Track.markerSchedule t.mMarkerPosition (calls.map (fun c => c.cblk.server)) ∧
    (t.mUpdatePeriod > 0 → ∀ last, calls.getLast? = some last →
      ∃ n, Track.newPosPayloads evs.flatten =
          (List.range n).map (fun k => t.mNewPosition + k * t.mUpdatePeriod) ∧
        (∀ k, k < n ↔ t.mNewPosition + k * t.mUpdatePeriod ≤ last.cblk.server) ∧
        t'.mNewPosition = t.mNewPosition + n * t.mUpdatePeriod ∧
        last.cblk.server < t'.mNewPosition) ∧
    (t.mUpdatePeriod > 0 → ∀ server pos fuel, server + t.mUpdatePeriod < 4294967296 →
      (server + t.mUpdatePeriod - pos) / t.mUpdatePeriod < fuel →
      (Track.newPosLoop server t.mUpdatePeriod fuel pos).isSome = true) := by
  obtain ⟨m1, m2, _⟩ := processCalls_marker calls t t' evs hrun hnot
  refine ⟨m2, m1, ?_, ?_⟩
  · intro hP last hlast
    obtain ⟨n, n1, n2, n3, n4⟩ := processCalls_newPos calls t t' evs hrun hnot hP hrange
    have hmem := List.mem_of_getLast?_eq_some hlast
    refine ⟨n, n1, fun k => ⟨fun hk => ?_, fun hk => ?_⟩, n2, n3 last hmem⟩
    · obtain ⟨c, hc, hle⟩ := n4 k hk
      exact Nat.le_trans hle (server_le_last calls hmono last hlast c hc)
    · have hlt := n3 last hmem
      rw [n2] at hlt
      have hmul : k * t.mUpdatePeriod < n * t.mUpdatePeriod := by omega
      exact Nat.lt_of_mul_lt_mul_right hmul
  · intro hP server pos fuel hs hfuel
    exact newPosLoop_total server t.mUpdatePeriod hP hs fuel pos hfuel

theorem processCalls_two (c1 c2 : Track.ThreadCall) (t : Track) (r1 r2 : Track.Processed)
    (h1 : Track.processAudioBuffer c1.fuel c1.written c1.audioBuffer { t with mCblk := c1.cblk } =
      some r1)
    (h2 : Track.processAudioBuffer c2.fuel c2.written c2.audioBuffer
      { r1.track with mCblk := c2.cblk } = some r2) :
    Track.processCalls [c1, c2] t = some ([r1.events, r2.events], r2.track) := by
  simp only [Track.processCalls, h1, h2]

theorem marked_first :
    Track.processAudioBuffer (Track.callAt 9000 5000 8).fuel (Track.callAt 9000 5000 8).written
        (Track.callAt 9000 5000 8).audioBuffer
        { Track.marked with mCblk := (Track.callAt 9000 5000 8).cblk } =
      some ⟨[Track.Event.EVENT_NEW_POS 2000, Track.Event.EVENT_NEW_POS 4000],
        { Track.marked with mCblk := (Track.callAt 9000 5000 8).cblk, mNewPosition := 6000 },
        true, true⟩ := by
  unfold Track.processAudioBuffer
  simp only [loopEndLoop_closed _ _ _ rfl]
  decide

theorem marked_second :
    Track.processAudioBuffer (Track.callAt 16000 15000 8).fuel
        (Track.callAt 16000 15000 8).written (Track.callAt 16000 15000 8).audioBuffer
        { Track.marked with mCblk := (Track.callAt 16000 15000 8).cblk, mNewPosition := 6000 } =
      some ⟨[Track.Event.EVENT_MARKER 10000, Track.Event.EVENT_NEW_POS 6000,
          Track.Event.EVENT_NEW_POS 8000, Track.Event.EVENT_NEW_POS 10000,
          Track.Event.EVENT_NEW_POS 12000, Track.Event.EVENT_NEW_POS 14000],
        { Track.marked with
            mCblk := (Track.callAt 16000 15000 8).cblk, mMarkerPosition := 0,
            mNewPosition := 16000 },
        true, true⟩ := by
  unfold Track.processAudioBuffer
  simp only [loopEndLoop_closed _ _ _ rfl]
  decide

theorem marked_run :
    Track.processCalls [Track.callAt 9000 5000 8, Track.callAt 16000 15000 8] Track.marked =
      some ([[Track.Event.EVENT_NEW_POS 2000, Track.Event.EVENT_NEW_POS 4000],
          [Track.Event.EVENT_MARKER 10000, Track.Event.EVENT_NEW_POS 6000,
            Track.Event.EVENT_NEW_POS 8000, Track.Event.EVENT_NEW_POS 10000,
            Track.Event.EVENT_NEW_POS 12000, Track.Event.EVENT_NEW_POS 14000]],
        { Track.marked with
            mCblk := (Track.callAt 16000 15000 8).cblk, mMarkerPosition := 0,
            mNewPosition := 16000 }) :=
  processCalls_two _ _ _ _ _ marked_first marked_second

/-- C18, amended, at a concrete run: marker 10000, period 2000, first
position 2000, and two calls that find the server at 5000 and at 15000.  The
marker fires at the second call only, and the new-position payloads are
`2000, 4000, ..., 14000`, leaving `mNewPosition = 16000`. -/
theorem processCalls_position_events_witness :
    [[Track.Event.EVENT_NEW_POS 2000, Track.Event.EVENT_NEW_POS 4000],
        [Track.Event.EVENT_MARKER 10000, Track.Event.EVENT_NEW_POS 6000,
          Track.Event.EVENT_NEW_POS 8000, Track.Event.EVENT_NEW_POS 10000,
          Track.Event.EVENT_NEW_POS 12000, Track.Event.EVENT_NEW_POS 14000]].map
        Track.markerPayloads = [[], [10000]] ∧
    ∃ n, Track.newPosPayloads
          [Track.Event.EVENT_NEW_POS 2000, Track.Event.EVENT_NEW_POS 4000,
            Track.Event.EVENT_MARKER 10000, Track.Event.EVENT_NEW_POS 6000,
            Track.Event.EVENT_NEW_POS 8000, Track.Event.EVENT_NEW_POS 10000,
            Track.Event.EVENT_NEW_POS 12000, Track.Event.EVENT_NEW_POS 14000] =
          (List.range n).map (fun k => 2000 + k * 2000) ∧
      (∀ k, k < n ↔ 2000 + k * 2000 ≤ 15000) ∧
      16000 = 2000 + n * 2000 ∧ 15000 < 16000 :=
  ⟨(processCalls_position_events
      [Track.callAt 9000 5000 8, Track.callAt 16000 15000 8] Track.marked _ _ marked_run
      (by decide) (by decide) (by decide)).2.1.trans (by decide),
    (processCalls_position_events
      [Track.callAt 9000 5000 8, Track.callAt 16000 15000 8] Track.marked _ _ marked_run
      (by decide) (by decide) (by decide)).2.2.1 (by decide) _ rfl⟩

/-! ### The consumer cursor -/

/-- C21, as stated, fails: on the playback block of `partlyFilled`
(`user = 5`, `server = 2`, no loop), `stepServer(10)` with the lock acquired
returns `true` and stores `server = 5`, the value of `user`, not
`server + n = 12`, although 12 is below `loopEnd`. -/
theorem stepServer_clamp_counterexample :
    Track.partlyFilled.mCblk.out ≠ 0 ∧
    u32 (Track.partlyFilled.mCblk.server + 10) = 12 ∧
    12 < Track.partlyFilled.mCblk.loopEnd ∧
    (Track.partlyFilled.mCblk.stepServer TryLock.acquired TryLock.acquired 10).1 = true ∧
    (Track.partlyFilled.mCblk.stepServer TryLock.acquired TryLock.acquired 10).2.server = 5 := by
  decide

/-- C21, amended: when `stepServer(n)` acquires the lock, at the first
attempt or at the retry that follows `-EBUSY`, it returns `true`.  With
`s = server + n` modulo `2 ^ 32`, replaced by `user` on a playback block when
it exceeds `user`: if `s < loopEnd` the new server is `s` and the loop fields
are unchanged; if `s ≥ loopEnd` the new server is `loopStart`, `loopCount` is
decremented (as a 32-bit integer) and the loop is cleared
(`loopStart = loopEnd = UINT_MAX`) when `loopCount` becomes 0.  `serverBase`
is increased by `frameCount` (modulo `2 ^ 32`) exactly when the new server is
at least `serverBase + frameCount`; no other field changes.  When the lock is
not acquired the call returns `false` and changes nothing. -/
theorem stepServer_result (c : audio_track_cblk_t) (first second : TryLock) (n : Nat) :
    c.serverTarget n =
      (if c.out ≠ 0 ∧ u32 (c.server + n) > c.user then c.user else u32 (c.server + n)) ∧
    (first = TryLock.acquired ∨ (first = TryLock.busy ∧ second = TryLock.acquired) →
      (c.stepServer first second n).1 = true ∧
      (c.serverTarget n < c.loopEnd →
        (c.stepServer first second n).2 =
          { c with
              server := c.serverTarget n,
              serverBase :=
                if c.serverTarget n ≥ u32 (c.serverBase + c.frameCount) then
                  u32 (c.serverBase + c.frameCount)
                else c.serverBase }) ∧
      (c.serverTarget n ≥ c.loopEnd →
        (c.stepServer first second n).2 =
          { c with
              server := c.loopStart,
              loopCount := i32 (c.loopCount - 1),
              loopStart := if i32 (c.loopCount - 1) = 0 then UINT_MAX else c.loopStart,
              loopEnd := if i32 (c.loopCount - 1) = 0 then UINT_MAX else c.loopEnd,
              serverBase :=
                if c.loopStart ≥ u32 (c.serverBase + c.frameCount) then
                  u32 (c.serverBase + c.frameCount)
                else c.serverBase })) ∧
    (¬ (first = TryLock.acquired ∨ (first = TryLock.busy ∧ second = TryLock.acquired)) →
      c.stepServer first second n = (false, c)) := by
  refine ⟨rfl, ?_, ?_⟩
  · intro hacq
    have herr : (if first = TryLock.busy then second else first) = TryLock.acquired := by
      rcases hacq with h | ⟨h1, h2⟩
      · rw [h]; rfl
      · rw [if_pos h1]; exact h2
    have hstep : c.stepServer first second n = (true, c.stepServerLocked n) := by
      simp only [stepServer, herr, ne_eq, not_true_eq_false, if_false]
    rw [hstep]
    refine ⟨rfl, ?_, ?_⟩
    · intro hlt
      have hlt2 : ¬ (if c.out ≠ 0 ∧ u32 (c.server + n) > c.user then c.user
          else u32 (c.server + n)) ≥ c.loopEnd := Nat.not_le.mpr hlt
      simp only [stepServerLocked, serverTarget]
      rw [if_neg hlt2]
    · intro hge
      have hge2 : (if c.out ≠ 0 ∧ u32 (c.server + n) > c.user then c.user
          else u32 (c.server + n)) ≥ c.loopEnd := hge
      simp only [stepServerLocked]
      rw [if_pos hge2]
      by_cases h0 : i32 (c.loopCount - 1) = 0
      · rw [if_pos h0, if_pos h0, if_pos h0]
      · rw [if_neg h0, if_neg h0, if_neg h0]
  · intro hnot
    have herr : (if first = TryLock.busy then second else first) ≠ TryLock.acquired := by
      intro h
      apply hnot
      by_cases hb : first = TryLock.busy
      · rw [if_pos hb] at h
        exact Or.inr ⟨hb, h⟩
      · rw [if_neg hb] at h
        exact Or.inl h
    simp only [stepServer, herr, ne_eq, not_false_eq_true, if_true]

/-- C21, amended, at concrete blocks: a plain step of 2 frames on
`partlyFilled`, acquired at the retry, and a step of 5 frames that reaches the
loop end on `loopingShared`. -/
theorem stepServer_result_witness :
    (Track.partlyFilled.mCblk.stepServer TryLock.busy TryLock.acquired 2).1 = true ∧
    (Track.partlyFilled.mCblk.stepServer TryLock.busy TryLock.acquired 2).2 =
      { Track.partlyFilled.mCblk with server := 4 } ∧
    (Track.loopingShared.mCblk.stepServer TryLock.acquired TryLock.acquired 5).2 =
      { Track.loopingShared.mCblk with server := 0, loopCount := 1 } ∧
    Track.partlyFilled.mCblk.stepServer TryLock.busy TryLock.busy 2 =
      (false, Track.partlyFilled.mCblk) :=
  ⟨((stepServer_result Track.partlyFilled.mCblk TryLock.busy TryLock.acquired 2).2.1
      (by decide)).1,
    (((stepServer_result Track.partlyFilled.mCblk TryLock.busy TryLock.acquired 2).2.1
      (by decide)).2.1 (by decide)).trans (by decide),
    (((stepServer_result Track.loopingShared.mCblk TryLock.acquired TryLock.acquired 5).2.1
      (by decide)).2.2 (by decide)).trans (by decide),
    (stepServer_result Track.partlyFilled.mCblk TryLock.busy TryLock.busy 2).2.2 (by decide)⟩

/-! ### The expansion in place -/

theorem expandDownLoop_spec (raw count : Nat) :
    ∀ pcm : Track.Pcm,
      (∀ i, i < count →
        Track.load16 (Track.expandDownLoop count (2 * raw + count - 1) (raw + count - 1) pcm)
          (raw + i) = Track.expand8to16 (pcm (2 * raw + i))) ∧
      (∀ a, a < 2 * raw ∨ 2 * raw + 2 * count ≤ a →
        Track.expandDownLoop count (2 * raw + count - 1) (raw + count - 1) pcm a = pcm a) := by
  induction count with
  | zero =>
    intro pcm
    exact ⟨fun i hi => absurd hi (Nat.not_lt_zero i), fun a _ => rfl⟩
  | succ k ih =>
    intro pcm
    have e1 : 2 * raw + (k + 1) - 1 = 2 * raw + k := by omega
    have e2 : raw + (k + 1) - 1 = raw + k := by omega
    simp only [Track.expandDownLoop, e1, e2]
    obtain ⟨i1, i2⟩ := ih (Track.store16 pcm (raw + k) (Track.expand8to16 (pcm (2 * raw + k))))
    have hv : Track.expand8to16 (pcm (2 * raw + k)) < 65536 := by
      simp only [Track.expand8to16]
      omega
    constructor
    · intro i hi
      by_cases hik : i < k
      · rw [i1 i hik]
        simp only [Track.store16]
        rw [if_neg (by omega), if_neg (by omega)]
      · have hk : i = k := by omega
        subst hk
        simp only [Track.load16]
        rw [i2 _ (Or.inr (by omega)), i2 _ (Or.inr (by omega))]
        exact load16_store16 pcm (raw + i) _ hv
    · intro a ha
      rw [i2 a (by omega)]
      simp only [Track.store16]
      rw [if_neg (by omega), if_neg (by omega)]

theorem fillLoop_converts (w : Nat) (written : List Nat) (t : Track) (audioBuffer b : Buffer)
    (frames writtenSize : Nat) (st : Status) (pcm : Track.Pcm) (req rel : Buffer) (size : Nat)
    (hob : t.obtainBuffer { audioBuffer with frameCount := frames } false [] = some (st, b, t))
    (hst : ¬ (st.isNegative = true ∧ st ≠ Status.WOULD_BLOCK)) (hstop : st ≠ Status.STOPPED)
    (hsize : b.size ≠ 0) (hw : ¬ (u32 w = 0 ∨ u32 w ≥ 2147483648))
    (hreq : req = if t.mFormat = PCM_8_BIT then { b with size := b.size / 2 } else b)
    (hclamp : size = if u32 w > req.size then req.size else u32 w)
    (hrel : rel = (Track.convertWritten t req size pcm).2) :
    Track.fillLoop (w :: written) t audioBuffer frames writtenSize =
      (if sub32 frames rel.frameCount ≠ 0 then
        (Track.fillLoop written (t.releaseBuffer rel) rel (sub32 frames rel.frameCount)
          rel.size).map
          (fun r => { r with events := Track.Event.EVENT_MORE_DATA req :: r.events })
      else
        some ⟨[Track.Event.EVENT_MORE_DATA req], t.releaseBuffer rel,
          sub32 frames rel.frameCount, rel.size, false⟩) := by
  subst hrel hclamp hreq
  rw [Track.fillLoop]
  simp only [hob]
  rw [if_neg hst, if_neg hstop, if_neg hsize, if_neg hw]
  by_cases hf : t.mFormat = PCM_8_BIT
  · simp only [hf, if_true, Track.convertWritten]
    split_ifs with h1 h2 h2
    all_goals first
      | rfl
      | (cases Track.fillLoop written _ _ _ _ <;> rfl)
  · simp only [hf, if_false, Track.convertWritten]
    split_ifs with h1 h2 h2
    all_goals first
      | rfl
      | (cases Track.fillLoop written _ _ _ _ <;> rfl)

/-- C22: with `PCM_8_BIT`, the descending expansion in place that
`processAudioBuffer` runs on the `w` bytes `B_0 .. B_{w-1}` left by the
callback at the start of the region (`0 ≤ w < 2 ^ 31`) gives the same samples
as the out-of-place conversion: afterwards the 16-bit sample of index `i` of
the region is `(B_i XOR 0x80) << 8` cut to 16 bits for every `i < w`, although
source and destination overlap, and nothing outside the `2 w` bytes of the
region is changed.  The descriptor passed to `releaseBuffer` has
`size = 2 w` and `frameCount = 2 w / channelCount / 2`, and it is the
descriptor that the fill loop releases after a callback that reported a
valid size. -/
theorem expansion_in_place (t : Track) (audioBuffer : Buffer) (w : Nat) (pcm : Track.Pcm)
    (hfmt : t.mFormat = PCM_8_BIT) (hw : w < 2147483648)
    (hbytes : ∀ i, i < w → pcm (2 * audioBuffer.raw + i) < 256) :
    (List.range w).map
        (fun i => Track.load16 (Track.convertWritten t audioBuffer w pcm).1
          (audioBuffer.raw + i)) =
      Track.convertOutOfPlace ((List.range w).map (fun i => pcm (2 * audioBuffer.raw + i))) ∧
    (∀ a, a < 2 * audioBuffer.raw ∨ 2 * audioBuffer.raw + 2 * w ≤ a →
      (Track.convertWritten t audioBuffer w pcm).1 a = pcm a) ∧
    (Track.convertWritten t audioBuffer w pcm).2.size = 2 * w ∧
    (Track.convertWritten t audioBuffer w pcm).2.frameCount = 2 * w / t.mChannelCount / 2 ∧
    (∀ (reported : Nat) (written : List Nat) (local0 b : Buffer) (frames writtenSize : Nat)
        (st : Status) (size : Nat) (rel : Buffer),
      t.obtainBuffer { local0 with frameCount := frames } false [] = some (st, b, t) →
      ¬ (st.isNegative = true ∧ st ≠ Status.WOULD_BLOCK) → st ≠ Status.STOPPED →
      b.size ≠ 0 → ¬ (u32 reported = 0 ∨ u32 reported ≥ 2147483648) →
      size = (if u32 reported > b.size / 2 then b.size / 2 else u32 reported) →
      rel = (Track.convertWritten t { b with size := b.size / 2 } size pcm).2 →
      rel.size = 2 * size ∧
      Track.fillLoop (reported :: written) t local0 frames writtenSize =
        (if sub32 frames rel.frameCount ≠ 0 then
          (Track.fillLoop written (t.releaseBuffer rel) rel (sub32 frames rel.frameCount)
            rel.size).map
            (fun r => { r with events :=
                          Track.Event.EVENT_MORE_DATA { b with size := b.size / 2 } :: r.events })
        else
          some ⟨[Track.Event.EVENT_MORE_DATA { b with size := b.size / 2 }],
            t.releaseBuffer rel, sub32 frames rel.frameCount, rel.size, false⟩)) := by
  have hsz : ∀ n, n < 2147483648 → u32 (n * 2) = 2 * n := by
    intro n hn
    simp only [u32]
    omega
  obtain ⟨s1, s2⟩ := expandDownLoop_spec audioBuffer.raw w pcm
  refine ⟨?_, ?_, ?_, ?_, ?_⟩
  · simp only [Track.convertOutOfPlace, Track.convertWritten, hfmt, if_true, List.map_map]
    apply List.map_congr_left
    intro i hi
    have hi2 : i < w := List.mem_range.mp hi
    simp only [Function.comp]
    rw [s1 i hi2]
    exact (expand8to16_table ⟨_, hbytes i hi2⟩).1
  · intro a ha
    simp only [Track.convertWritten, hfmt, if_true]
    exact s2 a ha
  · simp only [Track.convertWritten, hfmt, if_true]
    exact hsz w hw
  · simp only [Track.convertWritten, hfmt, if_true]
    rw [hsz w hw]
  · intro reported written local0 b frames writtenSize st size rel hob hst hstop hsize hrep
      hclamp hrel
    constructor
    · have hlt : size < 2147483648 := by
        rw [hclamp]
        split_ifs <;> omega
      rw [hrel]
      simp only [Track.convertWritten, hfmt, if_true]
      exact hsz size hlt
    · exact fillLoop_converts reported written t local0 b frames writtenSize st pcm
        { b with size := b.size / 2 } rel size hob hst hstop hsize hrep
        (by rw [if_pos hfmt]) hclamp hrel

/-- C22 at concrete bytes: the callback left `[0x00, 0x80, 0xFF]` at the
start of the region of a mono 8-bit track; the expansion in place leaves the
samples `[0x8000, 0x0000, 0x7F00]` and a descriptor of 6 bytes and 3 frames. -/
theorem expansion_in_place_witness :
    (List.range 3).map
        (fun i => Track.load16
          (Track.convertWritten Track.mono8 (Track.request 0) 3
            (fun a => [0, 128, 255].getD a 0)).1
          ((Track.request 0).raw + i)) = [32768, 0, 32512] ∧
    (Track.convertWritten Track.mono8 (Track.request 0) 3
      (fun a => [0, 128, 255].getD a 0)).2.size = 2 * 3 ∧
    (Track.convertWritten Track.mono8 (Track.request 0) 3
      (fun a => [0, 128, 255].getD a 0)).2.frameCount = 3 :=
  ⟨((expansion_in_place Track.mono8 (Track.request 0) 3 (fun a => [0, 128, 255].getD a 0)
      (by decide) (by decide) (by decide)).1).trans (by decide),
    (expansion_in_place Track.mono8 (Track.request 0) 3 (fun a => [0, 128, 255].getD a 0)
      (by decide) (by decide) (by decide)).2.2.1,
    ((expansion_in_place Track.mono8 (Track.request 0) 3 (fun a => [0, 128, 255].getD a 0)
      (by decide) (by decide) (by decide)).2.2.2.1).trans (by decide)⟩

/-! ### The ring under the acquisition protocol -/

theorem ring_granted (c : audio_track_cblk_t) (req : Nat) (h : c.RingState) (hw : c.NoWrap) :
    (c.stepUser (Track.grantedFrames c req c.framesAvailable_l)).2.RingState ∧
    Track.grantedFrames c req c.framesAvailable_l ≤ req ∧
    Track.grantedFrames c req c.framesAvailable_l ≤ c.framesAvailable_l ∧
    (c.framesAvailable_l ≠ 0 → req > 0 → Track.grantedFrames c req c.framesAvailable_l > 0) := by
  obtain ⟨ho, hs, he, h1, h2, h3, h4⟩ := h
  obtain ⟨w1, w2⟩ := hw
  have hfa : c.framesAvailable_l = c.server + c.frameCount - c.user := by
    simp only [framesAvailable_l, ho, hs, he, ne_eq, not_false_eq_true, if_true, u32, sub32,
      UINT_MAX]
    split_ifs <;> omega
  rw [hfa]
  generalize hg : Track.grantedFrames c req (c.server + c.frameCount - c.user) = g
  have hgb : g ≤ req ∧ g ≤ c.server + c.frameCount - c.user ∧
      c.user + g ≤ c.userBase + c.frameCount ∧
      (c.server + c.frameCount - c.user ≠ 0 → req > 0 → g > 0) := by
    rw [← hg]
    simp only [Track.grantedFrames, u32, sub32]
    split_ifs <;> refine ⟨?_, ?_, ?_, ?_⟩ <;> omega
  obtain ⟨g1, g2, g3, g4⟩ := hgb
  refine ⟨?_, g1, g2, g4⟩
  have hu : (c.stepUser g).2.user = c.user + g := by
    rw [stepUser_playback_user c g ho]
    exact Nat.mod_eq_of_lt (by omega)
  have hb : (c.stepUser g).2.userBase =
      (if c.user + g ≥ c.userBase + c.frameCount then c.userBase + c.frameCount
       else c.userBase) := by
    simp only [stepUser, ho, false_and, if_false, u32]
    rw [Nat.mod_eq_of_lt (show c.user + g < 4294967296 by omega),
      Nat.mod_eq_of_lt w2]
  refine ⟨ho, hs, he, ?_, ?_, ?_, ?_⟩
  · rw [hu]
    show c.server ≤ c.user + g
    omega
  · rw [hu]
    show c.user + g ≤ c.server + c.frameCount
    omega
  · rw [hu, hb]
    split_ifs <;> omega
  · rw [hu, hb]
    show c.user + g - _ < c.frameCount
    split_ifs <;> omega

theorem ring_released_nothing (c : audio_track_cblk_t) (h : c.RingState) (hw : c.NoWrap) :
    (c.stepUser 0).2.RingState := by
  obtain ⟨ho, hs, he, h1, h2, h3, h4⟩ := h
  obtain ⟨w1, w2⟩ := hw
  have hu : (c.stepUser 0).2.user = c.user := by
    rw [stepUser_playback_user c 0 ho]
    exact Nat.mod_eq_of_lt (by omega)
  have hb : (c.stepUser 0).2.userBase = c.userBase := by
    simp only [stepUser, ho, false_and, if_false, u32, Nat.add_zero]
    rw [Nat.mod_eq_of_lt (show c.user < 4294967296 by omega), Nat.mod_eq_of_lt w2]
    rw [if_neg (by omega)]
  refine ⟨ho, hs, he, ?_, ?_, ?_, ?_⟩
  · rw [hu]; exact h1
  · rw [hu]; exact h2
  · rw [hu, hb]; exact h3
  · rw [hu, hb]; exact h4

theorem waitLoop_cblk (P : audio_track_cblk_t → Prop) (blocking : Bool)
    (ws : List Track.Wakeup) :
    ∀ (t t' : Track) (x : Sum Status Nat), P t.mCblk → (∀ w ∈ ws, P w.cblk) →
      Track.waitLoop blocking ws t = some (x, t') → P t'.mCblk := by
  induction ws with
  | nil =>
    intro t t' x hp _ h
    rw [waitLoop_nil] at h
    split_ifs at h <;> simp only [Option.some.injEq, Prod.mk.injEq, reduceCtorEq] at h <;>
      obtain ⟨_, rfl⟩ := h <;> exact hp
  | cons w ws ih =>
    intro t t' x hp henv h
    rw [waitLoop_cons] at h
    split_ifs at h
    · simp only [Option.some.injEq, Prod.mk.injEq] at h
      obtain ⟨_, rfl⟩ := h
      exact hp
    · simp only [Option.some.injEq, Prod.mk.injEq] at h
      obtain ⟨_, rfl⟩ := h
      exact hp
    · exact ih (t.afterWait w) t' x (henv w (List.mem_cons_self w ws))
        (fun v hv => henv v (List.mem_cons_of_mem w hv)) h
    · simp only [Option.some.injEq, Prod.mk.injEq] at h
      obtain ⟨_, rfl⟩ := h
      exact hp

/-- C23: let the control block of the track, and every control block found
after a wait, be a playback block without loop in which
`server ≤ user ≤ server + frameCount` and `user - userBase < frameCount`,
with `server + frameCount` and `userBase + frameCount` below `2 ^ 32`.  Then
for every request, `releaseBuffer` of the descriptor returned by
`obtainBuffer` leaves a control block with both conditions again, the
returned `frameCount` is at most the request, and it is positive whenever a
buffer is obtained (`NO_ERROR` or `STOPPED`) for a positive request.  When
`framesAvailable()` is positive at the call, `obtainBuffer` returns without
waiting, and the returned `frameCount` is positive for a positive
request. -/
theorem obtain_release_ring (t : Track) (audioBuffer : Buffer) (blocking : Bool)
    (ws : List Track.Wakeup)
    (hring : t.mCblk.RingState) (hwrap : t.mCblk.NoWrap)
    (henv : ∀ w ∈ ws, w.cblk.RingState ∧ w.cblk.NoWrap) :
    (∀ st b t', t.obtainBuffer audioBuffer blocking ws = some (st, b, t') →
      (t'.releaseBuffer b).mCblk.RingState ∧
      b.frameCount ≤ audioBuffer.frameCount ∧
      (st = Status.NO_ERROR ∨ st = Status.STOPPED → audioBuffer.frameCount > 0 →
        b.frameCount > 0)) ∧
    (t.mCblk.framesAvailable > 0 →
      ∃ st b, t.obtainBuffer audioBuffer blocking ws = some (st, b, t) ∧
        (st = Status.NO_ERROR ∨ st = Status.STOPPED) ∧
        (audioBuffer.frameCount > 0 → b.frameCount > 0) ∧
        (t.releaseBuffer b).mCblk.RingState) := by
  have hmain : ∀ st b t', t.obtainBuffer audioBuffer blocking ws = some (st, b, t') →
      (t'.releaseBuffer b).mCblk.RingState ∧
      b.frameCount ≤ audioBuffer.frameCount ∧
      (st = Status.NO_ERROR ∨ st = Status.STOPPED → audioBuffer.frameCount > 0 →
        b.frameCount > 0) := by
    intro st b t' h
    simp only [Track.obtainBuffer] at h
    rw [obtainBuffer_waited t blocking ws] at h
    cases hw : Track.waitLoop blocking ws t with
    | none => simp [hw] at h
    | some r =>
      obtain ⟨x, t2⟩ := r
      have hp := waitLoop_cblk (fun c => c.RingState ∧ c.NoWrap) blocking ws t t2 x
        ⟨hring, hwrap⟩ henv hw
      cases x with
      | inl e =>
        simp only [hw, Option.some.injEq, Prod.mk.injEq] at h
        obtain ⟨rfl, rfl, rfl⟩ := h
        refine ⟨ring_released_nothing _ hp.1 hp.2, Nat.zero_le _, fun hst _ => ?_⟩
        rcases waitLoop_inl blocking ws t _ _ hw with h2 | h2 <;> rcases hst with h1 | h1 <;>
          rw [h1] at h2 <;> exact absurd h2 (by decide)
      | inr fa =>
        simp only [hw, Option.some.injEq, Prod.mk.injEq] at h
        obtain ⟨e1, e2, _, _⟩ := waitLoop_inr blocking ws t t2 fa hw
        obtain ⟨rfl, rfl, rfl⟩ := h
        subst e1
        obtain ⟨g1, g2, _, g4⟩ := ring_granted t2.mCblk audioBuffer.frameCount hp.1 hp.2
        exact ⟨g1, g2, fun _ hreq => g4 e2 hreq⟩
  refine ⟨hmain, fun hav => ?_⟩
  have hne : t.mCblk.framesAvailable_l ≠ 0 := by
    simp only [framesAvailable] at hav
    omega
  have hob : t.obtainBuffer audioBuffer blocking ws =
      some (if t.mActive ≠ 0 then Status.NO_ERROR else Status.STOPPED,
        { flags := if t.mMuted then MUTE else 0,
          channelCount := t.mChannelCount,
          format := PCM_16_BIT,
          frameCount :=
            Track.grantedFrames t.mCblk audioBuffer.frameCount t.mCblk.framesAvailable_l,
          size := u32 (u32 (Track.grantedFrames t.mCblk audioBuffer.frameCount
            t.mCblk.framesAvailable_l * t.mChannelCount) * 2),
          raw := t.mCblk.buffer t.mCblk.user }, t) := by
    simp only [Track.obtainBuffer]
    rw [obtainBuffer_waited t blocking ws, waitLoop_of_avail blocking ws t hne]
  have hst : (if t.mActive ≠ 0 then Status.NO_ERROR else Status.STOPPED) = Status.NO_ERROR ∨
      (if t.mActive ≠ 0 then Status.NO_ERROR else Status.STOPPED) = Status.STOPPED := by
    split_ifs
    · exact Or.inl rfl
    · exact Or.inr rfl
  obtain ⟨m1, _, m3⟩ := hmain _ _ _ hob
  exact ⟨_, _, hob, hst, m3 hst, m1⟩

/-- C23 at a concrete track: on `partlyFilled` (ring of 8 frames, `user = 5`,
`server = 2`) a request for 100 frames obtains the 3 frames left before the
end of the ring, and the release moves `user` and `userBase` to 8. -/
theorem obtain_release_ring_witness :
    ∃ st b, Track.partlyFilled.obtainBuffer (Track.request 100) true [] =
        some (st, b, Track.partlyFilled) ∧
      (st = Status.NO_ERROR ∨ st = Status.STOPPED) ∧
      ((Track.request 100).frameCount > 0 → b.frameCount > 0) ∧
      (Track.partlyFilled.releaseBuffer b).mCblk.RingState :=
  (obtain_release_ring Track.partlyFilled (Track.request 100) true [] (by decide) (by decide)
    (by decide)).2 (by decide)

/-! ### Termination of `write` -/

theorem obtainBuffer_of_avail (t : Track) (audioBuffer : Buffer) (blocking : Bool)
    (ws : List Track.Wakeup) (hne : t.mCblk.framesAvailable_l ≠ 0) :
    t.obtainBuffer audioBuffer blocking ws =
      some (if t.mActive ≠ 0 then Status.NO_ERROR else Status.STOPPED,
        { flags := if t.mMuted then MUTE else 0,
          channelCount := t.mChannelCount,
          format := PCM_16_BIT,
          frameCount :=
            Track.grantedFrames t.mCblk audioBuffer.frameCount t.mCblk.framesAvailable_l,
          size := u32 (u32 (Track.grantedFrames t.mCblk audioBuffer.frameCount
            t.mCblk.framesAvailable_l * t.mChannelCount) * 2),
          raw := t.mCblk.buffer t.mCblk.user }, t) := by
  simp only [Track.obtainBuffer]
  rw [obtainBuffer_waited t blocking ws, waitLoop_of_avail blocking ws t hne]

theorem stepUser_zero_ring (c : audio_track_cblk_t) (h : c.RingState) (hw : c.NoWrap) :
    (c.stepUser 0).2 = { c with flowControlFlag := 0 } := by
  obtain ⟨ho, hs, he, h1, h2, h3, h4⟩ := h
  obtain ⟨w1, w2⟩ := hw
  simp only [stepUser, ho, false_and, if_false, u32, Nat.add_zero]
  rw [Nat.mod_eq_of_lt (show c.user < 4294967296 by omega), Nat.mod_eq_of_lt w2]
  rw [if_neg (by omega)]

theorem writeLoop_stuck (src : List Nat) (envs : List (List Track.Wakeup)) :
    ∀ (t : Track) (pcm : Track.Pcm) (audioBuffer : Buffer) (userSize srcPos : Nat)
      (written : Int),
      t.mCblk.RingState → t.mCblk.NoWrap → t.mCblk.user < t.mCblk.server + t.mCblk.frameCount →
      0 < userSize → userSize < 4294967296 → t.requestedFrames userSize = 0 →
      (Track.writeLoop src envs t pcm audioBuffer userSize srcPos written).result = none := by
  induction envs with
  | nil =>
    intro t pcm audioBuffer userSize srcPos written _ _ _ _ _ _
    rfl
  | cons ws envs ih =>
    intro t pcm audioBuffer userSize srcPos written hring hwrap hfree hpos hlt hreq
    have hne : t.mCblk.framesAvailable_l ≠ 0 := by
      obtain ⟨ho, hs, he, h1, h2, h3, h4⟩ := hring
      obtain ⟨w1, w2⟩ := hwrap
      simp only [framesAvailable_l, ho, hs, he, ne_eq, not_false_eq_true, if_true, u32, sub32,
        UINT_MAX]
      split_ifs <;> omega
    have hob := obtainBuffer_of_avail t
      { audioBuffer with frameCount := t.requestedFrames userSize } true ws hne
    have hg : Track.grantedFrames t.mCblk (t.requestedFrames userSize)
        t.mCblk.framesAvailable_l = 0 := by
      have := (ring_granted t.mCblk (t.requestedFrames userSize) hring hwrap).2.1
      rw [hreq] at this
      rw [hreq]
      omega
    simp only [hg, Nat.zero_mul, Nat.zero_mod] at hob
    have hto : ∀ b : Buffer, b.size = 0 → Track.toWrite t b = 0 := by
      intro b hb
      simp only [Track.toWrite, hb]
      split_ifs <;> rfl
    have hsub : sub32 userSize 0 = userSize := by
      simp only [sub32]
      omega
    rcases writeLoop_step src ws envs t pcm audioBuffer userSize srcPos written with
      h | ⟨b, t1, h1, _⟩ | ⟨st, b, t1, h1, _, h3, _⟩ | ⟨st, b, t1, pcm1, h1, _, _, h4, _⟩
    · exact h
    · rw [hob] at h1
      simp only [Option.some.injEq, Prod.mk.injEq] at h1
      have := h1.1
      split_ifs at this
    · rw [hob] at h1
      simp only [Option.some.injEq, Prod.mk.injEq] at h1
      obtain ⟨_, rfl, rfl⟩ := h1
      rw [hto _ rfl, hsub] at h3
      omega
    · rw [hob] at h1
      simp only [Option.some.injEq, Prod.mk.injEq] at h1
      obtain ⟨_, rfl, rfl⟩ := h1
      rw [h4, hto _ rfl, hsub]
      have hrel : ∀ b : Buffer, b.frameCount = 0 →
          t.releaseBuffer b = { t with mCblk := { t.mCblk with flowControlFlag := 0 } } := by
        intro b hb
        simp only [Track.releaseBuffer, hb, stepUser_zero_ring t.mCblk hring hwrap]
      rw [hrel _ rfl]
      exact ih _ _ _ _ _ _ hring hwrap hfree hpos hlt hreq

/-- C24 fails on the code: on the active 16-bit stereo track `playing`
(frame size 4, 5 frames free) `write` never returns when the size is not a
multiple of the frame size.  With 3 bytes the first `obtainBuffer` call
already asks for 0 frames; with 7 bytes the first call obtains one frame and
leaves 3 bytes.  From then on every `obtainBuffer` call asks for
`userSize / channelCount / 2 = 0` frames, returns `NO_ERROR` with 0 frames
without waiting, `toWrite` is 0 and `userSize` stays non-zero: whatever the
number of iterations and the wake-ups offered, the loop has not ended. -/
theorem write_partial_frame_never_returns (src : List Nat) (pcm : Track.Pcm)
    (audioBuffer : Buffer) (envs : List (List Track.Wakeup)) :
    Track.playing.frameSize = 4 ∧
    (Track.playing.write src 3 pcm audioBuffer envs).result = none ∧
    (Track.playing.write src 7 pcm audioBuffer envs).result = none := by
  refine ⟨by decide, ?_, ?_⟩
  · have hw : Track.playing.write src 3 pcm audioBuffer envs =
        Track.writeLoop src envs Track.playing pcm audioBuffer 3 0 0 := rfl
    rw [hw]
    exact writeLoop_stuck src envs Track.playing pcm audioBuffer 3 0 0 (by decide) (by decide)
      (by decide) (by decide) (by decide) (by decide)
  · have hw : Track.playing.write src 7 pcm audioBuffer envs =
        Track.writeLoop src envs Track.playing pcm audioBuffer 7 0 0 := rfl
    rw [hw]
    cases envs with
    | nil => rfl
    | cons ws envs =>
      have hob := obtainBuffer_of_avail Track.playing
        { audioBuffer with frameCount := Track.playing.requestedFrames 7 } true ws (by decide)
      rcases writeLoop_step src ws envs Track.playing pcm audioBuffer 7 0 0 with
        h | ⟨b, t1, h1, _⟩ | ⟨st, b, t1, h1, _, h3, _⟩ | ⟨st, b, t1, pcm1, h1, _, _, h4, _⟩
      · exact h
      · rw [hob] at h1
        simp only [Option.some.injEq, Prod.mk.injEq] at h1
        exact absurd h1.1 (by decide)
      · rw [hob] at h1
        simp only [Option.some.injEq, Prod.mk.injEq] at h1
        obtain ⟨_, rfl, rfl⟩ := h1
        exact absurd h3 (by decide)
      · rw [hob] at h1
        simp only [Option.some.injEq, Prod.mk.injEq] at h1
        obtain ⟨_, rfl, rfl⟩ := h1
        rw [h4]
        exact writeLoop_stuck src envs _ _ _ _ _ _ (by decide) (by decide) (by decide)
          (by decide) (by decide) (by decide)

/-! ### The divisor of `minBufCount` -/

theorem minBufCount_short_block (latency : Nat) (frames rate : Int) (shared : Bool)
    (hf0 : 0 < frames) (hsmall : 1000 * frames < rate) (hr32 : rate < 2147483648) :
    Track.minBufCount latency frames rate shared = none := by
  have hi : i32 (1000 * frames) = 1000 * frames := by
    simp only [i32]; omega
  have ht : Int.tdiv (1000 * frames) rate = (1000 * frames) / rate :=
    Int.tdiv_eq_ediv (by omega) (by omega)
  have hz : (1000 * frames) / rate = 0 := Int.ediv_eq_zero_of_lt (by omega) hsmall
  simp only [Track.minBufCount, hi, ht, hz]
  rw [if_neg (by omega)]
  rfl

/-- C25 fails on the code: with the server defaults `serverSampleRate = 44100`
and `serverFrameCount = 32`, both positive, the divisor
`(1000 * serverFrameCount) / serverSampleRate` is `32000 / 44100 = 0`, so that
`set()` divides `afLatency` by zero: `minBufCount` has no value and neither
has the call. -/
theorem set_divides_by_zero :
    Track.shortBlockServer.outputSamplingRate = some 44100 ∧
    Track.shortBlockServer.outputFrameCount = some 32 ∧
    Track.toU32 (Int.tdiv (i32 (1000 * 32)) 44100) = 0 ∧
    Track.minBufCount 100 32 44100 false = none ∧
    Track.set none Track.shortBlockServer Track.defaultArgs = none := by
  refine ⟨by decide, by decide, by decide, by decide, by decide⟩

/-! ### Termination of `write` on whole frames -/

theorem waitLoop_ends (ws : List Track.Wakeup) (h : Track.EndsWait ws) :
    ∀ t : Track, Track.waitLoop true ws t ≠ none := by
  induction ws with
  | nil =>
    simp only [Track.EndsWait, List.getLast?_nil] at h
  | cons w ws ih =>
    intro t
    rw [waitLoop_cons]
    split_ifs with h1 h2 h3
    · exact fun hn => by cases hn
    · simp at h3
    · cases ws with
      | nil =>
        simp only [Track.EndsWait, List.getLast?_singleton] at h
        rw [waitLoop_nil]
        by_cases hf : (t.afterWait w).mCblk.framesAvailable_l = 0
        · rw [if_pos hf]
          have hf2 : w.cblk.framesAvailable_l = 0 := hf
          have ha : (t.afterWait w).mActive = 0 := by
            rcases h with h | h
            · exact absurd hf2 h
            · exact h
          rw [if_pos ha]
          exact fun hn => by cases hn
        · rw [if_neg hf]
          exact fun hn => by cases hn
      | cons w2 ws2 =>
        have h2 : Track.EndsWait (w2 :: ws2) := by
          simp only [Track.EndsWait, List.getLast?_cons_cons] at h ⊢
          exact h
        exact ih h2 (t.afterWait w)
    · exact fun hn => by cases hn

theorem obtainBuffer_ends (t : Track) (audioBuffer : Buffer) (ws : List Track.Wakeup)
    (h : Track.EndsWait ws) :
    ∃ st b t1, t.obtainBuffer audioBuffer true ws = some (st, b, t1) := by
  simp only [Track.obtainBuffer]
  rw [obtainBuffer_waited t true ws]
  cases hw : Track.waitLoop true ws t with
  | none => exact absurd hw (waitLoop_ends ws h t)
  | some r =>
    obtain ⟨x, t2⟩ := r
    cases x with
    | inl e => exact ⟨_, _, _, rfl⟩
    | inr fa => exact ⟨_, _, _, rfl⟩

theorem obtainBuffer_cblk (P : audio_track_cblk_t → Prop) (t t1 : Track)
    (audioBuffer b : Buffer) (blocking : Bool) (ws : List Track.Wakeup) (st : Status)
    (hp : P t.mCblk) (henv : ∀ w ∈ ws, P w.cblk)
    (h : t.obtainBuffer audioBuffer blocking ws = some (st, b, t1)) : P t1.mCblk := by
  simp only [Track.obtainBuffer] at h
  rw [obtainBuffer_waited t blocking ws] at h
  cases hw : Track.waitLoop blocking ws t with
  | none => simp [hw] at h
  | some r =>
    obtain ⟨x, t2⟩ := r
    have hp2 := waitLoop_cblk P blocking ws t t2 x hp henv hw
    cases x with
    | inl e =>
      simp only [hw, Option.some.injEq, Prod.mk.injEq] at h
      obtain ⟨_, _, rfl⟩ := h
      exact hp2
    | inr fa =>
      simp only [hw, Option.some.injEq, Prod.mk.injEq] at h
      obtain ⟨_, _, rfl⟩ := h
      exact hp2

theorem obtainBuffer_failed_frames (t t1 : Track) (audioBuffer b : Buffer) (blocking : Bool)
    (ws : List Track.Wakeup) (st : Status)
    (h : t.obtainBuffer audioBuffer blocking ws = some (st, b, t1))
    (hneg : st.isNegative = true) : b.frameCount = 0 := by
  simp only [Track.obtainBuffer] at h
  rw [obtainBuffer_waited t blocking ws] at h
  cases hw : Track.waitLoop blocking ws t with
  | none => simp [hw] at h
  | some r =>
    obtain ⟨x, t2⟩ := r
    cases x with
    | inl e =>
      simp only [hw, Option.some.injEq, Prod.mk.injEq] at h
      obtain ⟨_, rfl, _⟩ := h
      rfl
    | inr fa =>
      simp only [hw, Option.some.injEq, Prod.mk.injEq] at h
      obtain ⟨rfl, _, _⟩ := h
      split_ifs at hneg <;> simp [Status.isNegative] at hneg

theorem writeLoop_step_some (src : List Nat) (ws : List Track.Wakeup)
    (envs : List (List Track.Wakeup)) (t : Track) (pcm : Track.Pcm) (audioBuffer : Buffer)
    (userSize srcPos : Nat) (written : Int) (st : Status) (b : Buffer) (t1 : Track)
    (hob : t.obtainBuffer { audioBuffer with frameCount := t.requestedFrames userSize } true ws =
      some (st, b, t1)) :
    (st = Status.NO_MORE_BUFFERS ∧
      (Track.writeLoop src (ws :: envs) t pcm audioBuffer userSize srcPos written).result =
        some (Sum.inr written) ∧
      (Track.writeLoop src (ws :: envs) t pcm audioBuffer userSize srcPos written).calls =
        [⟨t, t.requestedFrames userSize, st, b, t1⟩]) ∨
    (st.isNegative = false ∧ sub32 userSize (Track.toWrite t1 b) = 0 ∧
      (Track.writeLoop src (ws :: envs) t pcm audioBuffer userSize srcPos written).result =
        some (Sum.inr (i32 (written + Track.toWrite t1 b))) ∧
      (Track.writeLoop src (ws :: envs) t pcm audioBuffer userSize srcPos written).calls =
        [⟨t, t.requestedFrames userSize, st, b, t1⟩]) ∨
    (∃ pcm1,
      st.isNegative = false ∧ sub32 userSize (Track.toWrite t1 b) ≠ 0 ∧
      (Track.writeLoop src (ws :: envs) t pcm audioBuffer userSize srcPos written).result =
        (Track.writeLoop src envs (t1.releaseBuffer b) pcm1 b
          (sub32 userSize (Track.toWrite t1 b)) (srcPos + Track.toWrite t1 b)
          (i32 (written + Track.toWrite t1 b))).result ∧
      (Track.writeLoop src (ws :: envs) t pcm audioBuffer userSize srcPos written).calls =
        ⟨t, t.requestedFrames userSize, st, b, t1⟩ ::
          (Track.writeLoop src envs (t1.releaseBuffer b) pcm1 b
            (sub32 userSize (Track.toWrite t1 b)) (srcPos + Track.toWrite t1 b)
            (i32 (written + Track.toWrite t1 b))).calls) := by
  have hcases := (obtainBuffer_cases t t1 _ b true ws st hob).2
  simp only [Track.requestedFrames] at hob
  rw [Track.writeLoop]
  simp only [Track.requestedFrames, hob]
  by_cases hneg : st.isNegative = true
  · have hnm : st = Status.NO_MORE_BUFFERS := by
      rcases hcases with h | h | h | h
      · rw [h] at hneg; simp [Status.isNegative] at hneg
      · rw [h] at hneg; simp [Status.isNegative] at hneg
      · exact h
      · exact absurd h.2 (by simp)
    subst hnm
    refine Or.inl ⟨rfl, ?_, ?_⟩ <;> simp [Status.isNegative]
  · have hneg2 : st.isNegative = false := by simpa using hneg
    by_cases hz : sub32 userSize (Track.toWrite t1 b) = 0
    · refine Or.inr (Or.inl ⟨hneg2, hz, ?_, ?_⟩) <;> simp [hneg2, hz]
    · refine Or.inr (Or.inr ⟨
        (if t1.mFormat = PCM_8_BIT then
          Track.expandLoop src (Track.toWrite t1 b) srcPos b.raw pcm
         else Track.memcpy pcm (2 * b.raw) src srcPos (Track.toWrite t1 b)),
        hneg2, hz, ?_, ?_⟩) <;>
        simp only [hneg2, hz, Bool.false_eq_true, if_false, ne_eq, not_false_eq_true,
          if_true]

theorem requestedFrames_eq (t : Track) (us : Nat)
    (hch : t.mChannelCount = 1 ∨ t.mChannelCount = 2)
    (hfmt : t.mFormat = PCM_8_BIT ∨ t.mFormat = PCM_16_BIT) :
    t.requestedFrames us = us / t.frameSize := by
  have h8 : (PCM_8_BIT : Int) ≠ PCM_16_BIT := by decide
  have h16 : (PCM_16_BIT : Int) ≠ PCM_8_BIT := by decide
  rcases hch with hc | hc <;> rcases hfmt with hf | hf
  all_goals
    simp only [Track.frameSize, Track.requestedFrames, hc, hf, h8, h16, if_true, if_false,
      Nat.mul_one, Nat.one_mul, Nat.div_one]
  all_goals first
    | rfl
    | omega

theorem frames_after_step (us g fs : Nat) (hfs : 0 < fs) (hmul : us % fs = 0) :
    (us - g * fs) / fs = us / fs - g := by
  have hq : us = us / fs * fs := (Nat.div_mul_cancel (Nat.dvd_of_mod_eq_zero hmul)).symm
  have h1 : us - g * fs = (us / fs - g) * fs := by
    rw [Nat.sub_mul, ← hq]
  rw [h1, Nat.mul_div_cancel _ hfs]

theorem ringRoom_step (c : audio_track_cblk_t) (req r : Nat) (h : c.RingRoom r)
    (hreq : req ≤ r) :
    (c.stepUser (Track.grantedFrames c req c.framesAvailable_l)).2.RingRoom
        (r - Track.grantedFrames c req c.framesAvailable_l) ∧
    Track.grantedFrames c req c.framesAvailable_l ≤ req ∧
    (c.framesAvailable_l ≠ 0 → req > 0 → Track.grantedFrames c req c.framesAvailable_l > 0) := by
  obtain ⟨hring, hs, hu⟩ := h
  have hwrap : c.NoWrap := by
    obtain ⟨_, _, _, _, _, h3, _⟩ := hring
    exact ⟨hs, by omega⟩
  obtain ⟨g1, g2, _, g4⟩ := ring_granted c req hring hwrap
  refine ⟨⟨g1, ?_, ?_⟩, g2, g4⟩
  · exact hs
  · have hu2 : (c.stepUser (Track.grantedFrames c req c.framesAvailable_l)).2.user =
        c.user + Track.grantedFrames c req c.framesAvailable_l := by
      rw [stepUser_playback_user c _ hring.1]
      exact Nat.mod_eq_of_lt (by omega)
    rw [hu2]
    show c.user + Track.grantedFrames c req c.framesAvailable_l +
      (r - Track.grantedFrames c req c.framesAvailable_l) + c.frameCount < 4294967296
    omega

theorem ringRoom_mono (c : audio_track_cblk_t) (r k : Nat) (h : c.RingRoom k) (hle : r ≤ k) :
    c.RingRoom r := by
  obtain ⟨h1, h2, h3⟩ := h
  exact ⟨h1, h2, by omega⟩

theorem writeLoop_terminates (src : List Nat) (k : Nat) (envs : List (List Track.Wakeup)) :
    ∀ (t : Track) (pcm : Track.Pcm) (audioBuffer : Buffer) (us srcPos : Nat) (written : Int),
      (t.mChannelCount = 1 ∨ t.mChannelCount = 2) →
      (t.mFormat = PCM_8_BIT ∨ t.mFormat = PCM_16_BIT) →
      us < 2147483648 → us % t.frameSize = 0 → us / t.frameSize ≤ k →
      t.mCblk.RingRoom (us / t.frameSize) →
      (∀ ws ∈ envs, ∀ w ∈ ws, w.cblk.RingRoom k) →
      (∀ ws ∈ envs, Track.EndsWait ws) →
      us / t.frameSize < envs.length →
      (Track.writeLoop src envs t pcm audioBuffer us srcPos written).result ≠ none ∧
      ∀ c ∈ (Track.writeLoop src envs t pcm audioBuffer us srcPos written).calls,
        c.buffer.frameCount ≤ c.requested := by
  induction envs with
  | nil =>
    intro t pcm ab us sp w _ _ _ _ _ _ _ _ hlen
    exact absurd hlen (Nat.not_lt_zero _)
  | cons ws envs ih =>
    intro t pcm ab us sp w hch hfmt hus hmul hk hroom henv hwake hlen
    obtain ⟨st, b, t1, hob⟩ := obtainBuffer_ends t
      { ab with frameCount := t.requestedFrames us } ws (hwake ws (List.mem_cons_self ws envs))
    obtain ⟨⟨hf1, hc1, _, _⟩, _⟩ := obtainBuffer_cases t t1 _ b true ws st hob
    have hroom1 : t1.mCblk.RingRoom (us / t.frameSize) :=
      obtainBuffer_cblk (fun c => c.RingRoom (us / t.frameSize)) t t1 _ b true ws st hroom
        (fun v hv => ringRoom_mono v.cblk _ k
          (henv ws (List.mem_cons_self ws envs) v hv) hk) hob
    have hreq := requestedFrames_eq t us hch hfmt
    have hgrant : st.isNegative = false →
        b.frameCount ≤ t.requestedFrames us ∧
        (t.requestedFrames us > 0 → b.frameCount > 0) ∧
        (t1.releaseBuffer b).mCblk.RingRoom (us / t.frameSize - b.frameCount) := by
      intro hn
      have hst2 : st = Status.NO_ERROR ∨ st = Status.STOPPED := by
        cases st <;> simp [Status.isNegative] at hn ⊢
      obtain ⟨_, _, hav, _, hb⟩ := obtainBuffer_success_eq t t1 _ b true ws st hob hst2
      obtain ⟨r1, r2, r3⟩ := ringRoom_step t1.mCblk (t.requestedFrames us) (us / t.frameSize)
        hroom1 (by rw [hreq])
      rw [hb]
      exact ⟨r2, r3 hav, r1⟩
    rcases writeLoop_step_some src ws envs t pcm ab us sp w st b t1 hob with
      ⟨hst, hr, hc⟩ | ⟨hn, hz, hr, hc⟩ | ⟨pcm1, hn, hz, hr, hc⟩
    · refine ⟨(by rw [hr]; exact fun h => Option.noConfusion h), fun c hcm => ?_⟩
      rw [hc] at hcm
      rw [List.mem_singleton.mp hcm]
      have := obtainBuffer_failed_frames t t1 _ b true ws st hob (by rw [hst]; rfl)
      show b.frameCount ≤ t.requestedFrames us
      omega
    · refine ⟨(by rw [hr]; exact fun h => Option.noConfusion h), fun c hcm => ?_⟩
      rw [hc] at hcm
      rw [List.mem_singleton.mp hcm]
      exact (hgrant hn).1
    · obtain ⟨g1, g2, g3⟩ := hgrant hn
      have hsz := obtainBuffer_size t t1 _ b true ws st hob hn
      obtain ⟨a1, a2, a3, a4⟩ := write_step_arith t t1 b us hf1 hsz hch hfmt hus hmul g1
      have hpos := frameSize_pos t hch
      have hfs : (t1.releaseBuffer b).frameSize = t.frameSize := by
        simp only [Track.frameSize, Track.releaseBuffer, hf1, hc1]
      have hdiv := frames_after_step us b.frameCount t.frameSize hpos hmul
      have hne : us - b.frameCount * t.frameSize ≠ 0 := by
        rw [a3] at hz
        exact hz
      have hq : us = us / t.frameSize * t.frameSize :=
        (Nat.div_mul_cancel (Nat.dvd_of_mod_eq_zero hmul)).symm
      have hreqpos : t.requestedFrames us > 0 := by
        rw [hreq]
        rcases Nat.eq_zero_or_pos (us / t.frameSize) with h0 | h0
        · rw [h0, Nat.zero_mul] at hq
          omega
        · exact h0
      have hgpos := g2 hreqpos
      obtain ⟨i1, i2⟩ := ih (t1.releaseBuffer b) pcm1 b (sub32 us (Track.toWrite t1 b))
        (sp + Track.toWrite t1 b) (i32 (w + Track.toWrite t1 b))
        (by simp only [Track.releaseBuffer]; rw [hc1]; exact hch)
        (by simp only [Track.releaseBuffer]; rw [hf1]; exact hfmt)
        (by rw [a3]; omega)
        (by rw [a3, hfs]; exact a4)
        (by rw [a3, hfs, hdiv]; omega)
        (by rw [a3, hfs, hdiv]; exact g3)
        (fun v hv => henv v (List.mem_cons_of_mem ws hv))
        (fun v hv => hwake v (List.mem_cons_of_mem ws hv))
        (by
          rw [a3, hfs, hdiv]
          simp only [List.length_cons] at hlen
          omega)
      refine ⟨(by rw [hr]; exact i1), fun c hcm => ?_⟩
      rw [hc] at hcm
      rcases List.mem_cons.mp hcm with rfl | hcm
      · exact g1
      · exact i2 c hcm

end AudioTrack
